import Mathlib

/-!
# EMLL: feature sets, port references and the model transformer

A shallow embedding of

* `libraries/features/src/FeatureSet.cpp`, `libraries/features/src/InputFeature.cpp`
* `libraries/model/src/OutputPortElements.cpp`, `libraries/model/src/ModelTransformer.cpp`

Objects that C++ mutates in place are passed and returned explicitly.  Pointers are
addresses (`Nat`), a null pointer is `none`.  A member function that can stop early
(failed `assert`, thrown exception, null dereference) returns an `Outcome`, which keeps the
state that had been reached when it stopped, or an `Except` where only the failure itself
matters.
-/

/-- Ways in which the embedded member functions stop without returning. -/
inductive Error where
  /-- a failed `assert(...)` -/
  | assertionFailure
  /-- a member call through a null pointer -/
  | nullDereference
  /-- Thrown `utilities::InputException(InputExceptionErrors::invalidArgument, ...)` -/
  | invalidArgument
  /-- Thrown `std::runtime_error(what)` -/
  | runtimeError (what : String)
  deriving DecidableEq, Repr

/-- What a mutating member function leaves behind: the state it reached, together with
the value it returned or the failure that stopped it. -/
inductive Outcome (σ α : Type) where
  | returned (state : σ) (value : α)
  | failed (state : σ) (err : Error)
  deriving DecidableEq, Repr

namespace Outcome

/-- State reached, whether or not the call returned. -/
def state {σ α : Type} : Outcome σ α → σ
  | returned s _ => s
  | failed s _ => s

/-- Returned value, if the call returned. -/
def value? {σ α : Type} : Outcome σ α → Option α
  | returned _ a => some a
  | failed _ _ => none

end Outcome

/-! ## `std::unordered_map`

An `unordered_map` is embedded as an association list with at most one entry per key.
Iteration order is not modelled; no embedded function iterates over a map. -/
namespace AssocMap

/-- Embeds `m.find(k)`: the mapped value, `none` for `m.end()`. -/
def find {κ ν : Type} [DecidableEq κ] : List (κ × ν) → κ → Option ν
  | [], _ => none
  | (k', v) :: rest, k => if k' = k then some v else find rest k

/-- Embeds `m[k] = v`: inserts, or replaces the value already mapped to `k`. -/
def assign {κ ν : Type} [DecidableEq κ] (k : κ) (v : ν) (m : List (κ × ν)) : List (κ × ν) :=
  (k, v) :: m.filter (fun e => !decide (e.1 = k))

/-- Embeds `m.emplace(k, v)`: inserts unless `k` is already mapped, in which case `m` is unchanged. -/
def emplace {κ ν : Type} [DecidableEq κ] (k : κ) (v : ν) (m : List (κ × ν)) : List (κ × ν) :=
  match find m k with
  | some _ => m
  | none => (k, v) :: m

end AssocMap

namespace features

/-- Address of a `Feature` object. -/
abbrev FeaturePtr := Nat

/-- Embeds `features::InputFeature` (InputFeature.h): `_currentValue` is its own member,
`_outputDimension` and the dirty flag are the members of the `Feature` base class that
`InputFeature.cpp` reads and writes.  `V` is the element type of a sample (`double` in the
source; the embedded code never inspects an element). -/
structure InputFeature (V : Type) where
  _outputDimension : Nat
  _currentValue : List V
  _isDirty : Bool
  deriving DecidableEq, Repr

/-- The feature objects a `FeatureSet` works on: the object `_inputFeature` points to, and
`others`, the state of every other feature of the graph (caches, dirty flags, windows)
together with the base-class members of the input feature that are not listed in
`InputFeature`. -/
structure Memory (V G : Type) where
  input : InputFeature V
  others : G

/-- The members of the `Feature` base class that `FeatureSet.cpp` and `InputFeature.cpp`
call and that are declared in Feature.h, which is not among the sources.  They are taken as
parameters.  A call on a feature may read the input feature, and writes only the input
feature's dirty flag and the other features' state: `_currentValue` is written by
`InputFeature::SetValue` alone and `_outputDimension` by the constructor alone. -/
structure FeatureOps (V G : Type) where
  /-- Stands for `Feature::WarmupTime()` of the feature at an address -/
  WarmupTime : FeaturePtr → Nat
  /-- Stands for `Feature::HasOutput()` -/
  HasOutput : FeaturePtr → InputFeature V → G → Bool
  /-- Stands for `Feature::GetOutput()`: the value, the input feature's dirty flag and the other
  features' state after the pull -/
  GetOutput : FeaturePtr → InputFeature V → G → List V × Bool × G
  /-- Stands for `Feature::Reset()` -/
  Reset : FeaturePtr → InputFeature V → G → Bool × G
  /-- what `SetDirtyFlag(true)` on the input feature does to the features depending on it -/
  SetDirtyDependents : G → G

/-- Embeds `SetDirtyFlag(true)` called on the input feature: sets its flag and propagates. -/
def InputFeature.SetDirtyFlag {V G : Type} (ops : FeatureOps V G) (m : Memory V G) : Memory V G :=
  { input := { m.input with _isDirty := true }, others := ops.SetDirtyDependents m.others }

/-- Embeds `InputFeature::SetValue(val)`:
```
_currentValue = val;
assert(_outputDimension == val.size());
SetDirtyFlag(true); // propagates through graph
```
-/
def InputFeature.SetValue {V G : Type} (ops : FeatureOps V G) (val : List V) (m : Memory V G) :
    Outcome (Memory V G) Unit :=
  let m1 : Memory V G := { m with input := { m.input with _currentValue := val } }
  if m1.input._outputDimension = val.length then
    .returned (InputFeature.SetDirtyFlag ops m1) ()
  else
    .failed m1 .assertionFailure

/-- Embeds `p->GetOutput()` for the feature at address `p`. -/
def Feature.GetOutput {V G : Type} (ops : FeatureOps V G) (p : FeaturePtr) (m : Memory V G) :
    Memory V G × List V :=
  let r := ops.GetOutput p m.input m.others
  ({ input := { m.input with _isDirty := r.2.1 }, others := r.2.2 }, r.1)

/-- Embeds `p->Reset()` for the feature at address `p`. -/
def Feature.Reset {V G : Type} (ops : FeatureOps V G) (p : FeaturePtr) (m : Memory V G) :
    Memory V G :=
  let r := ops.Reset p m.input m.others
  { input := { m.input with _isDirty := r.1 }, others := r.2 }

/-- Data members of `features::FeatureSet` used by FeatureSet.cpp. `_features` holds the
addresses of the owned features, `_featureMap` is the id index. -/
structure FeatureSet where
  _features : List FeaturePtr
  _featureMap : List (String × FeaturePtr)
  _inputFeature : Option FeaturePtr
  _outputFeature : Option FeaturePtr
  _numItemsProcessed : Nat
  deriving DecidableEq, Repr

/-- Embeds `FeatureSet::FeatureSet() : _numItemsProcessed(0) {}` -/
def FeatureSet.new : FeatureSet :=
  { _features := [], _featureMap := [], _inputFeature := none, _outputFeature := none,
    _numItemsProcessed := 0 }

/-- A feature set together with the feature objects its pointers refer to. -/
structure World (V G : Type) where
  fs : FeatureSet
  mem : Memory V G

/-- Embeds `FeatureSet::Reset()` -/
def FeatureSet.Reset {V G : Type} (ops : FeatureOps V G) (w : World V G) : World V G :=
  let fs1 := { w.fs with _numItemsProcessed := 0 }
  match fs1._outputFeature with
  | some o => { fs := fs1, mem := Feature.Reset ops o w.mem }
  | none => { fs := fs1, mem := w.mem }

/-- Embeds `FeatureSet::HasOutput()`:
`return _numItemsProcessed >= _outputFeature->WarmupTime() && _outputFeature->HasOutput();` -/
def FeatureSet.HasOutput {V G : Type} (ops : FeatureOps V G) (w : World V G) : Except Error Bool :=
  match w.fs._outputFeature with
  | none => .error .nullDereference
  | some o =>
    .ok (decide (ops.WarmupTime o ≤ w.fs._numItemsProcessed)
          && ops.HasOutput o w.mem.input w.mem.others)

/-- Embeds `FeatureSet::ProcessInputData(inst)`.  The counter is incremented only below the warm-up
time, so `++_numItemsProcessed` cannot wrap. -/
def FeatureSet.ProcessInputData {V G : Type} (ops : FeatureOps V G) (inst : List V)
    (w : World V G) : Outcome (World V G) Bool :=
  match w.fs._inputFeature, w.fs._outputFeature with
  | some _, some o =>
    match InputFeature.SetValue ops inst w.mem with
    | .failed m e => .failed { w with mem := m } e
    | .returned m1 _ =>
      let w2 : World V G := { w with mem := (Feature.GetOutput ops o m1).1 }
      match FeatureSet.HasOutput ops w2 with
      | .error e => .failed w2 e
      | .ok hasOutput =>
        if w2.fs._numItemsProcessed < ops.WarmupTime o then
          .returned { w2 with fs := { w2.fs with
            _numItemsProcessed := w2.fs._numItemsProcessed + 1 } } hasOutput
        else
          .returned w2 hasOutput
  | _, _ => .returned w false

/-- Consecutive `ProcessInputData` calls, one per sample; stops at the first call that does
not return.  The value is the list of the booleans the calls returned. -/
def FeatureSet.ProcessAll {V G : Type} (ops : FeatureOps V G) :
    List (List V) → World V G → Outcome (World V G) (List Bool)
  | [], w => .returned w []
  | inst :: rest, w =>
    match FeatureSet.ProcessInputData ops inst w with
    | .failed w1 e => .failed w1 e
    | .returned w1 b =>
      match FeatureSet.ProcessAll ops rest w1 with
      | .failed w2 e => .failed w2 e
      | .returned w2 bs => .returned w2 (b :: bs)

end features

namespace features

/-! ### Lowering into a `layers::Model` (`FeatureSet::AddToModel`)

`layers::Model` and `layers::CoordinateList` belong to another library; they are the type
parameters `M` and `List K`. -/

/-- The local `std::unordered_map<const Feature*, layers::CoordinateList>`. -/
abbrev FeatureOutputs (K : Type) := List (FeaturePtr × List K)

/-- The virtual members of the feature objects that `AddToModel` depends on (Feature.h and
the other feature kinds are not among the sources): the dynamic type of the object at an
address, and `AddToModel` of the kinds other than `InputFeature`, which returns the
coordinates it produced and the model it extended, or throws. -/
structure Lowering (M K : Type) where
  isInputFeature : FeaturePtr → Bool
  AddToModel : FeaturePtr → M → FeatureOutputs K → Except Error (List K × M)

/-- Embeds `InputFeature::AddToModel`: `throw std::runtime_error("Not implemented");` -/
def InputFeature.AddToModel {M K : Type} (_model : M) (_featureOutputs : FeatureOutputs K) :
    Except Error (List K × M) :=
  .error (.runtimeError "Not implemented")

/-- The virtual call `f.AddToModel(model, featureOutputs)`. -/
def Feature.AddToModel {M K : Type} (L : Lowering M K) (f : FeaturePtr) (model : M)
    (featureOutputs : FeatureOutputs K) : Except Error (List K × M) :=
  if L.isInputFeature f then InputFeature.AddToModel model featureOutputs
  else L.AddToModel f model featureOutputs

/-- What the `modelAdder` lambda captures by reference. -/
structure AdderState (M K : Type) where
  model : M
  featureOutputs : FeatureOutputs K
  outputCoordinates : List K

/-- The `coordinates` the `modelAdder` lambda computes for `f`, with the model afterwards:
```
if(featurePtr == _inputFeature) coordinates = inputCoordinates;
else coordinates = f.AddToModel(model, featureOutputs);
```
-/
def FeatureSet.coordinatesFor {M K : Type} (L : Lowering M K) (fs : FeatureSet)
    (inputCoordinates : List K) (s : AdderState M K) (f : FeaturePtr) :
    Except Error (List K × M) :=
  if some f = fs._inputFeature then .ok (inputCoordinates, s.model)
  else Feature.AddToModel L f s.model s.featureOutputs

/-- One call of the `modelAdder` lambda of `FeatureSet::AddToModel` on the feature `f`. -/
def FeatureSet.modelAdder {M K : Type} (L : Lowering M K) (fs : FeatureSet)
    (inputCoordinates : List K) (s : AdderState M K) (f : FeaturePtr) :
    Except Error (AdderState M K) :=
  match FeatureSet.coordinatesFor L fs inputCoordinates s f with
  | .error e => .error e
  | .ok (coordinates, model1) =>
    .ok { model := model1
          featureOutputs := AssocMap.emplace f coordinates s.featureOutputs
          outputCoordinates :=
            if some f = fs._outputFeature then coordinates else s.outputCoordinates }

/-- Embeds `Visit(modelAdder)` over the features the traversal yields, in that order. -/
def FeatureSet.visitAdder {M K : Type} (L : Lowering M K) (fs : FeatureSet)
    (inputCoordinates : List K) : List FeaturePtr → AdderState M K → Except Error (AdderState M K)
  | [], s => .ok s
  | f :: rest, s =>
    match FeatureSet.modelAdder L fs inputCoordinates s f with
    | .error e => .error e
    | .ok s1 => FeatureSet.visitAdder L fs inputCoordinates rest s1

/-- Body of `FeatureSet::AddToModel` up to the `return`: the two assertions, the empty
locals, the traversal.  `visit` is the sequence of features `FeatureSet::Visit` (FeatureSet.h,
not among the sources) calls its visitor on. -/
def FeatureSet.AddToModelRun {M K : Type} (L : Lowering M K) (visit : FeatureSet → List FeaturePtr)
    (fs : FeatureSet) (model : M) (inputCoordinates : List K) : Except Error (AdderState M K) :=
  match fs._inputFeature, fs._outputFeature with
  | none, _ => .error .assertionFailure
  | some _, none => .error .assertionFailure
  | some _, some _ =>
    FeatureSet.visitAdder L fs inputCoordinates (visit fs)
      { model := model, featureOutputs := [], outputCoordinates := [] }

/-- Embeds `FeatureSet::AddToModel(model, inputCoordinates)`: returns `outputCoordinates`; the
second component is the target model after the call. -/
def FeatureSet.AddToModel {M K : Type} (L : Lowering M K) (visit : FeatureSet → List FeaturePtr)
    (fs : FeatureSet) (model : M) (inputCoordinates : List K) : Except Error (List K × M) :=
  match FeatureSet.AddToModelRun L visit fs model inputCoordinates with
  | .error e => .error e
  | .ok s => .ok (s.outputCoordinates, s.model)

end features

namespace model

/-- Address of a `Port`. -/
abbrev PortPtr := Nat

/-- What `Size()` of the port at each address returns at some moment (`Port::Size()` is
declared in Port.h, not among the sources). -/
abbrev PortSizes := PortPtr → Nat

/-- Number of values of `size_t`. -/
def sizeModulus : Nat := 2 ^ 64

/-- Embeds `model::OutputPortRange` -/
structure OutputPortRange where
  _referencedPort : PortPtr
  _startIndex : Nat
  _numValues : Nat
  _isFixedSize : Bool
  deriving DecidableEq, Repr

/-- Embeds `OutputPortRange::OutputPortRange(const OutputPortBase& port)` -/
def OutputPortRange.ofPort (sizes : PortSizes) (port : PortPtr) : OutputPortRange :=
  { _referencedPort := port, _startIndex := 0, _numValues := sizes port, _isFixedSize := false }

/-- Embeds `OutputPortRange::OutputPortRange(const OutputPortBase& port, size_t index)` -/
def OutputPortRange.ofIndex (port : PortPtr) (index : Nat) : OutputPortRange :=
  { _referencedPort := port, _startIndex := index, _numValues := 1, _isFixedSize := true }

/-- Embeds `OutputPortRange::OutputPortRange(const OutputPortBase& port, size_t startIndex, size_t numValues)` -/
def OutputPortRange.ofSlice (port : PortPtr) (startIndex numValues : Nat) : OutputPortRange :=
  { _referencedPort := port, _startIndex := startIndex, _numValues := numValues,
    _isFixedSize := true }

/-- Embeds `OutputPortRange::Size()` -/
def OutputPortRange.Size (sizes : PortSizes) (r : OutputPortRange) : Nat :=
  if r._isFixedSize then r._numValues else sizes r._referencedPort

/-- Embeds `OutputPortRange::GetStartIndex()` -/
def OutputPortRange.GetStartIndex (r : OutputPortRange) : Nat := r._startIndex

/-- Embeds `OutputPortRange::ReferencedPort()` -/
def OutputPortRange.ReferencedPort (r : OutputPortRange) : PortPtr := r._referencedPort

/-- Embeds `OutputPortRange::IsFullPortRange()` -/
def OutputPortRange.IsFullPortRange (sizes : PortSizes) (r : OutputPortRange) : Bool :=
  decide (r.GetStartIndex = 0) && decide (r.Size sizes = sizes r.ReferencedPort)

/-- Embeds `model::OutputPortElementsUntyped` -/
structure OutputPortElementsUntyped where
  _ranges : List OutputPortRange
  _size : Nat
  deriving DecidableEq, Repr

/-- A default-constructed object, before a constructor body runs: no ranges.  Every
constructor of OutputPortElements.cpp overwrites `_size` through `ComputeSize`. -/
def OutputPortElementsUntyped.blank : OutputPortElementsUntyped :=
  { _ranges := [], _size := 0 }

/-- Embeds `OutputPortElementsUntyped::ComputeSize()`: `_size = 0`, then `_size += range.Size()` for
each range, in `size_t` arithmetic. -/
def OutputPortElementsUntyped.ComputeSize (sizes : PortSizes) (e : OutputPortElementsUntyped) :
    OutputPortElementsUntyped :=
  { e with _size := e._ranges.foldl (fun acc range => (acc + range.Size sizes) % sizeModulus) 0 }

/-- Embeds `OutputPortElementsUntyped::AddRange(range)`: `_ranges.push_back(range);` -/
def OutputPortElementsUntyped.AddRange (range : OutputPortRange) (e : OutputPortElementsUntyped) :
    OutputPortElementsUntyped :=
  { e with _ranges := e._ranges ++ [range] }

/-- Embeds `OutputPortElementsUntyped::OutputPortElementsUntyped(const OutputPortBase& port)` -/
def OutputPortElementsUntyped.ofPort (sizes : PortSizes) (port : PortPtr) :
    OutputPortElementsUntyped :=
  OutputPortElementsUntyped.ComputeSize sizes
    { OutputPortElementsUntyped.blank with
      _ranges := OutputPortElementsUntyped.blank._ranges ++ [OutputPortRange.ofPort sizes port] }

/-- Embeds `OutputPortElementsUntyped::OutputPortElementsUntyped(const OutputPortBase& port, size_t startIndex)` -/
def OutputPortElementsUntyped.ofIndex (sizes : PortSizes) (port : PortPtr) (startIndex : Nat) :
    OutputPortElementsUntyped :=
  OutputPortElementsUntyped.ComputeSize sizes
    { OutputPortElementsUntyped.blank with
      _ranges := OutputPortElementsUntyped.blank._ranges
        ++ [OutputPortRange.ofIndex port startIndex] }

/-- Embeds `OutputPortElementsUntyped::OutputPortElementsUntyped(const OutputPortBase& port, size_t startIndex, size_t numValues)` -/
def OutputPortElementsUntyped.ofSlice (sizes : PortSizes) (port : PortPtr)
    (startIndex numValues : Nat) : OutputPortElementsUntyped :=
  OutputPortElementsUntyped.ComputeSize sizes
    { OutputPortElementsUntyped.blank with
      _ranges := OutputPortElementsUntyped.blank._ranges
        ++ [OutputPortRange.ofSlice port startIndex numValues] }

/-- Embeds `OutputPortElementsUntyped::OutputPortElementsUntyped(const OutputPortRange& range)` -/
def OutputPortElementsUntyped.ofRange (sizes : PortSizes) (range : OutputPortRange) :
    OutputPortElementsUntyped :=
  OutputPortElementsUntyped.ComputeSize sizes
    { OutputPortElementsUntyped.blank with
      _ranges := OutputPortElementsUntyped.blank._ranges ++ [range] }

/-- Embeds `OutputPortElementsUntyped::OutputPortElementsUntyped(const std::vector<OutputPortRange>& ranges)` -/
def OutputPortElementsUntyped.ofRanges (sizes : PortSizes) (ranges : List OutputPortRange) :
    OutputPortElementsUntyped :=
  OutputPortElementsUntyped.ComputeSize sizes
    { OutputPortElementsUntyped.blank with
      _ranges := OutputPortElementsUntyped.blank._ranges ++ ranges }

/-- Modelled from the spec: `OutputPortElementsUntyped::Size()`, which is defined in
OutputPortElements.h, a header that is not among the sources.  The spec says of it (4.1)
"`Size()` recomputes lazily from current constituent sizes — callers must not assume it is
fixed at construction time for whole-port ranges", and of a Port-Elements "its size is the sum
of the constituent ranges' sizes".  A query made while the port sizes are `sizes` therefore
runs the summation of `ComputeSize` over the ranges held and returns the `_size` it leaves. -/
def OutputPortElementsUntyped.Size (sizes : PortSizes) (e : OutputPortElementsUntyped) : Nat :=
  (e.ComputeSize sizes)._size

/-! ### `ModelTransformer` -/

/-- Embeds `model::Node` as far as the transformer is concerned (Node.h is not among the sources):
the ports of other nodes its inputs refer to, and the output ports it owns. -/
structure Node where
  id : Nat
  inputs : List PortPtr
  outputs : List PortPtr
  deriving DecidableEq, Repr

/-- Embeds `model::Model` (Model.h is not among the sources): the nodes it owns. -/
structure Model where
  nodes : List Node
  deriving DecidableEq, Repr

/-- Embeds `Model()` -/
def Model.empty : Model := { nodes := [] }

/-- Data members of `model::ModelTransformer`: the model under construction and
`std::unordered_map<const Port*, Port*> _portMap`. -/
structure ModelTransformer where
  _model : Model
  _portMap : List (PortPtr × PortPtr)
  deriving DecidableEq, Repr

/-- Embeds `ModelTransformer::GetCorrespondingPort(port)`.  `_portMap[&port]` is evaluated only for
a key that is present, so the map is not changed. -/
def ModelTransformer.GetCorrespondingPort (t : ModelTransformer) (port : PortPtr) :
    Except Error PortPtr :=
  match AssocMap.find t._portMap port with
  | none => .error .invalidArgument
  | some newPort => .ok newPort

/-- Embeds `ModelTransformer::MapPort(oldPort, newPort)`: `_portMap[&oldPort] = nonconstPort;` -/
def ModelTransformer.MapPort (oldPort newPort : PortPtr) (t : ModelTransformer) :
    ModelTransformer :=
  { t with _portMap := AssocMap.assign oldPort newPort t._portMap }

/-- A sequence of `MapPort(oldPort, newPort)` calls, first call first. -/
def ModelTransformer.mapPorts (registrations : List (PortPtr × PortPtr)) (t : ModelTransformer) :
    ModelTransformer :=
  registrations.foldl (fun acc r => ModelTransformer.MapPort r.1 r.2 acc) t

/-- A per-node rewrite rule, `node.Copy(transformer)` or `node.Refine(transformer)`: both are
virtual members of the node kinds (not among the sources) and are taken as parameters.  A
rule works on the transformer it is handed, or throws. -/
abbrev NodeRule := Node → ModelTransformer → Except Error ModelTransformer

/-- Embeds `oldModel.Visit(visitor)` with the visitor `[this](const Node& node) { rule }`, over the
sequence of nodes the traversal yields. -/
def ModelTransformer.visitNodes (rule : NodeRule) :
    List Node → ModelTransformer → Except Error ModelTransformer
  | [], t => .ok t
  | node :: rest, t =>
    match rule node t with
    | .error e => .error e
    | .ok t1 => ModelTransformer.visitNodes rule rest t1

/-- Embeds `ModelTransformer::CopyModel(oldModel)`.  `visit` is the sequence of nodes `Model::Visit`
(Model.h) calls its visitor on, `copy` is `Node::Copy`.  The result is the transformer after
the call and the returned `_model`. -/
def ModelTransformer.CopyModel (visit : Model → List Node) (copy : NodeRule) (oldModel : Model)
    (t : ModelTransformer) : Except Error (ModelTransformer × Model) :=
  let t1 := { t with _model := Model.empty }
  let t2 := { t1 with _portMap := [] }
  match ModelTransformer.visitNodes copy (visit oldModel) t2 with
  | .error e => .error e
  | .ok t3 => .ok (t3, t3._model)

/-- Embeds `ModelTransformer::RefineModel(oldModel)`; `refine` is `Node::Refine`. -/
def ModelTransformer.RefineModel (visit : Model → List Node) (refine : NodeRule)
    (oldModel : Model) (t : ModelTransformer) : Except Error (ModelTransformer × Model) :=
  let t1 := { t with _model := Model.empty }
  let t2 := { t1 with _portMap := [] }
  match ModelTransformer.visitNodes refine (visit oldModel) t2 with
  | .error e => .error e
  | .ok t3 => .ok (t3, t3._model)

/-- Whether a correspondence for `port` is registered. -/
def ModelTransformer.isMapped (t : ModelTransformer) (port : PortPtr) : Bool :=
  (AssocMap.find t._portMap port).isSome

/-- The traversal order respects dependencies: every port a node's inputs refer to is an
output port of a node that comes earlier (`visited` are the nodes already seen). -/
def visitsInDependencyOrder (visited : List Node) : List Node → Bool
  | [] => true
  | node :: rest =>
    node.inputs.all (fun p => visited.any (fun m => decide (p ∈ m.outputs)))
      && visitsInDependencyOrder (visited ++ [node]) rest

/-- A rule registers a correspondence for each output port of the node it processes; a
registration only adds to the correspondence (`MapPort` is the one writer of `_portMap`
available to a rule), so ports registered before stay registered. -/
def RegistersOutputs (rule : NodeRule) : Prop :=
  ∀ (node : Node) (t t1 : ModelTransformer), rule node t = .ok t1 →
    (∀ p ∈ node.outputs, t1.isMapped p = true) ∧ (∀ p, t.isMapped p = true → t1.isMapped p = true)

/-- A rule does not throw when the correspondence of each input of its node is registered. -/
def SucceedsOnMappedInputs (rule : NodeRule) : Prop :=
  ∀ (node : Node) (t : ModelTransformer), (∀ p ∈ node.inputs, t.isMapped p = true) →
    ∃ t1, rule node t = .ok t1

/-- Processing a node of `nodes`, the rule never registers a correspondence for `port`. -/
def RegistersNothingFor (rule : NodeRule) (nodes : List Node) (port : PortPtr) : Prop :=
  ∀ node ∈ nodes, ∀ (t t1 : ModelTransformer), rule node t = .ok t1 →
    t.isMapped port = false → t1.isMapped port = false

/-- Embeds `transformer.AddNode(...)` as far as the model is concerned: the new node is appended. -/
def ModelTransformer.AddNode (node : Node) (t : ModelTransformer) : ModelTransformer :=
  { t with _model := { nodes := t._model.nodes ++ [node] } }

/-- Embeds `GetCorrespondingPort` for each port of a list, first port first; the first failure is
the result. -/
def ModelTransformer.correspondingPorts (t : ModelTransformer) :
    List PortPtr → Except Error (List PortPtr)
  | [] => .ok []
  | p :: rest =>
    match t.GetCorrespondingPort p with
    | .error e => .error e
    | .ok q =>
      match ModelTransformer.correspondingPorts t rest with
      | .error e => .error e
      | .ok qs => .ok (q :: qs)

/-- Modelled from the spec: the default `Node::Copy`, whose code is not among the sources:
"each node's default behavior is to create an equivalent node in the new graph and register
the correspondence for each of its output ports".  The inputs of the new node are the
correspondents of the old node's inputs, and `newPort p` is the address of the port created
for the old output port `p`. -/
def Node.Copy (newPort : PortPtr → PortPtr) : NodeRule := fun node t =>
  match t.correspondingPorts node.inputs with
  | .error e => .error e
  | .ok newInputs =>
    .ok (ModelTransformer.mapPorts (node.outputs.map (fun p => (p, newPort p)))
      (ModelTransformer.AddNode
        { id := node.id, inputs := newInputs, outputs := node.outputs.map newPort } t))

end model

namespace features

/-! ### Description text: `FeatureSet::Deserialize`, `Serialize`, `GetFeature` -/

/-- The sequence of strings that repeated `std::getline(stream, s, delim)` calls yield on a
stream holding `chars`: each call takes the characters up to the next delimiter, which it
consumes, or up to the end; a call that finds the stream exhausted fails and ends the
sequence.  `cur` holds, reversed, the characters taken so far by the call under way. -/
def getlineAll (delim : Char) : List Char → List Char → List String
  | [], cur => if cur = [] then [] else [String.mk cur.reverse]
  | c :: cs, cur =>
    if c = delim then String.mk cur.reverse :: getlineAll delim cs []
    else getlineAll delim cs (c :: cur)

/-- The lines `while (std::getline(inStream, lineBuffer))` reads from a stream holding
`text`. -/
def streamLines (text : String) : List String := getlineAll (Char.ofNat 10) text.data []

/-- The fields `while (getline(lineStream, field, '\t'))` pushes onto `description`. -/
def splitFields (lineBuffer : String) : List String := getlineAll (Char.ofNat 9) lineBuffer.data []

/-- The character `lineBuffer[0]`; for an empty `std::string` that is the terminating null
character. -/
def firstChar (lineBuffer : String) : Char := lineBuffer.data.headD (Char.ofNat 0)

/-- Embeds `Feature::FeatureMap`, a `std::unordered_map<std::string, Feature*>`. -/
abbrev FeatureMap := List (String × FeaturePtr)

/-- A registered construction function (`Feature::_createTypeMap` holds one per kind): it
is handed the fields of the line and the id index, through which it reaches the feature
objects created so far, and returns the new feature object or throws. -/
abbrev CreateFunction (F : Type) := List String → FeatureMap → List F → Except Error F

/-- What `FeatureSet.cpp` uses of StringUtil.h and Feature.h, neither of which is among the
sources; these are taken as parameters.  `F` is the type of a feature object.
`createTypeMap kind = none` stands for the null entry that `Feature::_createTypeMap[kind]`
yields for a kind that was never registered. -/
structure FeatureFactory (F : Type) where
  TrimString : String → String
  createTypeMap : String → Option (CreateFunction F)
  FindInputFeature : List F → FeaturePtr → Option FeaturePtr
  FromDescription : CreateFunction F
  Id : F → String

/-- A feature set together with the feature objects created so far.  Objects are created one
after the other and never destroyed while the set lives: the object at address `p` is
`objects[p]`, and the next object gets the address `objects.length`. -/
structure FeatureStore (F : Type) where
  fs : FeatureSet
  objects : List F

/-- One iteration of the `while` loop of `FeatureSet::Deserialize` on the line just read.
The state is the feature set with its objects; the value is the local `lastFeature`. -/
def FeatureSet.deserializeLine {F : Type} (R : FeatureFactory F) (line : String)
    (st : FeatureStore F) (lastFeature : Option FeaturePtr) :
    Outcome (FeatureStore F) (Option FeaturePtr) :=
  let lineBuffer := R.TrimString line
  if firstChar lineBuffer = '#' then .returned st lastFeature
  else
    let description := splitFields lineBuffer
    if description.length = 0 then .returned st lastFeature
    else if description.length < 2 then
      .failed st (.runtimeError ("Malformed feature specification for line: " ++ lineBuffer))
    else
      let featureId := R.TrimString (description.getD 0 "")
      let featureClass := R.TrimString (description.getD 1 "")
      match R.createTypeMap featureClass with
      | none =>
        .failed st (.runtimeError
          ("Error deserializing feature description: unknown feature type '" ++ featureClass
            ++ "'"))
      | some createFunction =>
        match createFunction description st.fs._featureMap st.objects with
        | .error e => .failed st e
        | .ok feature =>
          .returned
            { fs := { st.fs with
                _features := st.fs._features ++ [st.objects.length]
                _featureMap := AssocMap.assign featureId st.objects.length st.fs._featureMap }
              objects := st.objects ++ [feature] }
            (some st.objects.length)

/-- The `while` loop of `FeatureSet::Deserialize` over the lines still to be read. -/
def FeatureSet.deserializeLoop {F : Type} (R : FeatureFactory F) :
    List String → FeatureStore F → Option FeaturePtr →
      Outcome (FeatureStore F) (Option FeaturePtr)
  | [], st, lastFeature => .returned st lastFeature
  | line :: rest, st, lastFeature =>
    match FeatureSet.deserializeLine R line st lastFeature with
    | .failed st1 e => .failed st1 e
    | .returned st1 lastFeature1 => FeatureSet.deserializeLoop R rest st1 lastFeature1

/-- Embeds `FeatureSet::Deserialize(inStream)` on the lines the stream yields. -/
def FeatureSet.Deserialize {F : Type} (R : FeatureFactory F) (lines : List String)
    (st : FeatureStore F) : Outcome (FeatureStore F) Unit :=
  match FeatureSet.deserializeLoop R lines st none with
  | .failed st1 e => .failed st1 e
  | .returned st1 lastFeature =>
    let fs1 := { st1.fs with _outputFeature := lastFeature }
    match fs1._outputFeature with
    | some o =>
      .returned { st1 with fs := { fs1 with _inputFeature := R.FindInputFeature st1.objects o } } ()
    | none => .returned { st1 with fs := { fs1 with _inputFeature := none } } ()

/-- Embeds `FeatureSet::Deserialize(inStream)` on a stream holding `text`. -/
def FeatureSet.DeserializeText {F : Type} (R : FeatureFactory F) (text : String)
    (st : FeatureStore F) : Outcome (FeatureStore F) Unit :=
  FeatureSet.Deserialize R (streamLines text) st

/-- A line the loop passes over with `continue`: after trimming it starts with `#`, or it is
empty. -/
def FeatureFactory.isSkipped {F : Type} (R : FeatureFactory F) (line : String) : Bool :=
  decide (firstChar (R.TrimString line) = '#') || decide (R.TrimString line = "")

/-- Embeds `FeatureSet::SetOutputFeature(output)`: `_outputFeature = output;` -/
def FeatureSet.SetOutputFeature (output : Option FeaturePtr) (fs : FeatureSet) : FeatureSet :=
  { fs with _outputFeature := output }

/-- Embeds `FeatureSet::GetFeature(featureId)`; `none` is the returned `nullptr`. -/
def FeatureSet.GetFeature (fs : FeatureSet) (featureId : String) : Option FeaturePtr :=
  AssocMap.find fs._featureMap featureId

/-- Embeds `FeatureSet::CreateFeatureFromDescription(description)`. -/
def FeatureSet.CreateFeatureFromDescription {F : Type} (R : FeatureFactory F)
    (description : List String) (st : FeatureStore F) : Outcome (FeatureStore F) FeaturePtr :=
  match R.FromDescription description st.fs._featureMap st.objects with
  | .error e => .failed st e
  | .ok feature =>
    .returned
      { fs := { st.fs with
          _features := st.fs._features ++ [st.objects.length]
          _featureMap := AssocMap.assign (R.Id feature) st.objects.length st.fs._featureMap }
        objects := st.objects ++ [feature] }
      st.objects.length

/-- Embeds `FeatureSet::SerializeActiveGraph(outStream)`.  The state is the text written to the
stream; `serialize f` is what `f.Serialize(outStream)` writes (`Feature::Serialize` is not
among the sources) and `visit` the sequence of features `Visit` calls the visitor on. -/
def FeatureSet.SerializeActiveGraph (serialize : FeaturePtr → String)
    (visit : FeatureSet → List FeaturePtr) (fs : FeatureSet) (outStream : String) :
    Outcome String Unit :=
  match fs._outputFeature with
  | some _ => .returned ((visit fs).foldl (fun out f => out ++ serialize f) outStream) ()
  | none => .failed outStream (.runtimeError "No output feature to serialize")

/-- Embeds `FeatureSet::Serialize(outStream)`. -/
def FeatureSet.Serialize (serialize : FeaturePtr → String)
    (visit : FeatureSet → List FeaturePtr) (fs : FeatureSet) (outStream : String) :
    Outcome String Unit :=
  match fs._outputFeature with
  | some _ => FeatureSet.SerializeActiveGraph serialize visit fs outStream
  | none => .failed outStream (.runtimeError "No output feature to serialize")

/-- Embeds `FeatureSet::GetOutput()`: `return _outputFeature->GetOutput();` -/
def FeatureSet.GetOutput {V G : Type} (ops : FeatureOps V G) (w : World V G) :
    Outcome (World V G) (List V) :=
  match w.fs._outputFeature with
  | none => .failed w .nullDereference
  | some o => .returned { w with mem := (Feature.GetOutput ops o w.mem).1 }
      (Feature.GetOutput ops o w.mem).2

end features

namespace features

/-- The designations agree: the input and the output feature are both set or both null. -/
def FeatureSet.designationsAgree (fs : FeatureSet) : Bool :=
  fs._inputFeature.isSome == fs._outputFeature.isSome

end features

namespace features

/-- The `description` vector the loop builds from a line. -/
def FeatureFactory.fieldsOf {F : Type} (R : FeatureFactory F) (line : String) : List String :=
  splitFields (R.TrimString line)

/-- The `featureId` the loop takes from a line: `TrimString(description[0])`. -/
def FeatureFactory.idOf {F : Type} (R : FeatureFactory F) (line : String) : String :=
  R.TrimString ((R.fieldsOf line).getD 0 "")

/-- The `featureClass` the loop takes from a line: `TrimString(description[1])`. -/
def FeatureFactory.kindOf {F : Type} (R : FeatureFactory F) (line : String) : String :=
  R.TrimString ((R.fieldsOf line).getD 1 "")

/-- The state after a feature object was created for a line with id `featureId`: the object
is owned and indexed under the id. -/
def FeatureStore.add {F : Type} (st : FeatureStore F) (featureId : String) (feature : F) :
    FeatureStore F :=
  { fs := { st.fs with
      _features := st.fs._features ++ [st.objects.length]
      _featureMap := AssocMap.assign featureId st.objects.length st.fs._featureMap }
    objects := st.objects ++ [feature] }

end features

namespace features

/-- The lines of a description for which the loop creates a feature: those it does not pass
over. -/
def FeatureFactory.featureLines {F : Type} (R : FeatureFactory F) (lines : List String) :
    List String :=
  lines.filter (fun l => !R.isSkipped l)

end features

namespace features

/-- The traversal of the feature graph respects dependencies: every feature is visited after
the features it reads.  `upstream f` are the `_inputFeatures` of `f` (Feature.h is not among
the sources) and `visited` the features already seen. -/
def visitsFeaturesInOrder (upstream : FeaturePtr → List FeaturePtr) (visited : List FeaturePtr) :
    List FeaturePtr → Bool
  | [] => true
  | f :: rest =>
    (upstream f).all (fun u => decide (u ∈ visited))
      && visitsFeaturesInOrder upstream (visited ++ [f]) rest

end features

namespace features

/-! ### The description of an input feature -/

/-- Number of values of `uint64_t`. -/
def uint64Modulus : Nat := 2 ^ 64

/-- Embeds `InputFeature::Create(size)`, that is `Allocate({}, size)`, which runs the
constructor: `_outputDimension = size`, with the stored sample default-constructed and so
empty.  `initiallyDirty` is the dirty flag the `Feature` base-class constructor (Feature.h,
not among the sources) leaves. -/
def InputFeature.Create {V : Type} (initiallyDirty : Bool) (size : Nat) : InputFeature V :=
  { _outputDimension := size, _currentValue := [], _isDirty := initiallyDirty }

/-- Embeds `InputFeature::AddToDescription(description)`:
`description.push_back(to_string(_outputDimension));`.  `std::to_string` of an unsigned
integer is its decimal numeral, `toString`. -/
def InputFeature.AddToDescription {V : Type} (f : InputFeature V) (description : List String) :
    List String :=
  description ++ [toString f._outputDimension]

/-- Modelled from the spec: `ParseInt` of StringUtil.h, which is not among the sources.  Of
the text format the spec says that "the Input Feature kind's only parameter is its expected
sample dimensionality"; the helper is modelled as reading a string of decimal digits as the
number it denotes.  What it does with any other string, and the width of its result type,
are not visible and not modelled. -/
def ParseInt (str : String) : Nat :=
  str.data.foldl (fun acc c => 10 * acc + (c.toNat - 48)) 0

/-- Embeds `InputFeature::Deserialize(params, previousFeatures)`:
```
assert(params.size() == 3);
uint64_t size = ParseInt(params[2]);
return Create(size);
```
-/
def InputFeature.Deserialize {V : Type} (initiallyDirty : Bool) (params : List String)
    (_previousFeatures : FeatureMap) : Except Error (InputFeature V) :=
  if params.length = 3 then
    .ok (InputFeature.Create initiallyDirty (ParseInt (params.getD 2 "") % uint64Modulus))
  else .error .assertionFailure

end features

/-! ## Concrete instances -/

namespace features

/-- Feature operations of a two-feature graph whose output feature (any address) has warm-up
time `W`, always reports output and hands the stored sample through. -/
def demoOps (W : Nat) : FeatureOps Int Unit :=
  { WarmupTime := fun _ => W
    HasOutput := fun _ _ _ => true
    GetOutput := fun _ inp g => (inp._currentValue, false, g)
    Reset := fun _ _ g => (true, g)
    SetDirtyDependents := fun g => g }

/-- A fresh feature set with input feature at address 1 (dimension 3, stored sample
`[0, 0, 0]`, clean) and output feature at address 2. -/
def demoWorld : World Int Unit :=
  { fs := { FeatureSet.new with
      _features := [1, 2], _featureMap := [("avg", 2), ("in", 1)],
      _inputFeature := some 1, _outputFeature := some 2 }
    mem := { input := { _outputDimension := 3, _currentValue := [0, 0, 0], _isDirty := false }
             others := () } }

end features

namespace model

/-- Port sizes for the examples: port 1 has 5 elements, port 2 has 4, any other port 2. -/
def demoSizes : PortSizes := fun p => if p = 1 then 5 else if p = 2 then 4 else 2

/-- The whole of port 1, followed by three elements of port 2 from index 1, followed by
element 0 of port 3. -/
def demoRanges : List OutputPortRange :=
  [OutputPortRange.ofPort demoSizes 1, OutputPortRange.ofSlice 2 1 3, OutputPortRange.ofIndex 3 0]

end model

namespace model

/-- A chain of three nodes: node 1 owns port 11, node 2 reads port 11 and owns port 12,
node 3 reads port 12 and owns port 13. -/
def demoChain : Model :=
  { nodes := [{ id := 1, inputs := [], outputs := [11] },
              { id := 2, inputs := [11], outputs := [12] },
              { id := 3, inputs := [12], outputs := [13] }] }

/-- A traversal that yields the nodes in the order the model holds them. -/
def visitStored : Model → List Node := fun m => m.nodes

/-- The default copy rule, creating for the old port `p` the new port `p + 100`. -/
def demoCopy : NodeRule := Node.Copy (fun p => p + 100)

/-- A transformer left over from copying an unrelated graph, in which port 14 was
registered. -/
def usedTransformer : ModelTransformer :=
  { _model := { nodes := [{ id := 9, inputs := [], outputs := [114] }] }, _portMap := [(14, 114)] }

end model

namespace features

/-- A lowering for the examples over a model that is the list of the features lowered so far:
only address 1 holds an `InputFeature`; any other feature appends itself to the model and
produces the single coordinate `(its address, 0)`. -/
def demoLowering : Lowering (List FeaturePtr) (Nat × Nat) :=
  { isInputFeature := fun f => decide (f = 1)
    AddToModel := fun f model _ => .ok ([(f, 0)], model ++ [f]) }

/-- The traversal of the two-feature graph: the input feature, then the output feature. -/
def demoVisit : FeatureSet → List FeaturePtr := fun _ => [1, 2]

/-- The traversal of a graph whose output feature is its input feature. -/
def inputOnlyVisit : FeatureSet → List FeaturePtr := fun _ => [1]

/-- A feature set whose designated output is its input feature, at address 1. -/
def inputOnlySet : FeatureSet :=
  { FeatureSet.new with
    _features := [1], _featureMap := [("in", 1)], _inputFeature := some 1,
    _outputFeature := some 1 }

end features

namespace model

/-- The port sizes of the examples after port 1 has grown from 5 to 7 elements. -/
def demoResized : PortSizes := fun p => if p = 1 then 7 else demoSizes p

end model

namespace features

/-- A feature object for the examples: its id, its kind and the input feature found by
walking upstream from it. -/
structure DemoFeature where
  id : String
  kind : String
  input : Option FeaturePtr
  deriving DecidableEq, Repr

/-- Removes the white space at both ends of a string. -/
def demoTrim (s : String) : String :=
  String.mk ((s.data.dropWhile Char.isWhitespace).reverse.dropWhile Char.isWhitespace).reverse

/-- Construction function of the kind `Input`, as `InputFeature::Deserialize`: three fields
are required. -/
def demoCreateInput : CreateFunction DemoFeature := fun params _ objects =>
  if params.length = 3 then
    .ok { id := params.getD 0 "", kind := "Input", input := some objects.length }
  else .error .assertionFailure

/-- Construction function of the kind `MovingAverage`: the third field names the feature it
reads, which has to be in the id index. -/
def demoCreateAverage : CreateFunction DemoFeature := fun params featureMap objects =>
  match AssocMap.find featureMap (demoTrim (params.getD 2 "")) with
  | none => .error (.runtimeError "unknown input feature")
  | some p =>
    .ok { id := params.getD 0 "", kind := "MovingAverage"
          input := (objects.get? p).bind (fun f => f.input) }

/-- A registry with the two kinds `Input` and `MovingAverage`. -/
def demoFactory : FeatureFactory DemoFeature :=
  { TrimString := demoTrim
    createTypeMap := fun kind =>
      if kind = "Input" then some demoCreateInput
      else if kind = "MovingAverage" then some demoCreateAverage
      else none
    FindInputFeature := fun objects p => (objects.get? p).bind (fun f => f.input)
    FromDescription := fun params featureMap objects =>
      if params.getD 1 "" = "Input" then demoCreateInput params featureMap objects
      else demoCreateAverage params featureMap objects
    Id := fun f => f.id }

/-- A newly constructed feature set without feature objects. -/
def emptyStore : FeatureStore DemoFeature := { fs := FeatureSet.new, objects := [] }

/-- The description of the moving-average graph, line by line, with a comment that
contains tabs and a line of white space. -/
def demoLines : List String :=
  ["#\tid\tkind", "in\tInput\t3", "  \t ", "avg\tMovingAverage\tin\t2"]

end features

namespace features

/-- The state a newly constructed feature set is in after parsing `demoLines`. -/
def demoParsed : FeatureStore DemoFeature :=
  { fs := { _features := [0, 1], _featureMap := [("avg", 1), ("in", 0)]
            _inputFeature := some 0, _outputFeature := some 1, _numItemsProcessed := 0 }
    objects := [{ id := "in", kind := "Input", input := some 0 },
                { id := "avg", kind := "MovingAverage", input := some 0 }] }

/-- A description that defines the id `a` twice. -/
def duplicateLines : List String := ["a\tInput\t3", "a\tInput\t5"]

/-- The state a newly constructed feature set is in after parsing `duplicateLines`. -/
def duplicateParsed : FeatureStore DemoFeature :=
  { fs := { _features := [0, 1], _featureMap := [("a", 1)]
            _inputFeature := some 1, _outputFeature := some 1, _numItemsProcessed := 0 }
    objects := [{ id := "a", kind := "Input", input := some 0 },
                { id := "a", kind := "Input", input := some 1 }] }

end features

namespace features

/-- The features read by each feature of the two-feature graph: the output feature, at
address 2, reads the input feature, at address 1. -/
def demoUpstream : FeaturePtr → List FeaturePtr := fun f => if f = 2 then [1] else []

end features

/-! ## Theorems -/

namespace features

/-- A call of `ProcessInputData` with a sample of the declared dimension on a feature set with
both designations returns; it keeps the designations and the dimension, advances the counter
unless it has reached the warm-up time, and its value is `HasOutput()` as evaluated before
the counter advanced. -/
theorem ProcessInputData_returns {V G : Type} (ops : FeatureOps V G) (inst : List V)
    (w : World V G) (i o : FeaturePtr) (hi : w.fs._inputFeature = some i)
    (ho : w.fs._outputFeature = some o) (hd : inst.length = w.mem.input._outputDimension) :
    ∃ w1 : World V G,
      FeatureSet.ProcessInputData ops inst w
        = .returned w1 (decide (ops.WarmupTime o ≤ w.fs._numItemsProcessed)
            && ops.HasOutput o w1.mem.input w1.mem.others) ∧
      w1.fs._inputFeature = some i ∧ w1.fs._outputFeature = some o ∧
      w1.mem.input._outputDimension = w.mem.input._outputDimension ∧
      w1.fs._numItemsProcessed
        = (if w.fs._numItemsProcessed < ops.WarmupTime o then w.fs._numItemsProcessed + 1
           else w.fs._numItemsProcessed) := by
  obtain ⟨fs, mem⟩ := w
  simp only at hi ho hd
  refine ⟨{ fs := { fs with _numItemsProcessed :=
                if fs._numItemsProcessed < ops.WarmupTime o then fs._numItemsProcessed + 1
                else fs._numItemsProcessed }
            mem := (Feature.GetOutput ops o (InputFeature.SetDirtyFlag ops
                { mem with input := { mem.input with _currentValue := inst } })).1 }, ?_, ?_⟩
  · by_cases hlt : fs._numItemsProcessed < ops.WarmupTime o
    · simp [FeatureSet.ProcessInputData, hi, ho, InputFeature.SetValue, hd,
        FeatureSet.HasOutput, hlt]
    · simp [FeatureSet.ProcessInputData, hi, ho, InputFeature.SetValue, hd,
        FeatureSet.HasOutput, hlt]
      cases fs
      simp_all
  · simp [hi, ho, Feature.GetOutput, InputFeature.SetDirtyFlag]

/-- Consecutive calls with samples of the declared dimension all return; below the warm-up
time the counter counts them, and it stops at the warm-up time. -/
theorem ProcessAll_returns {V G : Type} (ops : FeatureOps V G) (i o : FeaturePtr) :
    ∀ (samples : List (List V)) (w : World V G), w.fs._inputFeature = some i →
      w.fs._outputFeature = some o →
      (∀ s ∈ samples, s.length = w.mem.input._outputDimension) →
      w.fs._numItemsProcessed ≤ ops.WarmupTime o →
      ∃ (w1 : World V G) (bs : List Bool),
        FeatureSet.ProcessAll ops samples w = .returned w1 bs ∧
        w1.fs._inputFeature = some i ∧ w1.fs._outputFeature = some o ∧
        w1.mem.input._outputDimension = w.mem.input._outputDimension ∧
        w1.fs._numItemsProcessed
          = min (w.fs._numItemsProcessed + samples.length) (ops.WarmupTime o) ∧
        bs.length = samples.length := by
  intro samples
  induction samples with
  | nil =>
    intro w hi ho _ hle
    exact ⟨w, [], rfl, hi, ho, rfl, by simp [hle], rfl⟩
  | cons inst rest ih =>
    intro w hi ho hdim hle
    obtain ⟨w1, hstep, hi1, ho1, hd1, hn1⟩ :=
      ProcessInputData_returns ops inst w i o hi ho (hdim inst (List.mem_cons_self _ _))
    have hdim1 : ∀ s ∈ rest, s.length = w1.mem.input._outputDimension := by
      intro s hs
      rw [hd1]
      exact hdim s (List.mem_cons_of_mem _ hs)
    have hle1 : w1.fs._numItemsProcessed ≤ ops.WarmupTime o := by
      rw [hn1]
      split <;> omega
    obtain ⟨w2, bs, hrest, hi2, ho2, hd2, hn2, hlen⟩ := ih w1 hi1 ho1 hdim1 hle1
    refine ⟨w2, (decide (ops.WarmupTime o ≤ w.fs._numItemsProcessed)
        && ops.HasOutput o w1.mem.input w1.mem.others) :: bs, ?_, hi2, ho2, hd2.trans hd1, ?_,
      by simp [hlen]⟩
    · simp only [FeatureSet.ProcessAll, hstep, hrest]
    · rw [hn2, hn1, List.length_cons]
      split <;> omega

/-- Member `FeatureSet::Reset` clears the counter and keeps designations and the declared
dimension. -/
theorem Reset_fields {V G : Type} (ops : FeatureOps V G) (w : World V G) :
    (FeatureSet.Reset ops w).fs = { w.fs with _numItemsProcessed := 0 } ∧
    (FeatureSet.Reset ops w).mem.input._outputDimension = w.mem.input._outputDimension := by
  unfold FeatureSet.Reset
  cases h : w.fs._outputFeature <;> simp [h, Feature.Reset]

/-- C1. Warm-up gating.  On a feature set with a designated input and a designated output
feature whose counter is 0 (newly constructed, or just reset), every sequence of samples of
the declared dimension is processed to the end, and `HasOutput()` queried after the last of
them is false when fewer samples than the output feature's warm-up time were processed,
and is the output feature's own `HasOutput()` otherwise. -/
theorem FeatureSet_warmup_gating {V G : Type} (ops : FeatureOps V G) (w : World V G)
    (i o : FeaturePtr) (samples : List (List V))
    (hi : w.fs._inputFeature = some i) (ho : w.fs._outputFeature = some o)
    (hfresh : w.fs._numItemsProcessed = 0)
    (hdim : ∀ s ∈ samples, s.length = w.mem.input._outputDimension) :
    ∃ (w1 : World V G) (bs : List Bool),
      FeatureSet.ProcessAll ops samples w = .returned w1 bs ∧
      (samples.length < ops.WarmupTime o → FeatureSet.HasOutput ops w1 = .ok false) ∧
      (ops.WarmupTime o ≤ samples.length →
        FeatureSet.HasOutput ops w1 = .ok (ops.HasOutput o w1.mem.input w1.mem.others)) := by
  obtain ⟨w1, bs, hrun, _, ho1, _, hn1, _⟩ :=
    ProcessAll_returns ops i o samples w hi ho hdim (by omega)
  refine ⟨w1, bs, hrun, ?_, ?_⟩
  · intro hk
    have : ¬ ops.WarmupTime o ≤ w1.fs._numItemsProcessed := by
      rw [hn1, hfresh]; omega
    simp [FeatureSet.HasOutput, ho1, this]
  · intro hk
    have : ops.WarmupTime o ≤ w1.fs._numItemsProcessed := by
      rw [hn1, hfresh]; omega
    simp [FeatureSet.HasOutput, ho1, this]

/-- Witness for C1: a reset feature set with warm-up time 2 and three samples of
dimension 3. -/
theorem FeatureSet_warmup_gating_witness :
    ∃ (w1 : World Int Unit) (bs : List Bool),
      FeatureSet.ProcessAll (demoOps 2) [[1, 0, 0], [3, 0, 0], [5, 0, 0]]
          (FeatureSet.Reset (demoOps 2) demoWorld) = .returned w1 bs ∧
      (3 < 2 → FeatureSet.HasOutput (demoOps 2) w1 = .ok false) ∧
      (2 ≤ 3 → FeatureSet.HasOutput (demoOps 2) w1
        = .ok ((demoOps 2).HasOutput 2 w1.mem.input w1.mem.others)) :=
  FeatureSet_warmup_gating (demoOps 2) (FeatureSet.Reset (demoOps 2) demoWorld) 1 2
    [[1, 0, 0], [3, 0, 0], [5, 0, 0]] (by decide) (by decide) (by decide) (by decide)

/-- C2. With warm-up time 2 and an output feature that has a value, the second
`ProcessInputData` call on a fresh feature set returns `false`, although `HasOutput()` called
right after it returns `true`: the returned boolean is taken before the counter is
advanced. -/
theorem ProcessInputData_value_lags_HasOutput :
    (FeatureSet.ProcessAll (demoOps 2) [[1, 0, 0], [3, 0, 0]] demoWorld).value?
      = some [false, false] ∧
    FeatureSet.HasOutput (demoOps 2)
      (FeatureSet.ProcessAll (demoOps 2) [[1, 0, 0], [3, 0, 0]] demoWorld).state = .ok true ∧
    (FeatureSet.ProcessAll (demoOps 2) [[1, 0, 0], [3, 0, 0]] demoWorld).state.fs._numItemsProcessed
      = 2 := by
  refine ⟨by rfl, by rfl, by rfl⟩

/-- C3. `SetValue` with a sample of length 2 on an input feature of dimension 3 stops at the
assertion after `_currentValue` has been overwritten: the stored sample is `[1, 2]`, no
longer `[0, 0, 0]`.  The dirty flag is as before, and `ProcessInputData` stops at the same
point with the counter as before. -/
theorem SetValue_overwrites_before_assert :
    InputFeature.SetValue (demoOps 2) [1, 2] demoWorld.mem
      = .failed { demoWorld.mem with input := { demoWorld.mem.input with _currentValue := [1, 2] } }
          .assertionFailure ∧
    demoWorld.mem.input._currentValue = [0, 0, 0] ∧
    (InputFeature.SetValue (demoOps 2) [1, 2] demoWorld.mem).state.input._currentValue = [1, 2] ∧
    (InputFeature.SetValue (demoOps 2) [1, 2] demoWorld.mem).state.input._isDirty
      = demoWorld.mem.input._isDirty ∧
    (FeatureSet.ProcessInputData (demoOps 2) [1, 2] demoWorld).value? = none ∧
    (FeatureSet.ProcessInputData (demoOps 2) [1, 2] demoWorld).state.mem.input._currentValue
      = [1, 2] ∧
    (FeatureSet.ProcessInputData (demoOps 2) [1, 2] demoWorld).state.fs._numItemsProcessed
      = demoWorld.fs._numItemsProcessed := by
  refine ⟨by rfl, by rfl, by rfl, by rfl, by rfl, by rfl, by rfl⟩

end features

namespace model

/-- The loop of `ComputeSize` adds up the range sizes modulo `2 ^ 64`. -/
theorem foldl_size_eq_sum_mod (sizes : PortSizes) (ranges : List OutputPortRange) :
    ∀ acc : Nat,
      ranges.foldl (fun acc range => (acc + range.Size sizes) % sizeModulus) (acc % sizeModulus)
        = (acc + (ranges.map (OutputPortRange.Size sizes)).sum) % sizeModulus := by
  induction ranges with
  | nil => intro acc; simp
  | cons r rest ih =>
    intro acc
    simp only [List.foldl_cons, List.map_cons, List.sum_cons]
    rw [ih (acc % sizeModulus + r.Size sizes)]
    unfold sizeModulus
    omega

/-- A query of `Size()` gives the sum of the sizes the ranges held have at the query, as
`size_t` arithmetic computes it. -/
theorem Size_eq_sum_mod (sizes : PortSizes) (e : OutputPortElementsUntyped) :
    e.Size sizes = (e._ranges.map (OutputPortRange.Size sizes)).sum % sizeModulus := by
  have h := foldl_size_eq_sum_mod sizes e._ranges 0
  simp only [Nat.zero_mod, Nat.zero_add] at h
  simpa [OutputPortElementsUntyped.Size, OutputPortElementsUntyped.ComputeSize] using h

/-- The constructor from a list of ranges holds these ranges, in the given order. -/
theorem ofRanges_ranges (sizes : PortSizes) (ranges : List OutputPortRange) :
    (OutputPortElementsUntyped.ofRanges sizes ranges)._ranges = ranges := by
  simp [OutputPortElementsUntyped.ofRanges, OutputPortElementsUntyped.ComputeSize,
    OutputPortElementsUntyped.blank]

/-- Value of the member `_size` right after construction from a list of ranges. -/
theorem ofRanges_size (sizes : PortSizes) (ranges : List OutputPortRange) :
    (OutputPortElementsUntyped.ofRanges sizes ranges)._size
      = (ranges.map (OutputPortRange.Size sizes)).sum % sizeModulus := by
  have h := foldl_size_eq_sum_mod sizes ranges 0
  simp only [Nat.zero_mod, Nat.zero_add] at h
  simpa [OutputPortElementsUntyped.ofRanges, OutputPortElementsUntyped.ComputeSize,
    OutputPortElementsUntyped.blank] using h

/-- Value of `Size()` queried at the port sizes `atQuery`, for the Port-Elements constructed from
a list of ranges at the port sizes `atConstruction`. -/
theorem ofRanges_Size (atConstruction atQuery : PortSizes) (ranges : List OutputPortRange) :
    (OutputPortElementsUntyped.ofRanges atConstruction ranges).Size atQuery
      = (ranges.map (OutputPortRange.Size atQuery)).sum % sizeModulus := by
  rw [Size_eq_sum_mod, ofRanges_ranges]

/-- C4. Size law at construction.  The Port-Elements constructed from a list of ranges holds
exactly these ranges, in the given order.  The member `_size` its constructor computes, and
`Size()` queried at the port sizes of the construction, are the sum of the ranges' sizes as
`size_t` arithmetic computes it, which is the exact sum whenever that sum is a `size_t` value.
The constructors from a port, from a port and a start index, from a port, a start index and
a count, and from one range give `_size` and `Size()` equal to the size of the one range they
hold. -/
theorem OutputPortElements_size_law (sizes : PortSizes) (ranges : List OutputPortRange)
    (range : OutputPortRange) (port startIndex numValues : Nat) :
    (OutputPortElementsUntyped.ofRanges sizes ranges)._ranges = ranges ∧
    ((OutputPortElementsUntyped.ofRanges sizes ranges)._size
        = (ranges.map (OutputPortRange.Size sizes)).sum % sizeModulus ∧
      (OutputPortElementsUntyped.ofRanges sizes ranges).Size sizes
        = (ranges.map (OutputPortRange.Size sizes)).sum % sizeModulus) ∧
    ((ranges.map (OutputPortRange.Size sizes)).sum < sizeModulus →
      (OutputPortElementsUntyped.ofRanges sizes ranges)._size
        = (ranges.map (OutputPortRange.Size sizes)).sum ∧
      (OutputPortElementsUntyped.ofRanges sizes ranges).Size sizes
        = (ranges.map (OutputPortRange.Size sizes)).sum) ∧
    ((OutputPortElementsUntyped.ofPort sizes port)._ranges = [OutputPortRange.ofPort sizes port] ∧
      (sizes port < sizeModulus →
        (OutputPortElementsUntyped.ofPort sizes port)._size
          = (OutputPortRange.ofPort sizes port).Size sizes ∧
        (OutputPortElementsUntyped.ofPort sizes port).Size sizes
          = (OutputPortRange.ofPort sizes port).Size sizes)) ∧
    ((OutputPortElementsUntyped.ofIndex sizes port startIndex)._ranges
        = [OutputPortRange.ofIndex port startIndex] ∧
      (OutputPortElementsUntyped.ofIndex sizes port startIndex)._size
        = (OutputPortRange.ofIndex port startIndex).Size sizes ∧
      (OutputPortElementsUntyped.ofIndex sizes port startIndex).Size sizes
        = (OutputPortRange.ofIndex port startIndex).Size sizes) ∧
    ((OutputPortElementsUntyped.ofSlice sizes port startIndex numValues)._ranges
        = [OutputPortRange.ofSlice port startIndex numValues] ∧
      (numValues < sizeModulus →
        (OutputPortElementsUntyped.ofSlice sizes port startIndex numValues)._size
          = (OutputPortRange.ofSlice port startIndex numValues).Size sizes ∧
        (OutputPortElementsUntyped.ofSlice sizes port startIndex numValues).Size sizes
          = (OutputPortRange.ofSlice port startIndex numValues).Size sizes)) ∧
    ((OutputPortElementsUntyped.ofRange sizes range)._ranges = [range] ∧
      (range.Size sizes < sizeModulus →
        (OutputPortElementsUntyped.ofRange sizes range)._size = range.Size sizes ∧
        (OutputPortElementsUntyped.ofRange sizes range).Size sizes = range.Size sizes)) := by
  refine ⟨ofRanges_ranges sizes ranges, ⟨ofRanges_size sizes ranges, ofRanges_Size sizes sizes ranges⟩,
    ?_, ⟨?_, ?_⟩, ⟨?_, ?_, ?_⟩, ⟨?_, ?_⟩, ⟨?_, ?_⟩⟩
  · intro h
    rw [ofRanges_size, ofRanges_Size, Nat.mod_eq_of_lt h]
    exact ⟨rfl, rfl⟩
  · simp [OutputPortElementsUntyped.ofPort, OutputPortElementsUntyped.ComputeSize,
      OutputPortElementsUntyped.blank]
  · intro h
    simp [OutputPortElementsUntyped.ofPort, OutputPortElementsUntyped.ComputeSize,
      OutputPortElementsUntyped.blank, OutputPortElementsUntyped.Size, OutputPortRange.ofPort,
      OutputPortRange.Size, Nat.mod_eq_of_lt h]
  · simp [OutputPortElementsUntyped.ofIndex, OutputPortElementsUntyped.ComputeSize,
      OutputPortElementsUntyped.blank]
  · simp [OutputPortElementsUntyped.ofIndex, OutputPortElementsUntyped.ComputeSize,
      OutputPortElementsUntyped.blank, OutputPortRange.ofIndex,
      OutputPortRange.Size, sizeModulus]
  · simp [OutputPortElementsUntyped.ofIndex, OutputPortElementsUntyped.ComputeSize,
      OutputPortElementsUntyped.blank, OutputPortElementsUntyped.Size, OutputPortRange.ofIndex,
      OutputPortRange.Size, sizeModulus]
  · simp [OutputPortElementsUntyped.ofSlice, OutputPortElementsUntyped.ComputeSize,
      OutputPortElementsUntyped.blank]
  · intro h
    simp [OutputPortElementsUntyped.ofSlice, OutputPortElementsUntyped.ComputeSize,
      OutputPortElementsUntyped.blank, OutputPortElementsUntyped.Size, OutputPortRange.ofSlice,
      OutputPortRange.Size, Nat.mod_eq_of_lt h]
  · simp [OutputPortElementsUntyped.ofRange, OutputPortElementsUntyped.ComputeSize,
      OutputPortElementsUntyped.blank]
  · intro h
    simp [OutputPortElementsUntyped.ofRange, OutputPortElementsUntyped.ComputeSize,
      OutputPortElementsUntyped.blank, OutputPortElementsUntyped.Size, Nat.mod_eq_of_lt h]

/-- Witness for C4: three ranges of sizes 5, 3 and 1 give `_size = 9` and `Size() = 9`; the
whole of port 1 gives 5, a slice of three elements gives 3, and a single range gives its own
size. -/
theorem OutputPortElements_size_law_witness :
    ((OutputPortElementsUntyped.ofRanges demoSizes demoRanges)._size = 9 ∧
      (OutputPortElementsUntyped.ofRanges demoSizes demoRanges).Size demoSizes = 9) ∧
    ((OutputPortElementsUntyped.ofPort demoSizes 1)._size = 5 ∧
      (OutputPortElementsUntyped.ofPort demoSizes 1).Size demoSizes = 5) ∧
    ((OutputPortElementsUntyped.ofSlice demoSizes 2 1 3)._size = 3 ∧
      (OutputPortElementsUntyped.ofSlice demoSizes 2 1 3).Size demoSizes = 3) ∧
    ((OutputPortElementsUntyped.ofRange demoSizes (OutputPortRange.ofSlice 2 1 3))._size = 3 ∧
      (OutputPortElementsUntyped.ofRange demoSizes (OutputPortRange.ofSlice 2 1 3)).Size demoSizes
        = 3) :=
  ⟨(OutputPortElements_size_law demoSizes demoRanges (OutputPortRange.ofSlice 2 1 3) 1 1 3).2.2.1
      (by decide),
    (OutputPortElements_size_law demoSizes demoRanges (OutputPortRange.ofSlice 2 1 3) 1 1 3).2.2.2.1.2
      (by decide),
    (OutputPortElements_size_law demoSizes demoRanges (OutputPortRange.ofSlice 2 1 3) 2 1 3).2.2.2.2.2.1.2
      (by decide),
    (OutputPortElements_size_law demoSizes demoRanges (OutputPortRange.ofSlice 2 1 3) 1 1 3).2.2.2.2.2.2.2
      (by decide)⟩

/-- C5. A whole-port range built while the port sizes were `atConstruction` has, when the
port sizes are `atQuery`, the size the referenced port has then; a range built from a port
and an index has size 1, and a range built from a port, a start index and a count has size
`numValues`, whatever the port sizes are. -/
theorem OutputPortRange_Size_at_query (atConstruction atQuery : PortSizes)
    (port index startIndex numValues : Nat) :
    (OutputPortRange.ofPort atConstruction port).Size atQuery = atQuery port ∧
    (OutputPortRange.ofIndex port index).Size atQuery = 1 ∧
    (OutputPortRange.ofSlice port startIndex numValues).Size atQuery = numValues := by
  refine ⟨?_, ?_, ?_⟩ <;>
    simp [OutputPortRange.Size, OutputPortRange.ofPort, OutputPortRange.ofIndex,
      OutputPortRange.ofSlice]

end model

namespace AssocMap

/-- Dropping the entries of another key does not change what a key is mapped to. -/
theorem find_filter_ne {κ ν : Type} [DecidableEq κ] (k q : κ) (h : q ≠ k) :
    ∀ m : List (κ × ν), find (m.filter (fun e => !decide (e.1 = k))) q = find m q := by
  intro m
  induction m with
  | nil => rfl
  | cons e rest ih =>
    obtain ⟨k1, v1⟩ := e
    by_cases h1 : k1 = k
    · have hq : ¬ k = q := fun hk => h hk.symm
      simp [List.filter, h1, find, ih, hq]
    · simp [List.filter, h1, find, ih]

/-- After `m[k] = v`, `k` is mapped to `v`. -/
theorem find_assign_self {κ ν : Type} [DecidableEq κ] (k : κ) (v : ν) (m : List (κ × ν)) :
    find (assign k v m) k = some v := by
  simp [assign, find]

/-- Assignment `m[k] = v` leaves every other key as it was. -/
theorem find_assign_ne {κ ν : Type} [DecidableEq κ] (k q : κ) (v : ν) (m : List (κ × ν))
    (h : q ≠ k) : find (assign k v m) q = find m q := by
  have hk : ¬ k = q := fun e => h e.symm
  simp only [assign, find, hk, if_false]
  exact find_filter_ne k q h m

end AssocMap

namespace model

/-- Looking up the port that was just registered returns its new port. -/
theorem GetCorrespondingPort_MapPort_self (t : ModelTransformer) (p n : PortPtr) :
    (t.MapPort p n).GetCorrespondingPort p = .ok n := by
  simp [ModelTransformer.GetCorrespondingPort, ModelTransformer.MapPort,
    AssocMap.find_assign_self]

/-- Registering a correspondence for `p` does not change the lookup of another port. -/
theorem GetCorrespondingPort_MapPort_ne (t : ModelTransformer) (p n q : PortPtr) (h : q ≠ p) :
    (t.MapPort p n).GetCorrespondingPort q = t.GetCorrespondingPort q := by
  simp [ModelTransformer.GetCorrespondingPort, ModelTransformer.MapPort,
    AssocMap.find_assign_ne p q n t._portMap h]

/-- Registrations for other ports do not change the lookup of `p`. -/
theorem GetCorrespondingPort_mapPorts_of_not_mem (p : PortPtr) :
    ∀ (regs : List (PortPtr × PortPtr)) (t : ModelTransformer), (∀ r ∈ regs, r.1 ≠ p) →
      (t.mapPorts regs).GetCorrespondingPort p = t.GetCorrespondingPort p := by
  intro regs
  induction regs with
  | nil => intro t _; rfl
  | cons r rest ih =>
    intro t h
    have h1 : (ModelTransformer.mapPorts (r :: rest) t)
        = ModelTransformer.mapPorts rest (t.MapPort r.1 r.2) := rfl
    rw [h1, ih _ (fun x hx => h x (List.mem_cons_of_mem _ hx))]
    exact GetCorrespondingPort_MapPort_ne t r.1 r.2 p
      (fun e => h r (List.mem_cons_self _ _) e.symm)

/-- The lookup after a sequence of registrations is decided by the last registration for
the port. -/
theorem GetCorrespondingPort_mapPorts_last (p n : PortPtr)
    (pre post : List (PortPtr × PortPtr)) (t : ModelTransformer) (h : ∀ r ∈ post, r.1 ≠ p) :
    (t.mapPorts (pre ++ (p, n) :: post)).GetCorrespondingPort p = .ok n := by
  have h1 : t.mapPorts (pre ++ (p, n) :: post)
      = ModelTransformer.mapPorts post ((t.mapPorts pre).MapPort p n) := by
    simp [ModelTransformer.mapPorts, List.foldl_append]
  rw [h1, GetCorrespondingPort_mapPorts_of_not_mem p post _ h]
  exact GetCorrespondingPort_MapPort_self _ p n

/-- A list with a registration for `p` splits at the last one. -/
theorem exists_last_registration (p : PortPtr) :
    ∀ regs : List (PortPtr × PortPtr), (∃ r ∈ regs, r.1 = p) →
      ∃ (pre post : List (PortPtr × PortPtr)) (n : PortPtr),
        regs = pre ++ (p, n) :: post ∧ ∀ r ∈ post, r.1 ≠ p := by
  intro regs
  induction regs with
  | nil => rintro ⟨r, hr, _⟩; cases hr
  | cons r rest ih =>
    intro hex
    by_cases hrest : ∃ x ∈ rest, x.1 = p
    · obtain ⟨pre, post, n, hsplit, hpost⟩ := ih hrest
      exact ⟨r :: pre, post, n, by simp [hsplit], hpost⟩
    · obtain ⟨x, hx, hxp⟩ := hex
      rcases List.mem_cons.mp hx with hxr | hxrest
      · refine ⟨[], rest, r.2, ?_, ?_⟩
        · subst hxr
          cases x
          simp_all
        · intro y hy hyp
          exact hrest ⟨y, hy, hyp⟩
      · exact absurd ⟨x, hxrest, hxp⟩ hrest

/-- C6. Let the correspondence be cleared (as `CopyModel` and `RefineModel` do) in any
transformer state and then any sequence of `MapPort` registrations be made.
`GetCorrespondingPort(p)` throws the invalid-argument exception exactly when none of the
registrations is for `p`; otherwise it returns the new port of the last registration for
`p`.  In any state, registering `p` makes the lookup of `p` return the new port and leaves
the lookup of every other port as it was.  In particular, after the output ports of three
chained nodes were registered, the lookup of node 2's output returns node 2's new port. -/
theorem GetCorrespondingPort_spec (t0 t : ModelTransformer) (regs pre post : List (PortPtr × PortPtr))
    (p q n o1 o2 o3 n1 n2 n3 : PortPtr) :
    (((ModelTransformer.mapPorts regs { t0 with _portMap := [] }).GetCorrespondingPort p
        = .error .invalidArgument) ↔ ∀ r ∈ regs, r.1 ≠ p) ∧
    ((∀ r ∈ post, r.1 ≠ p) →
      (ModelTransformer.mapPorts (pre ++ (p, n) :: post)
        { t0 with _portMap := [] }).GetCorrespondingPort p = .ok n) ∧
    ((∃ r ∈ regs, r.1 = p) →
      ∃ r ∈ regs, r.1 = p ∧
        (ModelTransformer.mapPorts regs { t0 with _portMap := [] }).GetCorrespondingPort p
          = .ok r.2) ∧
    (t.MapPort p n).GetCorrespondingPort p = .ok n ∧
    (q ≠ p → (t.MapPort p n).GetCorrespondingPort q = t.GetCorrespondingPort q) ∧
    (o1 ≠ o2 → o2 ≠ o3 →
      (ModelTransformer.mapPorts [(o1, n1), (o2, n2), (o3, n3)]
        { t0 with _portMap := [] }).GetCorrespondingPort o2 = .ok n2) := by
  refine ⟨⟨?_, ?_⟩, ?_, ?_, GetCorrespondingPort_MapPort_self t p n,
    GetCorrespondingPort_MapPort_ne t p n q, ?_⟩
  · intro herr r hr hrp
    obtain ⟨pre1, post1, n1, hsplit, hpost⟩ := exists_last_registration p regs ⟨r, hr, hrp⟩
    rw [hsplit, GetCorrespondingPort_mapPorts_last p n1 pre1 post1 _ hpost] at herr
    cases herr
  · intro hnone
    rw [GetCorrespondingPort_mapPorts_of_not_mem p regs _ hnone]
    rfl
  · intro hpost
    exact GetCorrespondingPort_mapPorts_last p n pre post _ hpost
  · intro hex
    obtain ⟨pre1, post1, n1, hsplit, hpost⟩ := exists_last_registration p regs hex
    refine ⟨(p, n1), by simp [hsplit], rfl, ?_⟩
    rw [hsplit]
    exact GetCorrespondingPort_mapPorts_last p n1 pre1 post1 _ hpost
  · intro h12 h23
    have := GetCorrespondingPort_mapPorts_last o2 n2 [(o1, n1)] [(o3, n3)]
      { t0 with _portMap := [] } (by
        intro r hr
        simp only [List.mem_singleton] at hr
        subst hr
        exact fun e => h23 e.symm)
    simpa using this

/-- Witness for C6: old ports 11, 12, 13 of a three-node chain registered to 111, 112, 113
after an earlier registration of 12 to 999; port 12 resolves to 112, port 14 is not found,
and registering 13 does not disturb the lookup of 12. -/
theorem GetCorrespondingPort_spec_witness :
    ((ModelTransformer.mapPorts [(12, 999), (11, 111), (12, 112), (13, 113)]
        { (⟨Model.empty, [(14, 114)]⟩ : ModelTransformer) with _portMap := [] }).GetCorrespondingPort 12
      = .ok 112) ∧
    ((ModelTransformer.mapPorts [(12, 999), (11, 111), (12, 112), (13, 113)]
        { (⟨Model.empty, [(14, 114)]⟩ : ModelTransformer) with _portMap := [] }).GetCorrespondingPort 14
      = .error .invalidArgument) ∧
    ((ModelTransformer.MapPort 13 113 ⟨Model.empty, [(12, 112)]⟩).GetCorrespondingPort 12
      = ModelTransformer.GetCorrespondingPort ⟨Model.empty, [(12, 112)]⟩ 12) ∧
    ((ModelTransformer.mapPorts [(11, 111), (12, 112), (13, 113)]
        { (⟨Model.empty, [(14, 114)]⟩ : ModelTransformer) with _portMap := [] }).GetCorrespondingPort 12
      = .ok 112) :=
  ⟨(GetCorrespondingPort_spec ⟨Model.empty, [(14, 114)]⟩ ⟨Model.empty, [(12, 112)]⟩
      [(12, 999), (11, 111), (12, 112), (13, 113)] [(12, 999), (11, 111)] [(13, 113)]
      12 13 112 11 12 13 111 112 113).2.1 (by decide),
    (GetCorrespondingPort_spec ⟨Model.empty, [(14, 114)]⟩ ⟨Model.empty, [(12, 112)]⟩
      [(12, 999), (11, 111), (12, 112), (13, 113)] [] [] 14 13 0 11 12 13 111 112 113).1.2
      (by decide),
    (GetCorrespondingPort_spec ⟨Model.empty, [(14, 114)]⟩ ⟨Model.empty, [(12, 112)]⟩
      [] [] [] 13 12 113 11 12 13 111 112 113).2.2.2.2.1 (by decide),
    (GetCorrespondingPort_spec ⟨Model.empty, [(14, 114)]⟩ ⟨Model.empty, [(12, 112)]⟩
      [] [] [] 13 12 113 11 12 13 111 112 113).2.2.2.2.2 (by decide) (by decide)⟩

end model

namespace model

/-- A port is mapped exactly when `GetCorrespondingPort` returns for it. -/
theorem isMapped_iff (t : ModelTransformer) (p : PortPtr) :
    t.isMapped p = true ↔ ∃ q, t.GetCorrespondingPort p = .ok q := by
  unfold ModelTransformer.isMapped ModelTransformer.GetCorrespondingPort
  cases h : AssocMap.find t._portMap p <;> simp

/-- A port is unmapped exactly when `GetCorrespondingPort` throws for it. -/
theorem isMapped_false_iff (t : ModelTransformer) (p : PortPtr) :
    t.isMapped p = false ↔ t.GetCorrespondingPort p = .error .invalidArgument := by
  unfold ModelTransformer.isMapped ModelTransformer.GetCorrespondingPort
  cases h : AssocMap.find t._portMap p <;> simp

/-- After a traversal with output-registering rules, the outputs of every visited node are
mapped and what was mapped before still is. -/
theorem visitNodes_registers (rule : NodeRule) (hrule : RegistersOutputs rule) :
    ∀ (nodes : List Node) (t t1 : ModelTransformer),
      ModelTransformer.visitNodes rule nodes t = .ok t1 →
      (∀ m ∈ nodes, ∀ p ∈ m.outputs, t1.isMapped p = true) ∧
      (∀ p, t.isMapped p = true → t1.isMapped p = true) := by
  intro nodes
  induction nodes with
  | nil =>
    intro t t1 h
    simp only [ModelTransformer.visitNodes, Except.ok.injEq] at h
    subst h
    exact ⟨by simp, fun _ hp => hp⟩
  | cons node rest ih =>
    intro t t1 h
    simp only [ModelTransformer.visitNodes] at h
    cases hr : rule node t with
    | error e => rw [hr] at h; cases h
    | ok t2 =>
      rw [hr] at h
      obtain ⟨hout, hkeep⟩ := hrule node t t2 hr
      obtain ⟨hrest, hkeep2⟩ := ih t2 t1 h
      refine ⟨?_, fun p hp => hkeep2 p (hkeep p hp)⟩
      intro m hm p hp
      rcases List.mem_cons.mp hm with rfl | hm
      · exact hkeep2 p (hout p hp)
      · exact hrest m hm p hp

/-- In a dependency-ordered traversal, each input of a node is an output of a node seen
earlier. -/
theorem inputs_produced_earlier :
    ∀ (pre visited : List Node) (node : Node) (post : List Node),
      visitsInDependencyOrder visited (pre ++ node :: post) = true →
      ∀ p ∈ node.inputs, ∃ m ∈ visited ++ pre, p ∈ m.outputs := by
  intro pre
  induction pre with
  | nil =>
    intro visited node post h p hp
    simp only [List.nil_append, visitsInDependencyOrder, Bool.and_eq_true, List.all_eq_true,
      List.any_eq_true, decide_eq_true_eq] at h
    simpa using h.1 p hp
  | cons x pre ih =>
    intro visited node post h p hp
    simp only [List.cons_append, visitsInDependencyOrder, Bool.and_eq_true] at h
    obtain ⟨m, hm, hpm⟩ := ih (visited ++ [x]) node post h.2 p hp
    exact ⟨m, by simpa using hm, hpm⟩

/-- A dependency-ordered traversal with rules that register their outputs and do not throw
on mapped inputs runs to the end. -/
theorem visitNodes_succeeds (rule : NodeRule) (hrule : RegistersOutputs rule)
    (hsucc : SucceedsOnMappedInputs rule) :
    ∀ (nodes visited : List Node) (t : ModelTransformer),
      visitsInDependencyOrder visited nodes = true →
      (∀ m ∈ visited, ∀ p ∈ m.outputs, t.isMapped p = true) →
      ∃ t1, ModelTransformer.visitNodes rule nodes t = .ok t1 := by
  intro nodes
  induction nodes with
  | nil => intro visited t _ _; exact ⟨t, rfl⟩
  | cons node rest ih =>
    intro visited t hord hvis
    have hin : ∀ p ∈ node.inputs, t.isMapped p = true := by
      intro p hp
      obtain ⟨m, hm, hpm⟩ := inputs_produced_earlier [] visited node rest hord p hp
      exact hvis m (by simpa using hm) p hpm
    obtain ⟨t2, hr⟩ := hsucc node t hin
    obtain ⟨hout, hkeep⟩ := hrule node t t2 hr
    simp only [visitsInDependencyOrder, Bool.and_eq_true] at hord
    have hvis2 : ∀ m ∈ visited ++ [node], ∀ p ∈ m.outputs, t2.isMapped p = true := by
      intro m hm p hp
      rcases List.mem_append.mp hm with hm | hm
      · exact hkeep p (hvis m hm p hp)
      · simp only [List.mem_singleton] at hm
        subst hm
        exact hout p hp
    obtain ⟨t1, h1⟩ := ih (visited ++ [node]) t2 hord.2 hvis2
    exact ⟨t1, by simp only [ModelTransformer.visitNodes, hr, h1]⟩

/-- The three facts of correspondence completeness for one traversal with one rule. -/
theorem visitNodes_complete (rule : NodeRule) (order : List Node) (start : ModelTransformer)
    (hord : visitsInDependencyOrder [] order = true) (hrule : RegistersOutputs rule) :
    (∀ (pre : List Node) (node : Node) (post : List Node) (t1 : ModelTransformer),
      order = pre ++ node :: post → ModelTransformer.visitNodes rule pre start = .ok t1 →
      ∀ p ∈ node.inputs, ∃ q, t1.GetCorrespondingPort p = .ok q) ∧
    (∀ t1 : ModelTransformer, ModelTransformer.visitNodes rule order start = .ok t1 →
      ∀ node ∈ order, ∀ p ∈ node.inputs, ∃ q, t1.GetCorrespondingPort p = .ok q) ∧
    (SucceedsOnMappedInputs rule → ∃ t1, ModelTransformer.visitNodes rule order start = .ok t1) := by
  refine ⟨?_, ?_, ?_⟩
  · intro pre node post t1 hsplit hrun p hp
    rw [hsplit] at hord
    obtain ⟨m, hm, hpm⟩ := inputs_produced_earlier pre [] node post hord p hp
    exact (isMapped_iff t1 p).mp
      ((visitNodes_registers rule hrule pre start t1 hrun).1 m (by simpa using hm) p hpm)
  · intro t1 hrun node hnode p hp
    obtain ⟨pre, post, hsplit⟩ := List.append_of_mem hnode
    have hord2 := hord
    rw [hsplit] at hord2
    obtain ⟨m, hm, hpm⟩ := inputs_produced_earlier pre [] node post hord2 p hp
    have hm2 : m ∈ order := by
      rw [hsplit]
      exact List.mem_append_left _ (by simpa using hm)
    exact (isMapped_iff t1 p).mp
      ((visitNodes_registers rule hrule order start t1 hrun).1 m hm2 p hpm)
  · intro hsucc
    exact visitNodes_succeeds rule hrule hsucc order [] start hord (by simp)

/-- Member `CopyModel` returns exactly when its traversal, started from the empty model and the
empty correspondence, runs to the end. -/
theorem CopyModel_eq_ok_iff (visit : Model → List Node) (copy : NodeRule) (oldModel : Model)
    (t t1 : ModelTransformer) (m1 : Model) :
    ModelTransformer.CopyModel visit copy oldModel t = .ok (t1, m1) ↔
      ModelTransformer.visitNodes copy (visit oldModel) { _model := Model.empty, _portMap := [] }
        = .ok t1 ∧ m1 = t1._model := by
  unfold ModelTransformer.CopyModel
  cases h : ModelTransformer.visitNodes copy (visit oldModel)
      { _model := Model.empty, _portMap := [] } with
  | error e => simp [h]
  | ok t3 =>
    simp only [h, Except.ok.injEq, Prod.mk.injEq]
    constructor
    · rintro ⟨rfl, rfl⟩; exact ⟨rfl, rfl⟩
    · rintro ⟨rfl, rfl⟩; exact ⟨rfl, rfl⟩

/-- Member `RefineModel` returns exactly when its traversal, started from the empty model and the
empty correspondence, runs to the end. -/
theorem RefineModel_eq_ok_iff (visit : Model → List Node) (refine : NodeRule) (oldModel : Model)
    (t t1 : ModelTransformer) (m1 : Model) :
    ModelTransformer.RefineModel visit refine oldModel t = .ok (t1, m1) ↔
      ModelTransformer.visitNodes refine (visit oldModel) { _model := Model.empty, _portMap := [] }
        = .ok t1 ∧ m1 = t1._model := by
  unfold ModelTransformer.RefineModel
  cases h : ModelTransformer.visitNodes refine (visit oldModel)
      { _model := Model.empty, _portMap := [] } with
  | error e => simp [h]
  | ok t3 =>
    simp only [h, Except.ok.injEq, Prod.mk.injEq]
    constructor
    · rintro ⟨rfl, rfl⟩; exact ⟨rfl, rfl⟩
    · rintro ⟨rfl, rfl⟩; exact ⟨rfl, rfl⟩

end model

namespace model

/-- Member `MapPort` maps its old port and keeps every mapped port mapped. -/
theorem isMapped_MapPort (t : ModelTransformer) (a b p : PortPtr) :
    (t.MapPort a b).isMapped p = true ↔ a = p ∨ t.isMapped p = true := by
  by_cases h : p = a
  · subst h
    simp [ModelTransformer.isMapped, ModelTransformer.MapPort, AssocMap.find_assign_self]
  · have h2 : ¬ a = p := fun e => h e.symm
    simp [ModelTransformer.isMapped, ModelTransformer.MapPort,
      AssocMap.find_assign_ne a p b t._portMap h, h2]

/-- What is mapped after a sequence of registrations. -/
theorem isMapped_mapPorts (p : PortPtr) :
    ∀ (regs : List (PortPtr × PortPtr)) (t : ModelTransformer),
      (t.mapPorts regs).isMapped p = true ↔ (∃ r ∈ regs, r.1 = p) ∨ t.isMapped p = true := by
  intro regs
  induction regs with
  | nil => intro t; simp [ModelTransformer.mapPorts]
  | cons r rest ih =>
    intro t
    have h1 : (ModelTransformer.mapPorts (r :: rest) t)
        = ModelTransformer.mapPorts rest (t.MapPort r.1 r.2) := rfl
    rw [h1, ih, isMapped_MapPort]
    constructor
    · rintro (⟨x, hx, hxp⟩ | hrp | ht)
      · exact Or.inl ⟨x, List.mem_cons_of_mem _ hx, hxp⟩
      · exact Or.inl ⟨r, List.mem_cons_self _ _, hrp⟩
      · exact Or.inr ht
    · rintro (⟨x, hx, hxp⟩ | ht)
      · rcases List.mem_cons.mp hx with rfl | hx
        · exact Or.inr (Or.inl hxp)
        · exact Or.inl ⟨x, hx, hxp⟩
      · exact Or.inr (Or.inr ht)

/-- The default copy rule registers the outputs of its node and keeps what was mapped. -/
theorem Node_Copy_registers (newPort : PortPtr → PortPtr) : RegistersOutputs (Node.Copy newPort) := by
  intro node t t1 h
  unfold Node.Copy at h
  cases hc : t.correspondingPorts node.inputs with
  | error e => simp [hc] at h
  | ok newInputs =>
    simp only [hc, Except.ok.injEq] at h
    subst h
    constructor
    · intro p hp
      rw [isMapped_mapPorts]
      exact Or.inl ⟨(p, newPort p), List.mem_map.mpr ⟨p, hp, rfl⟩, rfl⟩
    · intro p hp
      rw [isMapped_mapPorts]
      exact Or.inr hp

/-- Looking up a list of mapped ports does not throw. -/
theorem correspondingPorts_succeeds (t : ModelTransformer) :
    ∀ ports : List PortPtr, (∀ p ∈ ports, t.isMapped p = true) →
      ∃ qs, t.correspondingPorts ports = .ok qs := by
  intro ports
  induction ports with
  | nil => intro _; exact ⟨[], rfl⟩
  | cons p rest ih =>
    intro h
    obtain ⟨q, hq⟩ := (isMapped_iff t p).mp (h p (List.mem_cons_self _ _))
    obtain ⟨qs, hqs⟩ := ih (fun x hx => h x (List.mem_cons_of_mem _ hx))
    exact ⟨q :: qs, by simp only [ModelTransformer.correspondingPorts, hq, hqs]⟩

/-- The default copy rule does not throw when the inputs of its node are mapped. -/
theorem Node_Copy_succeeds (newPort : PortPtr → PortPtr) :
    SucceedsOnMappedInputs (Node.Copy newPort) := by
  intro node t h
  obtain ⟨qs, hqs⟩ := correspondingPorts_succeeds t node.inputs h
  refine ⟨ModelTransformer.mapPorts (node.outputs.map (fun p => (p, newPort p)))
    (ModelTransformer.AddNode
      { id := node.id, inputs := qs, outputs := node.outputs.map newPort } t), ?_⟩
  simp only [Node.Copy, hqs]

/-- A traversal that leaves nodes of the model out does not establish their inputs: with the
traversal that visits nothing, `CopyModel` of the three-node chain returns, and the lookup of
port 12, an input of node 3, throws. -/
theorem skipped_nodes_stay_unregistered :
    visitsInDependencyOrder [] ((fun _ => []) demoChain) = true ∧
    (∃ t1 m1, ModelTransformer.CopyModel (fun _ => []) demoCopy demoChain usedTransformer
        = .ok (t1, m1) ∧
      t1.GetCorrespondingPort 12 = .error .invalidArgument) :=
  ⟨by rfl, { _model := Model.empty, _portMap := [] }, Model.empty, by rfl, by rfl⟩

/-- C7. Correspondence completeness.  Let the traversal of the old model visit every node of
the old model, in dependency order, and let the copy and refine rules register a
correspondence for each output port of the node they process.  Then in `CopyModel` and in
`RefineModel`, started in any transformer state: when a node is about to be processed,
`GetCorrespondingPort` returns for each of its inputs; when the call returns,
`GetCorrespondingPort` returns for every input of every node the old model holds; and the
call does return when no rule throws on a node whose inputs are all registered. -/
theorem correspondence_complete (visit : Model → List Node) (copy refine : NodeRule)
    (oldModel : Model) (t : ModelTransformer)
    (hcover : ∀ node ∈ oldModel.nodes, node ∈ visit oldModel)
    (horder : visitsInDependencyOrder [] (visit oldModel) = true)
    (hcopy : RegistersOutputs copy) (hrefine : RegistersOutputs refine) :
    ((∀ (pre : List Node) (node : Node) (post : List Node) (t1 : ModelTransformer),
        visit oldModel = pre ++ node :: post →
        ModelTransformer.visitNodes copy pre
          { { t with _model := Model.empty } with _portMap := [] } = .ok t1 →
        ∀ p ∈ node.inputs, ∃ q, t1.GetCorrespondingPort p = .ok q) ∧
      (∀ (t1 : ModelTransformer) (m1 : Model),
        ModelTransformer.CopyModel visit copy oldModel t = .ok (t1, m1) →
        ∀ node ∈ oldModel.nodes, ∀ p ∈ node.inputs, ∃ q, t1.GetCorrespondingPort p = .ok q) ∧
      (SucceedsOnMappedInputs copy →
        ∃ t1 m1, ModelTransformer.CopyModel visit copy oldModel t = .ok (t1, m1))) ∧
    ((∀ (pre : List Node) (node : Node) (post : List Node) (t1 : ModelTransformer),
        visit oldModel = pre ++ node :: post →
        ModelTransformer.visitNodes refine pre
          { { t with _model := Model.empty } with _portMap := [] } = .ok t1 →
        ∀ p ∈ node.inputs, ∃ q, t1.GetCorrespondingPort p = .ok q) ∧
      (∀ (t1 : ModelTransformer) (m1 : Model),
        ModelTransformer.RefineModel visit refine oldModel t = .ok (t1, m1) →
        ∀ node ∈ oldModel.nodes, ∀ p ∈ node.inputs, ∃ q, t1.GetCorrespondingPort p = .ok q) ∧
      (SucceedsOnMappedInputs refine →
        ∃ t1 m1, ModelTransformer.RefineModel visit refine oldModel t = .ok (t1, m1))) := by
  have hc := visitNodes_complete copy (visit oldModel)
    { _model := Model.empty, _portMap := [] } horder hcopy
  have hr := visitNodes_complete refine (visit oldModel)
    { _model := Model.empty, _portMap := [] } horder hrefine
  refine ⟨⟨hc.1, ?_, ?_⟩, ⟨hr.1, ?_, ?_⟩⟩
  · intro t1 m1 h node hnode
    exact hc.2.1 t1 ((CopyModel_eq_ok_iff visit copy oldModel t t1 m1).mp h).1 node
      (hcover node hnode)
  · intro hs
    obtain ⟨t1, h1⟩ := hc.2.2 hs
    exact ⟨t1, t1._model, (CopyModel_eq_ok_iff visit copy oldModel t t1 _).mpr ⟨h1, rfl⟩⟩
  · intro t1 m1 h node hnode
    exact hr.2.1 t1 ((RefineModel_eq_ok_iff visit refine oldModel t t1 m1).mp h).1 node
      (hcover node hnode)
  · intro hs
    obtain ⟨t1, h1⟩ := hr.2.2 hs
    exact ⟨t1, t1._model, (RefineModel_eq_ok_iff visit refine oldModel t t1 _).mpr ⟨h1, rfl⟩⟩

/-- Witness for C7: the three-node chain, copied and refined with the default copy rule by a
transformer that was used before, over the traversal that yields the nodes as the model holds
them.  When node 3 is about to be processed its input, port 12, is registered, and both calls
return with every input of every node of the chain registered. -/
theorem correspondence_complete_witness :
    (∀ p ∈ [12], ∃ q,
      ModelTransformer.GetCorrespondingPort
        { _model := { nodes := [{ id := 1, inputs := [], outputs := [111] },
                                { id := 2, inputs := [111], outputs := [112] }] },
          _portMap := [(12, 112), (11, 111)] } p = .ok q) ∧
    (∃ t1 m1, ModelTransformer.CopyModel visitStored demoCopy demoChain usedTransformer
        = .ok (t1, m1) ∧
      ∀ node ∈ demoChain.nodes, ∀ p ∈ node.inputs,
        ∃ q, t1.GetCorrespondingPort p = .ok q) ∧
    (∃ t1 m1, ModelTransformer.RefineModel visitStored demoCopy demoChain usedTransformer
        = .ok (t1, m1) ∧
      ∀ node ∈ demoChain.nodes, ∀ p ∈ node.inputs,
        ∃ q, t1.GetCorrespondingPort p = .ok q) :=
  have h := correspondence_complete visitStored demoCopy demoCopy demoChain usedTransformer
    (fun _ hnode => hnode) (by decide) (Node_Copy_registers _) (Node_Copy_registers _)
  ⟨h.1.1 [{ id := 1, inputs := [], outputs := [11] }, { id := 2, inputs := [11], outputs := [12] }]
      { id := 3, inputs := [12], outputs := [13] } [] _ (by rfl) (by rfl),
    (h.1.2.2 (Node_Copy_succeeds _)).elim fun t1 h1 =>
      h1.elim fun m1 h2 => ⟨t1, m1, h2, h.1.2.1 t1 m1 h2⟩,
    (h.2.2.2 (Node_Copy_succeeds _)).elim fun t1 h1 =>
      h1.elim fun m1 h2 => ⟨t1, m1, h2, h.2.2.1 t1 m1 h2⟩⟩

end model

namespace model

/-- A port no rule registers stays unmapped through the traversal. -/
theorem visitNodes_keeps_unmapped (rule : NodeRule) (q : PortPtr) :
    ∀ (nodes : List Node) (t t1 : ModelTransformer), RegistersNothingFor rule nodes q →
      ModelTransformer.visitNodes rule nodes t = .ok t1 → t.isMapped q = false →
      t1.isMapped q = false := by
  intro nodes
  induction nodes with
  | nil =>
    intro t t1 _ h hq
    simp only [ModelTransformer.visitNodes, Except.ok.injEq] at h
    subst h
    exact hq
  | cons node rest ih =>
    intro t t1 hnone h hq
    simp only [ModelTransformer.visitNodes] at h
    cases hr : rule node t with
    | error e => rw [hr] at h; cases h
    | ok t2 =>
      rw [hr] at h
      exact ih t2 t1 (fun n hn => hnone n (List.mem_cons_of_mem _ hn)) h
        (hnone node (List.mem_cons_self _ _) t t2 hr hq)

/-- The default copy rule registers nothing but the outputs of its node. -/
theorem Node_Copy_registers_only (newPort : PortPtr → PortPtr) (nodes : List Node) (q : PortPtr)
    (h : ∀ node ∈ nodes, q ∉ node.outputs) : RegistersNothingFor (Node.Copy newPort) nodes q := by
  intro node hnode t t1 hrun hq
  unfold Node.Copy at hrun
  cases hc : t.correspondingPorts node.inputs with
  | error e => simp [hc] at hrun
  | ok newInputs =>
    simp only [hc, Except.ok.injEq] at hrun
    subst hrun
    cases hm : (ModelTransformer.mapPorts (node.outputs.map (fun p => (p, newPort p)))
      (ModelTransformer.AddNode
        { id := node.id, inputs := newInputs, outputs := node.outputs.map newPort } t)).isMapped q
    · rfl
    · rcases (isMapped_mapPorts q _ _).mp hm with ⟨r, hr, hrq⟩ | hold
      · obtain ⟨x, hx, rfl⟩ := List.mem_map.mp hr
        exact absurd (hrq ▸ hx) (h node hnode)
      · have : t.isMapped q = true := hold
        rw [hq] at this
        cases this

/-- C8. `CopyModel` and `RefineModel` discard the prior transformer state.  Their result does
not depend on the state `t` the transformer was in: they return exactly when the traversal
started from the empty model and the empty correspondence runs to the end, with that
traversal's final state and model.  A port for which the rules register nothing during the
pass fails lookup with the invalid-argument exception afterwards, whether or not it was
registered before; and a pass that visits no node returns the empty model and leaves the
correspondence empty. -/
theorem transform_discards_prior_state (visit : Model → List Node) (copy refine : NodeRule)
    (oldModel : Model) (t t' : ModelTransformer) (q : PortPtr) :
    (ModelTransformer.CopyModel visit copy oldModel t
        = ModelTransformer.CopyModel visit copy oldModel t' ∧
      ModelTransformer.RefineModel visit refine oldModel t
        = ModelTransformer.RefineModel visit refine oldModel t') ∧
    (∀ (t1 : ModelTransformer) (m1 : Model),
      (ModelTransformer.CopyModel visit copy oldModel t = .ok (t1, m1) ↔
        ModelTransformer.visitNodes copy (visit oldModel)
          { _model := Model.empty, _portMap := [] } = .ok t1 ∧ m1 = t1._model) ∧
      (ModelTransformer.RefineModel visit refine oldModel t = .ok (t1, m1) ↔
        ModelTransformer.visitNodes refine (visit oldModel)
          { _model := Model.empty, _portMap := [] } = .ok t1 ∧ m1 = t1._model)) ∧
    (RegistersNothingFor copy (visit oldModel) q →
      ∀ (t1 : ModelTransformer) (m1 : Model),
        ModelTransformer.CopyModel visit copy oldModel t = .ok (t1, m1) →
        t1.GetCorrespondingPort q = .error .invalidArgument) ∧
    (RegistersNothingFor refine (visit oldModel) q →
      ∀ (t1 : ModelTransformer) (m1 : Model),
        ModelTransformer.RefineModel visit refine oldModel t = .ok (t1, m1) →
        t1.GetCorrespondingPort q = .error .invalidArgument) ∧
    (visit oldModel = [] →
      ModelTransformer.CopyModel visit copy oldModel t
        = .ok ({ _model := Model.empty, _portMap := [] }, Model.empty) ∧
      ModelTransformer.RefineModel visit refine oldModel t
        = .ok ({ _model := Model.empty, _portMap := [] }, Model.empty)) := by
  refine ⟨⟨rfl, rfl⟩, ?_, ?_, ?_, ?_⟩
  · intro t1 m1
    exact ⟨CopyModel_eq_ok_iff visit copy oldModel t t1 m1,
      RefineModel_eq_ok_iff visit refine oldModel t t1 m1⟩
  · intro hnone t1 m1 h
    have hrun := ((CopyModel_eq_ok_iff visit copy oldModel t t1 m1).mp h).1
    exact (isMapped_false_iff t1 q).mp
      (visitNodes_keeps_unmapped copy q (visit oldModel) _ t1 hnone hrun rfl)
  · intro hnone t1 m1 h
    have hrun := ((RefineModel_eq_ok_iff visit refine oldModel t t1 m1).mp h).1
    exact (isMapped_false_iff t1 q).mp
      (visitNodes_keeps_unmapped refine q (visit oldModel) _ t1 hnone hrun rfl)
  · intro hempty
    simp [ModelTransformer.CopyModel, ModelTransformer.RefineModel, hempty,
      ModelTransformer.visitNodes]

/-- Witness for C8: port 14 is registered in a transformer that copied an unrelated graph;
after that transformer copies (or refines) the three-node chain, the lookup of port 14
throws, and copying a model without nodes returns the empty model. -/
theorem transform_discards_prior_state_witness :
    usedTransformer.GetCorrespondingPort 14 = .ok 114 ∧
    (∃ t1 m1, ModelTransformer.CopyModel visitStored demoCopy demoChain usedTransformer
        = .ok (t1, m1) ∧ t1.GetCorrespondingPort 14 = .error .invalidArgument) ∧
    (∃ t1 m1, ModelTransformer.RefineModel visitStored demoCopy demoChain usedTransformer
        = .ok (t1, m1) ∧ t1.GetCorrespondingPort 14 = .error .invalidArgument) ∧
    ModelTransformer.CopyModel visitStored demoCopy Model.empty usedTransformer
      = .ok ({ _model := Model.empty, _portMap := [] }, Model.empty) :=
  have h := transform_discards_prior_state visitStored demoCopy demoCopy demoChain
    usedTransformer usedTransformer 14
  ⟨by rfl,
    ⟨_, _, by rfl, h.2.2.1 (Node_Copy_registers_only _ _ 14 (by decide)) _ _ (by rfl)⟩,
    ⟨_, _, by rfl, h.2.2.2.1 (Node_Copy_registers_only _ _ 14 (by decide)) _ _ (by rfl)⟩,
    ((transform_discards_prior_state visitStored demoCopy demoCopy Model.empty
      usedTransformer usedTransformer 14).2.2.2.2 (by rfl)).1⟩

end model

namespace AssocMap

/-- After `m.emplace(k, v)`, `k` is mapped to what it was mapped to before, or to `v` if it
was not mapped. -/
theorem find_emplace_self {κ ν : Type} [DecidableEq κ] (k : κ) (v : ν) (m : List (κ × ν)) :
    find (emplace k v m) k = some ((find m k).getD v) := by
  unfold emplace
  cases h : find m k with
  | none => simp [find]
  | some v1 => simp [h]

/-- Call `m.emplace(k, v)` leaves every other key as it was. -/
theorem find_emplace_ne {κ ν : Type} [DecidableEq κ] (k q : κ) (v : ν) (m : List (κ × ν))
    (h : q ≠ k) : find (emplace k v m) q = find m q := by
  unfold emplace
  have hk : ¬ k = q := fun e => h e.symm
  cases hf : find m k with
  | none => simp [find, hk]
  | some v1 => rfl

end AssocMap

namespace features

/-- The traversal over two consecutive stretches of features. -/
theorem visitAdder_append {M K : Type} (L : Lowering M K) (fs : FeatureSet) (ic : List K) :
    ∀ (a b : List FeaturePtr) (s : AdderState M K),
      FeatureSet.visitAdder L fs ic (a ++ b) s
        = (match FeatureSet.visitAdder L fs ic a s with
           | .error e => .error e
           | .ok s1 => FeatureSet.visitAdder L fs ic b s1) := by
  intro a
  induction a with
  | nil => intro b s; rfl
  | cons f rest ih =>
    intro b s
    simp only [List.cons_append, FeatureSet.visitAdder]
    cases FeatureSet.modelAdder L fs ic s f with
    | error e => rfl
    | ok s1 => exact ih b s1

/-- The lambda, called on the designated input feature, returns, leaves the model alone and
records the input coordinates unless the feature already has an entry. -/
theorem modelAdder_input {M K : Type} (L : Lowering M K) (fs : FeatureSet) (ic : List K)
    (s : AdderState M K) (i : FeaturePtr) (hi : fs._inputFeature = some i) :
    FeatureSet.modelAdder L fs ic s i
      = .ok { model := s.model
              featureOutputs := AssocMap.emplace i ic s.featureOutputs
              outputCoordinates :=
                if some i = fs._outputFeature then ic else s.outputCoordinates } := by
  simp [FeatureSet.modelAdder, FeatureSet.coordinatesFor, hi]

/-- One call of the lambda keeps the entry of the input feature, if there is one, equal to
the input coordinates, and keeps an entry that is there. -/
theorem modelAdder_input_entry {M K : Type} (L : Lowering M K) (fs : FeatureSet) (ic : List K)
    (i : FeaturePtr) (hi : fs._inputFeature = some i) (s s1 : AdderState M K) (f : FeaturePtr)
    (hstep : FeatureSet.modelAdder L fs ic s f = .ok s1)
    (hinv : ∀ c, AssocMap.find s.featureOutputs i = some c → c = ic) :
    (∀ c, AssocMap.find s1.featureOutputs i = some c → c = ic) ∧
    (AssocMap.find s.featureOutputs i = some ic → AssocMap.find s1.featureOutputs i = some ic) ∧
    (f = i → AssocMap.find s1.featureOutputs i = some ic) := by
  by_cases hf : f = i
  · subst hf
    rw [modelAdder_input L fs ic s f hi] at hstep
    simp only [Except.ok.injEq] at hstep
    subst hstep
    have key : AssocMap.find (AssocMap.emplace f ic s.featureOutputs) f = some ic := by
      rw [AssocMap.find_emplace_self]
      cases h : AssocMap.find s.featureOutputs f with
      | none => rfl
      | some c => simp [hinv c h]
    refine ⟨?_, fun _ => key, fun _ => key⟩
    intro c hc
    simp only [key, Option.some.injEq] at hc
    exact hc.symm
  · unfold FeatureSet.modelAdder at hstep
    cases hc : FeatureSet.coordinatesFor L fs ic s f with
    | error e => simp [hc] at hstep
    | ok r =>
      obtain ⟨c1, m1⟩ := r
      simp only [hc, Except.ok.injEq] at hstep
      subst hstep
      have hne : i ≠ f := fun e => hf e.symm
      simp only [AssocMap.find_emplace_ne f i c1 s.featureOutputs hne]
      exact ⟨hinv, fun h => h, fun h => absurd h hf⟩

/-- Through a traversal the entry of the input feature is the input coordinates, and it is
there once the input feature was visited. -/
theorem visitAdder_input_entry {M K : Type} (L : Lowering M K) (fs : FeatureSet) (ic : List K)
    (i : FeaturePtr) (hi : fs._inputFeature = some i) :
    ∀ (features : List FeaturePtr) (s s1 : AdderState M K),
      FeatureSet.visitAdder L fs ic features s = .ok s1 →
      (∀ c, AssocMap.find s.featureOutputs i = some c → c = ic) →
      (∀ c, AssocMap.find s1.featureOutputs i = some c → c = ic) ∧
      (AssocMap.find s.featureOutputs i = some ic ∨ i ∈ features →
        AssocMap.find s1.featureOutputs i = some ic) := by
  intro features
  induction features with
  | nil =>
    intro s s1 h hinv
    simp only [FeatureSet.visitAdder, Except.ok.injEq] at h
    subst h
    exact ⟨hinv, fun h => h.elim id (fun hm => by cases hm)⟩
  | cons f rest ih =>
    intro s s1 h hinv
    simp only [FeatureSet.visitAdder] at h
    cases hstep : FeatureSet.modelAdder L fs ic s f with
    | error e => rw [hstep] at h; cases h
    | ok s2 =>
      rw [hstep] at h
      obtain ⟨hinv2, hkeep, hnew⟩ := modelAdder_input_entry L fs ic i hi s s2 f hstep hinv
      obtain ⟨hinv1, hthere⟩ := ih s2 s1 h hinv2
      refine ⟨hinv1, ?_⟩
      rintro (hs | hm)
      · exact hthere (Or.inl (hkeep hs))
      · rcases List.mem_cons.mp hm with rfl | hm
        · exact hthere (Or.inl (hnew rfl))
        · exact hthere (Or.inr hm)

end features

namespace features

/-- A traversal that visits nothing but the designated input feature returns and leaves the
model alone; if that feature is the designated output too and was visited, the output
coordinates are the input coordinates. -/
theorem visitAdder_only_input {M K : Type} (L : Lowering M K) (fs : FeatureSet) (ic : List K)
    (i : FeaturePtr) (hi : fs._inputFeature = some i) :
    ∀ (features : List FeaturePtr) (s : AdderState M K), (∀ f ∈ features, f = i) →
      ∃ s1, FeatureSet.visitAdder L fs ic features s = .ok s1 ∧ s1.model = s.model ∧
        (fs._outputFeature = some i → features ≠ [] ∨ s.outputCoordinates = ic →
          s1.outputCoordinates = ic) := by
  intro features
  induction features with
  | nil =>
    intro s _
    exact ⟨s, rfl, rfl, fun _ h => h.elim (fun h => absurd rfl h) id⟩
  | cons f rest ih =>
    intro s hall
    have hf : f = i := hall f (List.mem_cons_self _ _)
    subst hf
    obtain ⟨s1, hrun, hmodel, hout⟩ :=
      ih { model := s.model
           featureOutputs := AssocMap.emplace f ic s.featureOutputs
           outputCoordinates := if some f = fs._outputFeature then ic else s.outputCoordinates }
        (fun x hx => hall x (List.mem_cons_of_mem _ hx))
    refine ⟨s1, ?_, hmodel, ?_⟩
    · simp only [FeatureSet.visitAdder, modelAdder_input L fs ic s f hi, hrun]
    · intro ho _
      exact hout ho (Or.inr (by simp [ho]))

/-- Visiting features other than the designated output leaves the output coordinates as
they are. -/
theorem visitAdder_keeps_output {M K : Type} (L : Lowering M K) (fs : FeatureSet) (ic : List K) :
    ∀ (features : List FeaturePtr) (s s1 : AdderState M K),
      (∀ f ∈ features, some f ≠ fs._outputFeature) →
      FeatureSet.visitAdder L fs ic features s = .ok s1 →
      s1.outputCoordinates = s.outputCoordinates := by
  intro features
  induction features with
  | nil =>
    intro s s1 _ h
    simp only [FeatureSet.visitAdder, Except.ok.injEq] at h
    subst h
    rfl
  | cons f rest ih =>
    intro s s1 hne h
    simp only [FeatureSet.visitAdder] at h
    cases hstep : FeatureSet.modelAdder L fs ic s f with
    | error e => rw [hstep] at h; cases h
    | ok s2 =>
      rw [hstep] at h
      rw [ih s2 s1 (fun x hx => hne x (List.mem_cons_of_mem _ hx)) h]
      unfold FeatureSet.modelAdder at hstep
      cases hc : FeatureSet.coordinatesFor L fs ic s f with
      | error e => simp [hc] at hstep
      | ok r =>
        obtain ⟨c1, m1⟩ := r
        simp only [hc, Except.ok.injEq] at hstep
        subst hstep
        simp [hne f (List.mem_cons_self _ _)]

/-- The traversal runs to the end when the lowering of every visited feature other than the
designated input returns. -/
theorem visitAdder_total {M K : Type} (L : Lowering M K) (fs : FeatureSet) (ic : List K) :
    ∀ (features : List FeaturePtr),
      (∀ f ∈ features, some f ≠ fs._inputFeature →
        ∀ (m : M) (outs : FeatureOutputs K), ∃ r, Feature.AddToModel L f m outs = .ok r) →
      ∀ s : AdderState M K, ∃ s1, FeatureSet.visitAdder L fs ic features s = .ok s1 := by
  intro features
  induction features with
  | nil => intro _ s; exact ⟨s, rfl⟩
  | cons f rest ih =>
    intro hall s
    have hc : ∃ r, FeatureSet.coordinatesFor L fs ic s f = .ok r := by
      unfold FeatureSet.coordinatesFor
      by_cases hf : some f = fs._inputFeature
      · exact ⟨(ic, s.model), by simp only [hf, if_true]⟩
      · simp only [hf, if_false]
        exact hall f (List.mem_cons_self _ _) hf s.model s.featureOutputs
    obtain ⟨⟨c, m1⟩, hc⟩ := hc
    obtain ⟨s1, h1⟩ := ih (fun x hx => hall x (List.mem_cons_of_mem _ hx))
      { model := m1
        featureOutputs := AssocMap.emplace f c s.featureOutputs
        outputCoordinates := if some f = fs._outputFeature then c else s.outputCoordinates }
    exact ⟨s1, by simp only [FeatureSet.visitAdder, FeatureSet.modelAdder, hc, h1]⟩

/-- A list that contains `o` splits at the last occurrence of `o`. -/
theorem exists_last_visit (o : FeaturePtr) :
    ∀ features : List FeaturePtr, o ∈ features →
      ∃ pre post, features = pre ++ o :: post ∧ o ∉ post := by
  intro features
  induction features with
  | nil => intro h; cases h
  | cons f rest ih =>
    intro h
    by_cases hrest : o ∈ rest
    · obtain ⟨pre, post, hsplit, hpost⟩ := ih hrest
      exact ⟨f :: pre, post, by simp [hsplit], hpost⟩
    · rcases List.mem_cons.mp h with rfl | h
      · exact ⟨[], rest, rfl, hrest⟩
      · exact absurd h hrest

/-- When `AddToModel` returns, its value is what the lambda computed at the last visit of
the designated output feature. -/
theorem AddToModel_value_at_last_visit {M K : Type} (L : Lowering M K)
    (visit : FeatureSet → List FeaturePtr) (fs : FeatureSet) (i o : FeaturePtr) (model : M)
    (ic : List K) (hi : fs._inputFeature = some i) (ho : fs._outputFeature = some o)
    (pre post : List FeaturePtr) (r : List K) (m : M)
    (hsplit : visit fs = pre ++ o :: post) (hpost : o ∉ post)
    (hret : FeatureSet.AddToModel L visit fs model ic = .ok (r, m)) :
    ∃ (s1 : AdderState M K) (m2 : M),
      FeatureSet.visitAdder L fs ic pre
        { model := model, featureOutputs := [], outputCoordinates := [] } = .ok s1 ∧
      FeatureSet.coordinatesFor L fs ic s1 o = .ok (r, m2) := by
  unfold FeatureSet.AddToModel FeatureSet.AddToModelRun at hret
  simp only [hi, ho, hsplit] at hret
  rw [visitAdder_append] at hret
  cases hpre : FeatureSet.visitAdder L fs ic pre
      { model := model, featureOutputs := [], outputCoordinates := [] } with
  | error e => simp [hpre] at hret
  | ok s1 =>
    simp only [hpre, FeatureSet.visitAdder] at hret
    cases hstep : FeatureSet.modelAdder L fs ic s1 o with
    | error e => simp [hstep] at hret
    | ok s2 =>
      simp only [hstep] at hret
      cases hrest : FeatureSet.visitAdder L fs ic post s2 with
      | error e => simp [hrest] at hret
      | ok s3 =>
        simp only [hrest, Except.ok.injEq, Prod.mk.injEq] at hret
        have hkeep := visitAdder_keeps_output L fs ic post s2 s3
          (by
            intro f hf hfo
            rw [ho] at hfo
            exact hpost (by rw [← Option.some.inj hfo]; exact hf)) hrest
        unfold FeatureSet.modelAdder at hstep
        cases hc : FeatureSet.coordinatesFor L fs ic s1 o with
        | error e => simp [hc] at hstep
        | ok rc =>
          obtain ⟨c1, m1⟩ := rc
          simp only [hc, Except.ok.injEq] at hstep
          subst hstep
          simp only [ho, if_true] at hkeep
          refine ⟨s1, m1, rfl, ?_⟩
          rw [← hret.1, hkeep]
          exact hc

end features

namespace features

/-- C9. Lowering identity for the input.  In `AddToModel` on a feature set with designated
input feature `i` and a designated output feature: the feature's own `AddToModel` (that of
`InputFeature`) would throw "Not implemented", yet the lambda, called on `i` in any state,
returns: the coordinates it takes for `i` are `inputCoordinates` and the model is the one
before the call, so nothing is added to it.  When the whole call reaches its `return` and
the traversal visited `i`, the table maps `i` to exactly `inputCoordinates`; the call does
reach it when the lowering of the other visited features returns; and when the traversal
visits nothing but `i` the target model is unchanged. -/
theorem AddToModel_input_identity {M K : Type} (L : Lowering M K)
    (visit : FeatureSet → List FeaturePtr) (fs : FeatureSet) (i o : FeaturePtr) (model : M)
    (inputCoordinates : List K) (s : AdderState M K)
    (hi : fs._inputFeature = some i) (ho : fs._outputFeature = some o)
    (hkind : L.isInputFeature i = true) :
    Feature.AddToModel L i s.model s.featureOutputs
      = .error (.runtimeError "Not implemented") ∧
    FeatureSet.coordinatesFor L fs inputCoordinates s i = .ok (inputCoordinates, s.model) ∧
    FeatureSet.modelAdder L fs inputCoordinates s i
      = .ok { model := s.model
              featureOutputs := AssocMap.emplace i inputCoordinates s.featureOutputs
              outputCoordinates :=
                if some i = fs._outputFeature then inputCoordinates else s.outputCoordinates } ∧
    (∀ sEnd : AdderState M K,
      FeatureSet.AddToModelRun L visit fs model inputCoordinates = .ok sEnd → i ∈ visit fs →
      AssocMap.find sEnd.featureOutputs i = some inputCoordinates) ∧
    ((∀ f ∈ visit fs, some f ≠ fs._inputFeature →
        ∀ (m : M) (outs : FeatureOutputs K), ∃ r, Feature.AddToModel L f m outs = .ok r) →
      ∃ sEnd, FeatureSet.AddToModelRun L visit fs model inputCoordinates = .ok sEnd) ∧
    ((∀ f ∈ visit fs, f = i) →
      ∃ sEnd, FeatureSet.AddToModelRun L visit fs model inputCoordinates = .ok sEnd ∧
        sEnd.model = model) := by
  refine ⟨?_, ?_, modelAdder_input L fs inputCoordinates s i hi, ?_, ?_, ?_⟩
  · simp [Feature.AddToModel, hkind, InputFeature.AddToModel]
  · simp [FeatureSet.coordinatesFor, hi]
  · intro sEnd hrun hmem
    unfold FeatureSet.AddToModelRun at hrun
    simp only [hi, ho] at hrun
    exact (visitAdder_input_entry L fs inputCoordinates i hi (visit fs) _ sEnd hrun
      (by intro c hc; cases hc)).2 (Or.inr hmem)
  · intro htotal
    obtain ⟨sEnd, h⟩ := visitAdder_total L fs inputCoordinates (visit fs) htotal
      { model := model, featureOutputs := [], outputCoordinates := [] }
    exact ⟨sEnd, by simp only [FeatureSet.AddToModelRun, hi, ho, h]⟩
  · intro honly
    obtain ⟨sEnd, h, hmodel, _⟩ := visitAdder_only_input L fs inputCoordinates i hi (visit fs)
      { model := model, featureOutputs := [], outputCoordinates := [] } honly
    exact ⟨sEnd, by simp only [FeatureSet.AddToModelRun, hi, ho, h], hmodel⟩

/-- Witness for C9: the two-feature graph lowered with input coordinates
`[(0, 0), (0, 1), (0, 2)]`; the table maps the input feature (address 1) to them, and the
graph whose only feature is the input feature leaves the model `[7]` as it is. -/
theorem AddToModel_input_identity_witness :
    (∃ sEnd, FeatureSet.AddToModelRun demoLowering demoVisit demoWorld.fs [7]
        [(0, 0), (0, 1), (0, 2)] = .ok sEnd ∧
      AssocMap.find sEnd.featureOutputs 1 = some [(0, 0), (0, 1), (0, 2)]) ∧
    (∃ sEnd, FeatureSet.AddToModelRun demoLowering inputOnlyVisit inputOnlySet [7]
        [(0, 0), (0, 1), (0, 2)] = .ok sEnd ∧ sEnd.model = [7]) :=
  ⟨⟨_, by rfl,
      (AddToModel_input_identity demoLowering demoVisit demoWorld.fs 1 2 [7]
        [(0, 0), (0, 1), (0, 2)] { model := [7], featureOutputs := [], outputCoordinates := [] }
        (by rfl) (by rfl) (by rfl)).2.2.2.1 _ (by rfl) (by decide)⟩,
    (AddToModel_input_identity demoLowering inputOnlyVisit inputOnlySet 1 1 [7]
      [(0, 0), (0, 1), (0, 2)] { model := [7], featureOutputs := [], outputCoordinates := [] }
      (by rfl) (by rfl) (by rfl)).2.2.2.2.2 (by decide)⟩

/-- C10. Overall result of the lowering.  On a feature set with designated input `i` and
designated output `o` whose traversal visits `o` (for the last time after the features
`pre`): when `AddToModel` returns, its value is exactly the coordinates the lambda computed
for `o` at that visit; it does return when the lowering of every visited feature other than
the input returns.  When the output feature is the input feature itself, the value is
`inputCoordinates`, and if the traversal visits that feature alone the call returns
`inputCoordinates` with the target model unchanged. -/
theorem AddToModel_returns_output_coordinates {M K : Type} (L : Lowering M K)
    (visit : FeatureSet → List FeaturePtr) (fs : FeatureSet) (i o : FeaturePtr) (model : M)
    (inputCoordinates : List K)
    (hi : fs._inputFeature = some i) (ho : fs._outputFeature = some o) :
    (∀ (pre post : List FeaturePtr) (r : List K) (m : M),
      visit fs = pre ++ o :: post → o ∉ post →
      FeatureSet.AddToModel L visit fs model inputCoordinates = .ok (r, m) →
      ∃ (s1 : AdderState M K) (m2 : M),
        FeatureSet.visitAdder L fs inputCoordinates pre
          { model := model, featureOutputs := [], outputCoordinates := [] } = .ok s1 ∧
        FeatureSet.coordinatesFor L fs inputCoordinates s1 o = .ok (r, m2)) ∧
    ((∀ f ∈ visit fs, some f ≠ fs._inputFeature →
        ∀ (m : M) (outs : FeatureOutputs K), ∃ r, Feature.AddToModel L f m outs = .ok r) →
      ∃ r m, FeatureSet.AddToModel L visit fs model inputCoordinates = .ok (r, m)) ∧
    (o = i → o ∈ visit fs → ∀ (r : List K) (m : M),
      FeatureSet.AddToModel L visit fs model inputCoordinates = .ok (r, m) →
      r = inputCoordinates) ∧
    (o = i → visit fs ≠ [] → (∀ f ∈ visit fs, f = i) →
      FeatureSet.AddToModel L visit fs model inputCoordinates
        = .ok (inputCoordinates, model)) := by
  refine ⟨?_, ?_, ?_, ?_⟩
  · intro pre post r m hsplit hpost hret
    exact AddToModel_value_at_last_visit L visit fs i o model inputCoordinates hi ho pre post r m
      hsplit hpost hret
  · intro htotal
    obtain ⟨sEnd, h⟩ := visitAdder_total L fs inputCoordinates (visit fs) htotal
      { model := model, featureOutputs := [], outputCoordinates := [] }
    exact ⟨sEnd.outputCoordinates, sEnd.model,
      by simp only [FeatureSet.AddToModel, FeatureSet.AddToModelRun, hi, ho, h]⟩
  · intro hoi hmem r m hret
    obtain ⟨pre, post, hsplit, hpost⟩ := exists_last_visit o (visit fs) hmem
    obtain ⟨s1, m2, _, hc⟩ := AddToModel_value_at_last_visit L visit fs i o model
      inputCoordinates hi ho pre post r m hsplit hpost hret
    subst hoi
    simp only [FeatureSet.coordinatesFor, hi, if_true, Except.ok.injEq, Prod.mk.injEq] at hc
    exact hc.1.symm
  · intro hoi hne honly
    subst hoi
    obtain ⟨sEnd, h, hmodel, hout⟩ := visitAdder_only_input L fs inputCoordinates o hi (visit fs)
      { model := model, featureOutputs := [], outputCoordinates := [] } honly
    have hout2 := hout ho (Or.inl hne)
    simp only [FeatureSet.AddToModel, FeatureSet.AddToModelRun, hi, ho, h, Except.ok.injEq,
      Prod.mk.injEq]
    exact ⟨hout2, hmodel⟩

/-- Witness for C10: in the two-feature graph the result is the coordinate `(2, 0)` the
output feature (address 2) produced after the input feature was visited; in the graph whose
output is its input feature the result is the input coordinates and the model is
unchanged. -/
theorem AddToModel_returns_output_coordinates_witness :
    (∃ (s1 : AdderState (List FeaturePtr) (Nat × Nat)) (m2 : List FeaturePtr),
      FeatureSet.visitAdder demoLowering demoWorld.fs [(0, 0), (0, 1), (0, 2)] [1]
        { model := [7], featureOutputs := [], outputCoordinates := [] } = .ok s1 ∧
      FeatureSet.coordinatesFor demoLowering demoWorld.fs [(0, 0), (0, 1), (0, 2)] s1 2
        = .ok ([(2, 0)], m2)) ∧
    (∃ r m, FeatureSet.AddToModel demoLowering demoVisit demoWorld.fs [7]
      [(0, 0), (0, 1), (0, 2)] = .ok (r, m)) ∧
    FeatureSet.AddToModel demoLowering inputOnlyVisit inputOnlySet [7] [(0, 0), (0, 1), (0, 2)]
      = .ok ([(0, 0), (0, 1), (0, 2)], [7]) :=
  ⟨(AddToModel_returns_output_coordinates demoLowering demoVisit demoWorld.fs 1 2 [7]
      [(0, 0), (0, 1), (0, 2)] (by rfl) (by rfl)).1 [1] [] [(2, 0)] [7, 2] (by rfl) (by decide)
      (by rfl),
    (AddToModel_returns_output_coordinates demoLowering demoVisit demoWorld.fs 1 2 [7]
      [(0, 0), (0, 1), (0, 2)] (by rfl) (by rfl)).2.1
      (fun f _ hf m outs => ⟨([(f, 0)], m ++ [f]), by
        have h1 : ¬ f = 1 := fun e => hf (by rw [e]; rfl)
        simp [Feature.AddToModel, demoLowering, h1]⟩),
    (AddToModel_returns_output_coordinates demoLowering inputOnlyVisit inputOnlySet 1 1 [7]
      [(0, 0), (0, 1), (0, 2)] (by rfl) (by rfl)).2.2.2 rfl (by decide) (by decide)⟩

end features

namespace features

/-- The designations after `ProcessInputData` are those before it. -/
theorem ProcessInputData_keeps_designations {V G : Type} (ops : FeatureOps V G) (inst : List V)
    (w : World V G) :
    (FeatureSet.ProcessInputData ops inst w).state.fs._inputFeature = w.fs._inputFeature ∧
    (FeatureSet.ProcessInputData ops inst w).state.fs._outputFeature = w.fs._outputFeature := by
  unfold FeatureSet.ProcessInputData
  cases hi : w.fs._inputFeature with
  | none => simp [Outcome.state, hi]
  | some i =>
    cases ho : w.fs._outputFeature with
    | none => simp [Outcome.state, hi, ho]
    | some o =>
      by_cases hd : w.mem.input._outputDimension = inst.length
      · by_cases hlt : w.fs._numItemsProcessed < ops.WarmupTime o
        · simp [InputFeature.SetValue, FeatureSet.HasOutput, Outcome.state, hi, ho, hd, hlt]
        · simp [InputFeature.SetValue, FeatureSet.HasOutput, Outcome.state, hi, ho, hd, hlt]
      · simp [InputFeature.SetValue, Outcome.state, hi, ho, hd]

/-- The designations after `Deserialize` returned: both null, or the output set and the
input what `FindInputFeature` returns for it. -/
theorem Deserialize_assigns_both {F : Type} (R : FeatureFactory F) (lines : List String)
    (st : FeatureStore F) :
    (FeatureSet.Deserialize R lines st).value? = none ∨
    ((FeatureSet.Deserialize R lines st).state.fs._outputFeature = none ∧
      (FeatureSet.Deserialize R lines st).state.fs._inputFeature = none) ∨
    (∃ o, (FeatureSet.Deserialize R lines st).state.fs._outputFeature = some o ∧
      (FeatureSet.Deserialize R lines st).state.fs._inputFeature
        = R.FindInputFeature (FeatureSet.Deserialize R lines st).state.objects o) := by
  unfold FeatureSet.Deserialize
  cases hloop : FeatureSet.deserializeLoop R lines st none with
  | failed st1 e => exact Or.inl rfl
  | returned st1 lastFeature =>
    cases lastFeature with
    | none => exact Or.inr (Or.inl ⟨rfl, rfl⟩)
    | some o => exact Or.inr (Or.inr ⟨o, rfl, rfl⟩)

/-- C13. `SetOutputFeature` assigns `_outputFeature` and nothing else: on a newly constructed
feature set, whose designations are both null, `SetOutputFeature` with the address of a
feature leaves the output designated and the input null, so the designations no longer
agree; with a null argument on a set with both designations it leaves the input set and the
output null.  `Reset`, `ProcessInputData` and `CreateFeatureFromDescription` leave the
designations as they are, and `Deserialize`, when it returns, has assigned both: they are
both null, or the output is set and the input is what `FindInputFeature` returns for it. -/
theorem SetOutputFeature_breaks_designations :
    FeatureSet.new.designationsAgree = true ∧
    (FeatureSet.SetOutputFeature (some 2) FeatureSet.new)._outputFeature = some 2 ∧
    (FeatureSet.SetOutputFeature (some 2) FeatureSet.new)._inputFeature = none ∧
    (FeatureSet.SetOutputFeature (some 2) FeatureSet.new).designationsAgree = false ∧
    demoWorld.fs.designationsAgree = true ∧
    (FeatureSet.SetOutputFeature none demoWorld.fs).designationsAgree = false ∧
    (∀ (output : Option FeaturePtr) (fs : FeatureSet),
      (FeatureSet.SetOutputFeature output fs)._inputFeature = fs._inputFeature ∧
      (FeatureSet.SetOutputFeature output fs)._outputFeature = output) ∧
    (∀ (V G : Type) (ops : FeatureOps V G) (inst : List V) (w : World V G),
      ((FeatureSet.Reset ops w).fs._inputFeature = w.fs._inputFeature ∧
        (FeatureSet.Reset ops w).fs._outputFeature = w.fs._outputFeature) ∧
      ((FeatureSet.ProcessInputData ops inst w).state.fs._inputFeature = w.fs._inputFeature ∧
        (FeatureSet.ProcessInputData ops inst w).state.fs._outputFeature
          = w.fs._outputFeature)) ∧
    (∀ (F : Type) (R : FeatureFactory F) (description lines : List String) (st : FeatureStore F),
      ((FeatureSet.CreateFeatureFromDescription R description st).state.fs._inputFeature
          = st.fs._inputFeature ∧
        (FeatureSet.CreateFeatureFromDescription R description st).state.fs._outputFeature
          = st.fs._outputFeature) ∧
      ((FeatureSet.Deserialize R lines st).value? = none ∨
        ((FeatureSet.Deserialize R lines st).state.fs._outputFeature = none ∧
          (FeatureSet.Deserialize R lines st).state.fs._inputFeature = none) ∨
        (∃ o, (FeatureSet.Deserialize R lines st).state.fs._outputFeature = some o ∧
          (FeatureSet.Deserialize R lines st).state.fs._inputFeature
            = R.FindInputFeature (FeatureSet.Deserialize R lines st).state.objects o))) := by
  refine ⟨by rfl, by rfl, by rfl, by rfl, by rfl, by rfl, fun _ _ => ⟨rfl, rfl⟩, ?_, ?_⟩
  · intro V G ops inst w
    refine ⟨?_, ProcessInputData_keeps_designations ops inst w⟩
    rw [(Reset_fields ops w).1]
    exact ⟨rfl, rfl⟩
  · intro F R description lines st
    refine ⟨?_, Deserialize_assigns_both R lines st⟩
    unfold FeatureSet.CreateFeatureFromDescription
    cases R.FromDescription description st.fs._featureMap st.objects with
    | error e => exact ⟨rfl, rfl⟩
    | ok feature => exact ⟨rfl, rfl⟩

/-- C14. `Serialize` and `SerializeActiveGraph` throw exactly when no output feature is
designated.  When they throw, the stream holds what it held before, and neither the
traversal nor any feature's `Serialize` is consulted; when an output feature is designated
they return, having appended what the visited features write, in visiting order. -/
theorem Serialize_fails_iff_no_output (serialize : FeaturePtr → String)
    (visit : FeatureSet → List FeaturePtr) (fs : FeatureSet) (outStream : String) :
    ((FeatureSet.Serialize serialize visit fs outStream).value? = none ↔
      fs._outputFeature = none) ∧
    ((FeatureSet.SerializeActiveGraph serialize visit fs outStream).value? = none ↔
      fs._outputFeature = none) ∧
    (fs._outputFeature = none →
      FeatureSet.Serialize serialize visit fs outStream
        = .failed outStream (.runtimeError "No output feature to serialize") ∧
      FeatureSet.SerializeActiveGraph serialize visit fs outStream
        = .failed outStream (.runtimeError "No output feature to serialize")) ∧
    (fs._outputFeature ≠ none →
      FeatureSet.Serialize serialize visit fs outStream
        = .returned ((visit fs).foldl (fun out f => out ++ serialize f) outStream) () ∧
      FeatureSet.SerializeActiveGraph serialize visit fs outStream
        = .returned ((visit fs).foldl (fun out f => out ++ serialize f) outStream) ()) := by
  cases h : fs._outputFeature with
  | none =>
    simp [FeatureSet.Serialize, FeatureSet.SerializeActiveGraph, h, Outcome.value?]
  | some o =>
    simp [FeatureSet.Serialize, FeatureSet.SerializeActiveGraph, h, Outcome.value?]

/-- Witness for C14: a newly constructed feature set cannot be serialized and the stream
keeps its text; the two-feature set is serialized feature by feature. -/
theorem Serialize_fails_iff_no_output_witness :
    (FeatureSet.Serialize (fun f => toString f ++ "\n") demoVisit FeatureSet.new "# features\n"
        = .failed "# features\n" (.runtimeError "No output feature to serialize") ∧
      FeatureSet.SerializeActiveGraph (fun f => toString f ++ "\n") demoVisit FeatureSet.new
          "# features\n"
        = .failed "# features\n" (.runtimeError "No output feature to serialize")) ∧
    (FeatureSet.Serialize (fun f => toString f ++ "\n") demoVisit demoWorld.fs "# features\n"
        = .returned ((demoVisit demoWorld.fs).foldl
            (fun out f => out ++ (fun f => toString f ++ "\n") f) "# features\n") () ∧
      FeatureSet.SerializeActiveGraph (fun f => toString f ++ "\n") demoVisit demoWorld.fs
          "# features\n"
        = .returned ((demoVisit demoWorld.fs).foldl
            (fun out f => out ++ (fun f => toString f ++ "\n") f) "# features\n") ()) :=
  ⟨(Serialize_fails_iff_no_output (fun f => toString f ++ "\n") demoVisit FeatureSet.new
      "# features\n").2.2.1 (by rfl),
    (Serialize_fails_iff_no_output (fun f => toString f ++ "\n") demoVisit demoWorld.fs
      "# features\n").2.2.2 (by decide)⟩

/-- C15, as stated, fails: on a feature set without designations `ProcessInputData` is not
rejected; it returns the value `false`. -/
theorem ProcessInputData_not_rejected :
    (FeatureSet.ProcessInputData (demoOps 2) [1, 0, 0]
        ({ demoWorld with fs := FeatureSet.new } : World Int Unit)).value? = some false ∧
    ¬ ∃ (w1 : World Int Unit) (e : Error),
      FeatureSet.ProcessInputData (demoOps 2) [1, 0, 0]
        ({ demoWorld with fs := FeatureSet.new } : World Int Unit) = .failed w1 e := by
  constructor
  · rfl
  · rintro ⟨w1, e, h⟩
    have h2 := congrArg Outcome.value? h
    simp [Outcome.value?, FeatureSet.ProcessInputData, FeatureSet.new] at h2

/-- C15, amended.  On a feature set with no designated output feature `ProcessInputData`
signals nothing: it returns `false`, calls no feature and leaves the feature set, its
counter included, and every feature object as they were. -/
theorem ProcessInputData_without_output {V G : Type} (ops : FeatureOps V G) (inst : List V)
    (w : World V G) (h : w.fs._outputFeature = none) :
    FeatureSet.ProcessInputData ops inst w = .returned w false := by
  unfold FeatureSet.ProcessInputData
  cases hi : w.fs._inputFeature <;> simp [h]

/-- Witness for C15, amended: the two feature objects with a newly constructed feature
set. -/
theorem ProcessInputData_without_output_witness :
    FeatureSet.ProcessInputData (demoOps 2) [1, 0, 0]
        ({ demoWorld with fs := FeatureSet.new } : World Int Unit)
      = .returned { demoWorld with fs := FeatureSet.new } false :=
  ProcessInputData_without_output (demoOps 2) [1, 0, 0] { demoWorld with fs := FeatureSet.new }
    (by rfl)

/-- C16. Counter law.  On a feature set with designated input and output feature (warm-up
time `W`) whose counter is 0, as after construction or `Reset`: after `k` calls of
`ProcessInputData` with samples of the declared dimension, all of which return, the counter
is `min k W`.  A single such call in any state never lowers the counter, and never takes it
beyond `W` when it was not beyond `W`. -/
theorem counter_is_min {V G : Type} (ops : FeatureOps V G) (w : World V G)
    (i o : FeaturePtr) (samples : List (List V)) (inst : List V)
    (hi : w.fs._inputFeature = some i) (ho : w.fs._outputFeature = some o)
    (hdim : ∀ s ∈ samples, s.length = w.mem.input._outputDimension)
    (hinst : inst.length = w.mem.input._outputDimension) :
    (w.fs._numItemsProcessed = 0 →
      ∃ (w1 : World V G) (bs : List Bool),
        FeatureSet.ProcessAll ops samples w = .returned w1 bs ∧
        w1.fs._numItemsProcessed = min samples.length (ops.WarmupTime o)) ∧
    (FeatureSet.Reset ops w).fs._numItemsProcessed = 0 ∧
    FeatureSet.new._numItemsProcessed = 0 ∧
    (∃ w1 b, FeatureSet.ProcessInputData ops inst w = .returned w1 b ∧
      w.fs._numItemsProcessed ≤ w1.fs._numItemsProcessed ∧
      (w.fs._numItemsProcessed ≤ ops.WarmupTime o →
        w1.fs._numItemsProcessed ≤ ops.WarmupTime o)) := by
  refine ⟨?_, ?_, rfl, ?_⟩
  · intro hfresh
    obtain ⟨w1, bs, hrun, _, _, _, hn, _⟩ :=
      ProcessAll_returns ops i o samples w hi ho hdim (by omega)
    exact ⟨w1, bs, hrun, by rw [hn, hfresh, Nat.zero_add]⟩
  · rw [(Reset_fields ops w).1]
  · obtain ⟨w1, hstep, _, _, _, hn⟩ := ProcessInputData_returns ops inst w i o hi ho hinst
    refine ⟨w1, _, hstep, ?_, ?_⟩
    · rw [hn]; split <;> omega
    · intro hle
      rw [hn]; split <;> omega

/-- Witness for C16: warm-up time 2 and three samples leave the counter at 2. -/
theorem counter_is_min_witness :
    ∃ (w1 : World Int Unit) (bs : List Bool),
      FeatureSet.ProcessAll (demoOps 2) [[1, 0, 0], [3, 0, 0], [5, 0, 0]] demoWorld
        = .returned w1 bs ∧
      w1.fs._numItemsProcessed = min 3 2 :=
  (counter_is_min (demoOps 2) demoWorld 1 2 [[1, 0, 0], [3, 0, 0], [5, 0, 0]] [1, 0, 0]
    (by rfl) (by rfl) (by decide) (by rfl)).1 (by rfl)

end features

namespace model

/-- Member `AddRange` appends the range and writes nothing else: the member `_size` keeps the
value it had. -/
theorem AddRange_members (e : OutputPortElementsUntyped) (range : OutputPortRange) :
    (e.AddRange range)._ranges = e._ranges ++ [range] ∧ (e.AddRange range)._size = e._size :=
  ⟨rfl, rfl⟩

/-- C17. `Size()` of a Port-Elements is not fixed at construction.  Whatever the port sizes
were when a Port-Elements got its ranges, `Size()` queried while the port sizes are `atQuery`
is the sum of the sizes its ranges have at the query, as `size_t` arithmetic computes it,
which is the exact sum whenever that sum is a `size_t` value; a whole-port range counts in
that sum with the size its port has at the query.  So it is for the Port-Elements constructed
from a list of ranges; and for the one constructed from the whole of a port, `Size()` is the
size the port has at the query, which is not the value at construction when the port's size
has changed since. -/
theorem Size_follows_resize (atConstruction atQuery : PortSizes)
    (e : OutputPortElementsUntyped) (ranges : List OutputPortRange) (port : PortPtr) :
    e.Size atQuery = (e._ranges.map (OutputPortRange.Size atQuery)).sum % sizeModulus ∧
    ((e._ranges.map (OutputPortRange.Size atQuery)).sum < sizeModulus →
      e.Size atQuery = (e._ranges.map (OutputPortRange.Size atQuery)).sum) ∧
    (∀ r ∈ e._ranges, r._isFixedSize = false → r.Size atQuery = atQuery r._referencedPort) ∧
    (OutputPortElementsUntyped.ofRanges atConstruction ranges).Size atQuery
      = (ranges.map (OutputPortRange.Size atQuery)).sum % sizeModulus ∧
    ((ranges.map (OutputPortRange.Size atQuery)).sum < sizeModulus →
      (OutputPortElementsUntyped.ofRanges atConstruction ranges).Size atQuery
        = (ranges.map (OutputPortRange.Size atQuery)).sum) ∧
    (atQuery port < sizeModulus →
      (OutputPortElementsUntyped.ofPort atConstruction port).Size atQuery = atQuery port) ∧
    (atQuery port < sizeModulus → atConstruction port < sizeModulus →
      atQuery port ≠ atConstruction port →
      (OutputPortElementsUntyped.ofPort atConstruction port).Size atQuery
        ≠ (OutputPortElementsUntyped.ofPort atConstruction port).Size atConstruction) := by
  have hport : ∀ s : PortSizes, s port < sizeModulus →
      (OutputPortElementsUntyped.ofPort atConstruction port).Size s = s port := by
    intro s hs
    simp [OutputPortElementsUntyped.ofPort, OutputPortElementsUntyped.ComputeSize,
      OutputPortElementsUntyped.blank, OutputPortElementsUntyped.Size, OutputPortRange.ofPort,
      OutputPortRange.Size, Nat.mod_eq_of_lt hs]
  refine ⟨Size_eq_sum_mod atQuery e, ?_, ?_, ofRanges_Size atConstruction atQuery ranges, ?_,
    hport atQuery, ?_⟩
  · intro h
    rw [Size_eq_sum_mod, Nat.mod_eq_of_lt h]
  · intro r _ hr
    simp [OutputPortRange.Size, hr]
  · intro h
    rw [ofRanges_Size, Nat.mod_eq_of_lt h]
  · intro hq hc hne
    rw [hport atQuery hq, hport atConstruction hc]
    exact hne

/-- Witness for C17: the whole of port 1, three elements of port 2 and one element of port 3,
put together while port 1 had 5 elements.  After port 1 has grown to 7 elements `Size()` is
11, the sum of the current sizes 7, 3 and 1, not the 9 of the construction; the Port-Elements
built from the whole of port 1 alone has `Size()` 7, not 5. -/
theorem Size_follows_resize_witness :
    (OutputPortElementsUntyped.ofRanges demoSizes demoRanges).Size demoResized = 11 ∧
    (OutputPortElementsUntyped.ofRanges demoSizes demoRanges).Size demoSizes = 9 ∧
    (OutputPortRange.ofPort demoSizes 1 ∈ demoRanges ∧
      (OutputPortRange.ofPort demoSizes 1)._isFixedSize = false ∧
      (OutputPortRange.ofPort demoSizes 1).Size demoResized = 7) ∧
    (OutputPortElementsUntyped.ofPort demoSizes 1).Size demoResized = 7 ∧
    (OutputPortElementsUntyped.ofPort demoSizes 1).Size demoResized
      ≠ (OutputPortElementsUntyped.ofPort demoSizes 1).Size demoSizes :=
  ⟨(Size_follows_resize demoSizes demoResized OutputPortElementsUntyped.blank demoRanges 1).2.2.2.2.1
      (by decide),
    (Size_follows_resize demoSizes demoSizes OutputPortElementsUntyped.blank demoRanges 1).2.2.2.2.1
      (by decide),
    ⟨by decide, by rfl,
      (Size_follows_resize demoSizes demoResized
        (OutputPortElementsUntyped.ofRanges demoSizes demoRanges) demoRanges 1).2.2.1
        (OutputPortRange.ofPort demoSizes 1) (by decide) (by rfl)⟩,
    (Size_follows_resize demoSizes demoResized OutputPortElementsUntyped.blank demoRanges 1).2.2.2.2.2.1
      (by decide),
    (Size_follows_resize demoSizes demoResized OutputPortElementsUntyped.blank demoRanges 1).2.2.2.2.2.2
      (by decide) (by decide) (by decide)⟩

/-- C18. `AddRange` preserves the size law.  After `e.AddRange(range)` the range sequence of
`e` is the old sequence followed by `range`, and `Size()` is the sum of the sizes of all the
ranges then held, as `size_t` arithmetic computes it: the old `Size()` plus the size of
`range`, reduced modulo `2 ^ 64`.  Whenever the sum of all the sizes is a `size_t` value,
`Size()` is that sum exactly, and exactly the old `Size()` plus the size of `range`. -/
theorem AddRange_preserves_size_law (sizes : PortSizes) (e : OutputPortElementsUntyped)
    (range : OutputPortRange) :
    (e.AddRange range)._ranges = e._ranges ++ [range] ∧
    (e.AddRange range).Size sizes
      = ((e._ranges ++ [range]).map (OutputPortRange.Size sizes)).sum % sizeModulus ∧
    (e.AddRange range).Size sizes = (e.Size sizes + range.Size sizes) % sizeModulus ∧
    (((e._ranges ++ [range]).map (OutputPortRange.Size sizes)).sum < sizeModulus →
      (e.AddRange range).Size sizes
        = ((e._ranges ++ [range]).map (OutputPortRange.Size sizes)).sum ∧
      (e.AddRange range).Size sizes = e.Size sizes + range.Size sizes) := by
  have hadd : (e.AddRange range).Size sizes
      = ((e._ranges ++ [range]).map (OutputPortRange.Size sizes)).sum % sizeModulus := by
    rw [Size_eq_sum_mod, (AddRange_members e range).1]
  have hold := Size_eq_sum_mod sizes e
  have hsum : ((e._ranges ++ [range]).map (OutputPortRange.Size sizes)).sum
      = (e._ranges.map (OutputPortRange.Size sizes)).sum + range.Size sizes := by
    simp
  refine ⟨rfl, hadd, ?_, ?_⟩
  · rw [hadd, hold, hsum]
    unfold sizeModulus
    omega
  · intro h
    rw [hadd, hold]
    rw [hsum] at h ⊢
    unfold sizeModulus at h ⊢
    omega

/-- Witness for C18: a range of three elements of port 2 is added to the Port-Elements built
from the whole of port 1, which has 5 elements; afterwards `Size()` is 8, the old `Size()` 5
plus 3. -/
theorem AddRange_preserves_size_law_witness :
    ((OutputPortElementsUntyped.ofPort demoSizes 1).AddRange (OutputPortRange.ofSlice 2 1 3))._ranges
      = [OutputPortRange.ofPort demoSizes 1, OutputPortRange.ofSlice 2 1 3] ∧
    (OutputPortElementsUntyped.ofPort demoSizes 1).Size demoSizes = 5 ∧
    (OutputPortRange.ofSlice 2 1 3).Size demoSizes = 3 ∧
    ((OutputPortElementsUntyped.ofPort demoSizes 1).AddRange
        (OutputPortRange.ofSlice 2 1 3)).Size demoSizes = 8 ∧
    ((OutputPortElementsUntyped.ofPort demoSizes 1).AddRange
        (OutputPortRange.ofSlice 2 1 3)).Size demoSizes
      = (OutputPortElementsUntyped.ofPort demoSizes 1).Size demoSizes
        + (OutputPortRange.ofSlice 2 1 3).Size demoSizes :=
  ⟨(AddRange_preserves_size_law demoSizes (OutputPortElementsUntyped.ofPort demoSizes 1)
      (OutputPortRange.ofSlice 2 1 3)).1,
    by rfl, by rfl,
    ((AddRange_preserves_size_law demoSizes (OutputPortElementsUntyped.ofPort demoSizes 1)
      (OutputPortRange.ofSlice 2 1 3)).2.2.2 (by decide)).1,
    ((AddRange_preserves_size_law demoSizes (OutputPortElementsUntyped.ofPort demoSizes 1)
      (OutputPortRange.ofSlice 2 1 3)).2.2.2 (by decide)).2⟩

/-- C19. `IsFullPortRange()` is true exactly when the start index is 0 and `Size()` equals
the current size of the referenced port.  A whole-port range is a full-port range whatever
the port sizes were at construction and are at the query; a fixed range `(port, 0, n)` is
full exactly when the port's current size is `n`, and a fixed range with a start index
other than 0 never is. -/
theorem IsFullPortRange_spec (atConstruction sizes : PortSizes) (r : OutputPortRange)
    (port n startIndex : Nat) :
    (r.IsFullPortRange sizes = true ↔
      r.GetStartIndex = 0 ∧ r.Size sizes = sizes r.ReferencedPort) ∧
    (OutputPortRange.ofPort atConstruction port).IsFullPortRange sizes = true ∧
    ((OutputPortRange.ofSlice port 0 n).IsFullPortRange sizes = true ↔ sizes port = n) ∧
    ((OutputPortRange.ofSlice port (startIndex + 1) n).IsFullPortRange sizes = false) := by
  refine ⟨?_, ?_, ?_, ?_⟩
  · simp [OutputPortRange.IsFullPortRange]
  · simp [OutputPortRange.IsFullPortRange, OutputPortRange.ofPort, OutputPortRange.Size,
      OutputPortRange.GetStartIndex, OutputPortRange.ReferencedPort]
  · simp only [OutputPortRange.IsFullPortRange, OutputPortRange.ofSlice, OutputPortRange.Size,
      OutputPortRange.GetStartIndex, OutputPortRange.ReferencedPort, Bool.and_eq_true,
      decide_eq_true_eq, if_true, true_and]
    exact eq_comm
  · simp [OutputPortRange.IsFullPortRange, OutputPortRange.ofSlice,
      OutputPortRange.GetStartIndex]

end model

namespace features

/-- Reading from a stream that still holds characters, or with characters already taken,
yields at least one string. -/
theorem getlineAll_ne_nil (delim : Char) :
    ∀ (cs cur : List Char), cs ≠ [] ∨ cur ≠ [] → getlineAll delim cs cur ≠ [] := by
  intro cs
  induction cs with
  | nil =>
    intro cur h
    rcases h with h | h
    · exact absurd rfl h
    · simp [getlineAll, h]
  | cons c rest ih =>
    intro cur _
    unfold getlineAll
    by_cases hc : c = delim
    · simp [hc]
    · simp only [hc, if_false]
      exact ih (c :: cur) (Or.inr (by simp))

/-- A line that is not empty has at least one field. -/
theorem splitFields_length_pos (lineBuffer : String) (h : lineBuffer ≠ "") :
    (splitFields lineBuffer).length ≠ 0 := by
  have hdata : lineBuffer.data ≠ [] := by
    intro hd
    apply h
    cases lineBuffer
    simp_all
  intro hlen
  exact getlineAll_ne_nil (Char.ofNat 9) lineBuffer.data [] (Or.inl hdata)
    (List.length_eq_zero.mp hlen)

/-- A skipped line changes neither the state nor `lastFeature`. -/
theorem deserializeLine_skipped {F : Type} (R : FeatureFactory F) (line : String)
    (st : FeatureStore F) (lastFeature : Option FeaturePtr) (h : R.isSkipped line = true) :
    FeatureSet.deserializeLine R line st lastFeature = .returned st lastFeature := by
  unfold FeatureSet.deserializeLine
  by_cases hc : firstChar (R.TrimString line) = '#'
  · simp [hc]
  · have hempty : R.TrimString line = "" := by
      simpa [FeatureFactory.isSkipped, hc] using h
    simp only [hc, if_false, hempty]
    rfl

/-- What the loop does with a line that is not skipped. -/
theorem deserializeLine_feature {F : Type} (R : FeatureFactory F) (line : String)
    (st : FeatureStore F) (lastFeature : Option FeaturePtr) (h : R.isSkipped line = false) :
    FeatureSet.deserializeLine R line st lastFeature
      = (if (R.fieldsOf line).length < 2 then
          .failed st (.runtimeError
            ("Malformed feature specification for line: " ++ R.TrimString line))
         else
          match R.createTypeMap (R.kindOf line) with
          | none =>
            .failed st (.runtimeError
              ("Error deserializing feature description: unknown feature type '"
                ++ R.kindOf line ++ "'"))
          | some createFunction =>
            match createFunction (R.fieldsOf line) st.fs._featureMap st.objects with
            | .error e => .failed st e
            | .ok feature => .returned (st.add (R.idOf line) feature) (some st.objects.length)) := by
  have hc : ¬ firstChar (R.TrimString line) = '#' := by
    intro hc
    simp [FeatureFactory.isSkipped, hc] at h
  have hne : R.TrimString line ≠ "" := by
    intro he
    simp [FeatureFactory.isSkipped, he] at h
  have hlen : ¬ (splitFields (R.TrimString line)).length = 0 :=
    splitFields_length_pos _ hne
  unfold FeatureSet.deserializeLine
  simp only [hc, if_false, hlen]
  rfl

/-- The loop over two consecutive stretches of lines. -/
theorem deserializeLoop_append {F : Type} (R : FeatureFactory F) :
    ∀ (a b : List String) (st : FeatureStore F) (lastFeature : Option FeaturePtr),
      FeatureSet.deserializeLoop R (a ++ b) st lastFeature
        = (match FeatureSet.deserializeLoop R a st lastFeature with
           | .failed st1 e => .failed st1 e
           | .returned st1 lastFeature1 => FeatureSet.deserializeLoop R b st1 lastFeature1) := by
  intro a
  induction a with
  | nil => intro b st lastFeature; rfl
  | cons line rest ih =>
    intro b st lastFeature
    simp only [List.cons_append, FeatureSet.deserializeLoop]
    cases FeatureSet.deserializeLine R line st lastFeature with
    | failed st1 e => rfl
    | returned st1 lastFeature1 => exact ih b st1 lastFeature1

/-- Skipped lines leave the loop's state and `lastFeature` as they are. -/
theorem deserializeLoop_skipped {F : Type} (R : FeatureFactory F) :
    ∀ (lines : List String) (st : FeatureStore F) (lastFeature : Option FeaturePtr),
      (∀ line ∈ lines, R.isSkipped line = true) →
      FeatureSet.deserializeLoop R lines st lastFeature = .returned st lastFeature := by
  intro lines
  induction lines with
  | nil => intro st lastFeature _; rfl
  | cons line rest ih =>
    intro st lastFeature h
    simp only [FeatureSet.deserializeLoop,
      deserializeLine_skipped R line st lastFeature (h line (List.mem_cons_self _ _))]
    exact ih st lastFeature (fun x hx => h x (List.mem_cons_of_mem _ hx))

/-- The loop does not see skipped lines. -/
theorem deserializeLoop_filter {F : Type} (R : FeatureFactory F) :
    ∀ (lines : List String) (st : FeatureStore F) (lastFeature : Option FeaturePtr),
      FeatureSet.deserializeLoop R lines st lastFeature
        = FeatureSet.deserializeLoop R (lines.filter (fun l => !R.isSkipped l)) st lastFeature := by
  intro lines
  induction lines with
  | nil => intro st lastFeature; rfl
  | cons line rest ih =>
    intro st lastFeature
    cases hs : R.isSkipped line with
    | true =>
      simp only [List.filter, hs, Bool.not_true, FeatureSet.deserializeLoop,
        deserializeLine_skipped R line st lastFeature hs]
      exact ih st lastFeature
    | false =>
      simp only [List.filter, hs, Bool.not_false, FeatureSet.deserializeLoop]
      cases FeatureSet.deserializeLine R line st lastFeature with
      | failed st1 e => rfl
      | returned st1 lastFeature1 => exact ih st1 lastFeature1

end features

namespace features

/-- C20. `Deserialize` passes over comment and blank lines.  A line is passed over exactly
when, after trimming, it is empty or its first character is `#`, whatever follows that
character.  The outcome of `Deserialize` (whether it returns, the error, the features, the
id index and both designations) is the outcome on the lines that are not passed over, so
inserting or removing a passed-over line anywhere changes nothing. -/
theorem Deserialize_ignores_skipped {F : Type} (R : FeatureFactory F)
    (lines before after : List String) (skipped : String) (st : FeatureStore F)
    (text : String) :
    (R.isSkipped skipped = true ↔
      R.TrimString skipped = "" ∨ firstChar (R.TrimString skipped) = '#') ∧
    FeatureSet.Deserialize R lines st
      = FeatureSet.Deserialize R (lines.filter (fun l => !R.isSkipped l)) st ∧
    (R.isSkipped skipped = true →
      FeatureSet.Deserialize R (before ++ skipped :: after) st
        = FeatureSet.Deserialize R (before ++ after) st) ∧
    FeatureSet.DeserializeText R text st
      = FeatureSet.Deserialize R ((streamLines text).filter (fun l => !R.isSkipped l)) st := by
  have hfilter : ∀ ls : List String, FeatureSet.Deserialize R ls st
      = FeatureSet.Deserialize R (ls.filter (fun l => !R.isSkipped l)) st := by
    intro ls
    unfold FeatureSet.Deserialize
    rw [deserializeLoop_filter R ls st none]
  refine ⟨?_, ?_, ?_, hfilter (streamLines text)⟩
  · simp only [FeatureFactory.isSkipped, Bool.or_eq_true, decide_eq_true_eq]
    exact Or.comm
  · unfold FeatureSet.Deserialize
    rw [deserializeLoop_filter R lines st none]
  · intro h
    unfold FeatureSet.Deserialize
    rw [deserializeLoop_filter R (before ++ skipped :: after) st none,
      deserializeLoop_filter R (before ++ after) st none]
    simp [List.filter_append, List.filter, h]

/-- Witness for C20: the description of the moving-average graph with and without its
comment line (which contains tabs) and with and without its white-space line. -/
theorem Deserialize_ignores_skipped_witness :
    streamLines "#\tid\tkind\nin\tInput\t3\n  \t \navg\tMovingAverage\tin\t2\n" = demoLines ∧
    FeatureSet.Deserialize demoFactory
        ([] ++ "#\tid\tkind" :: ["in\tInput\t3", "  \t ", "avg\tMovingAverage\tin\t2"]) emptyStore
      = FeatureSet.Deserialize demoFactory
          ([] ++ ["in\tInput\t3", "  \t ", "avg\tMovingAverage\tin\t2"]) emptyStore ∧
    FeatureSet.Deserialize demoFactory
        (["in\tInput\t3"] ++ "  \t " :: ["avg\tMovingAverage\tin\t2"]) emptyStore
      = FeatureSet.Deserialize demoFactory
          (["in\tInput\t3"] ++ ["avg\tMovingAverage\tin\t2"]) emptyStore :=
  ⟨by rfl,
    (Deserialize_ignores_skipped demoFactory demoLines []
      ["in\tInput\t3", "  \t ", "avg\tMovingAverage\tin\t2"] "#\tid\tkind" emptyStore "").2.2.1
      (by decide),
    (Deserialize_ignores_skipped demoFactory demoLines ["in\tInput\t3"]
      ["avg\tMovingAverage\tin\t2"] "  \t " emptyStore "").2.2.1 (by decide)⟩

end features

namespace features

/-- A malformed line or a line of an unregistered kind stops the loop, unless an earlier
line already did. -/
theorem deserializeLoop_fails_of_bad_line {F : Type} (R : FeatureFactory F) :
    ∀ (lines : List String) (st : FeatureStore F) (lastFeature : Option FeaturePtr),
      (∃ line ∈ lines, R.isSkipped line = false ∧
        ((R.fieldsOf line).length < 2 ∨ R.createTypeMap (R.kindOf line) = none)) →
      ∃ st1 e, FeatureSet.deserializeLoop R lines st lastFeature = .failed st1 e := by
  intro lines
  induction lines with
  | nil => rintro st lastFeature ⟨line, hmem, _⟩; cases hmem
  | cons line rest ih =>
    intro st lastFeature hbad
    simp only [FeatureSet.deserializeLoop]
    cases hstep : FeatureSet.deserializeLine R line st lastFeature with
    | failed st1 e => exact ⟨st1, e, rfl⟩
    | returned st1 lastFeature1 =>
      obtain ⟨bad, hmem, hfeature, hwhy⟩ := hbad
      rcases List.mem_cons.mp hmem with rfl | hrest
      · rw [deserializeLine_feature R bad st lastFeature hfeature] at hstep
        rcases hwhy with hlen | hkind
        · simp [hlen] at hstep
        · by_cases hlen : (R.fieldsOf bad).length < 2
          · simp [hlen] at hstep
          · simp [hlen, hkind] at hstep
      · exact ih st1 lastFeature1 ⟨bad, hrest, hfeature, hwhy⟩

/-- The loop runs to the end when every line that is not skipped, at the state in which it
is reached, has two fields or more and a registered kind whose construction function
returns. -/
theorem deserializeLoop_returns {F : Type} (R : FeatureFactory F) (lines : List String)
    (st : FeatureStore F)
    (hgood : ∀ (pre : List String) (line : String) (post : List String) (st1 : FeatureStore F)
      (last1 : Option FeaturePtr), lines = pre ++ line :: post → R.isSkipped line = false →
      FeatureSet.deserializeLoop R pre st none = .returned st1 last1 →
      ¬ (R.fieldsOf line).length < 2 ∧
      ∃ createFunction feature, R.createTypeMap (R.kindOf line) = some createFunction ∧
        createFunction (R.fieldsOf line) st1.fs._featureMap st1.objects = .ok feature) :
    ∀ (rest done : List String) (st0 : FeatureStore F) (last0 : Option FeaturePtr),
      lines = done ++ rest → FeatureSet.deserializeLoop R done st none = .returned st0 last0 →
      ∃ st1 last1, FeatureSet.deserializeLoop R rest st0 last0 = .returned st1 last1 := by
  intro rest
  induction rest with
  | nil => intro done st0 last0 _ _; exact ⟨st0, last0, rfl⟩
  | cons line rest ih =>
    intro done st0 last0 hsplit hdone
    have hnext : ∀ st2 last2, FeatureSet.deserializeLine R line st0 last0 = .returned st2 last2 →
        ∃ st1 last1, FeatureSet.deserializeLoop R (line :: rest) st0 last0
          = .returned st1 last1 := by
      intro st2 last2 hline
      have hdone2 : FeatureSet.deserializeLoop R (done ++ [line]) st none
          = .returned st2 last2 := by
        rw [deserializeLoop_append, hdone]
        simp only [FeatureSet.deserializeLoop, hline]
      obtain ⟨st1, last1, h1⟩ := ih (done ++ [line]) st2 last2 (by simp [hsplit]) hdone2
      exact ⟨st1, last1, by simp only [FeatureSet.deserializeLoop, hline, h1]⟩
    cases hs : R.isSkipped line with
    | true => exact hnext st0 last0 (deserializeLine_skipped R line st0 last0 hs)
    | false =>
      obtain ⟨hlen, createFunction, feature, hkind, hcreate⟩ :=
        hgood done line rest st0 last0 hsplit hs hdone
      refine hnext (st0.add (R.idOf line) feature) (some st0.objects.length) ?_
      rw [deserializeLine_feature R line st0 last0 hs]
      simp [hlen, hkind, hcreate]

/-- `Deserialize` returns exactly when its loop does. -/
theorem Deserialize_value_none_iff {F : Type} (R : FeatureFactory F) (lines : List String)
    (st : FeatureStore F) :
    (FeatureSet.Deserialize R lines st).value? = none ↔
      (FeatureSet.deserializeLoop R lines st none).value? = none := by
  unfold FeatureSet.Deserialize
  cases hloop : FeatureSet.deserializeLoop R lines st none with
  | failed st1 e => simp [Outcome.value?]
  | returned st1 lastFeature =>
    cases lastFeature <;> simp [Outcome.value?]

/-- C11. Description errors.  If some line that is neither blank nor a comment has fewer than
two tab-separated fields or names a kind that is not registered, `Deserialize` does not
return.  When the lines before such a line were read without failure, `Deserialize` stops
at that line with the state reached before it and the runtime error for a malformed
specification, respectively an unknown feature type.  Conversely, if every line that is
neither blank nor a comment, at the state in which the loop reaches it, has two fields or
more and a registered kind whose construction function returns, `Deserialize` returns. -/
theorem Deserialize_description_errors {F : Type} (R : FeatureFactory F) (lines : List String)
    (st : FeatureStore F) :
    ((∃ line ∈ lines, R.isSkipped line = false ∧
        ((R.fieldsOf line).length < 2 ∨ R.createTypeMap (R.kindOf line) = none)) →
      (FeatureSet.Deserialize R lines st).value? = none) ∧
    (∀ (pre : List String) (line : String) (post : List String) (st1 : FeatureStore F)
      (last1 : Option FeaturePtr), lines = pre ++ line :: post → R.isSkipped line = false →
      FeatureSet.deserializeLoop R pre st none = .returned st1 last1 →
      ((R.fieldsOf line).length < 2 →
        FeatureSet.Deserialize R lines st
          = .failed st1 (.runtimeError
              ("Malformed feature specification for line: " ++ R.TrimString line))) ∧
      (¬ (R.fieldsOf line).length < 2 → R.createTypeMap (R.kindOf line) = none →
        FeatureSet.Deserialize R lines st
          = .failed st1 (.runtimeError
              ("Error deserializing feature description: unknown feature type '"
                ++ R.kindOf line ++ "'")))) ∧
    ((∀ (pre : List String) (line : String) (post : List String) (st1 : FeatureStore F)
        (last1 : Option FeaturePtr), lines = pre ++ line :: post → R.isSkipped line = false →
        FeatureSet.deserializeLoop R pre st none = .returned st1 last1 →
        ¬ (R.fieldsOf line).length < 2 ∧
        ∃ createFunction feature, R.createTypeMap (R.kindOf line) = some createFunction ∧
          createFunction (R.fieldsOf line) st1.fs._featureMap st1.objects = .ok feature) →
      ∃ st1, FeatureSet.Deserialize R lines st = .returned st1 ()) := by
  refine ⟨?_, ?_, ?_⟩
  · intro hbad
    obtain ⟨st1, e, h⟩ := deserializeLoop_fails_of_bad_line R lines st none hbad
    rw [Deserialize_value_none_iff, h]
    rfl
  · intro pre line post st1 last1 hsplit hfeature hpre
    have hloop : ∀ e, FeatureSet.deserializeLine R line st1 last1 = .failed st1 e →
        FeatureSet.Deserialize R lines st = .failed st1 e := by
      intro e hline
      unfold FeatureSet.Deserialize
      rw [hsplit, deserializeLoop_append, hpre]
      simp only [FeatureSet.deserializeLoop, hline]
    constructor
    · intro hlen
      apply hloop
      rw [deserializeLine_feature R line st1 last1 hfeature]
      simp [hlen]
    · intro hlen hkind
      apply hloop
      rw [deserializeLine_feature R line st1 last1 hfeature]
      simp [hlen, hkind]
  · intro hgood
    obtain ⟨st1, last1, hloop⟩ :=
      deserializeLoop_returns R lines st hgood lines [] st none rfl rfl
    unfold FeatureSet.Deserialize
    rw [hloop]
    cases last1 with
    | none => exact ⟨_, rfl⟩
    | some o => exact ⟨_, rfl⟩

end features

namespace features

/-- Witness for C11: a description whose second line has one field only does not parse; a
second line of the unregistered kind `Window` stops the parse with the unknown-type error
after the first feature was created; the two-line description of the moving-average graph
parses. -/
theorem Deserialize_description_errors_witness :
    (FeatureSet.Deserialize demoFactory ["in\tInput\t3", "avg"] emptyStore).value? = none ∧
    FeatureSet.Deserialize demoFactory ["in\tInput\t3", "w\tWindow\tin"] emptyStore
      = .failed (emptyStore.add "in" { id := "in", kind := "Input", input := some 0 })
          (.runtimeError
            ("Error deserializing feature description: unknown feature type '"
              ++ demoFactory.kindOf "w\tWindow\tin" ++ "'")) ∧
    (∃ st1, FeatureSet.Deserialize demoFactory ["in\tInput\t3", "avg\tMovingAverage\tin\t2"]
      emptyStore = .returned st1 ()) :=
  ⟨(Deserialize_description_errors demoFactory ["in\tInput\t3", "avg"] emptyStore).1
      ⟨"avg", by decide, by decide, Or.inl (by decide)⟩,
    ((Deserialize_description_errors demoFactory ["in\tInput\t3", "w\tWindow\tin"]
      emptyStore).2.1 ["in\tInput\t3"] "w\tWindow\tin" []
      (emptyStore.add "in" { id := "in", kind := "Input", input := some 0 }) (some 0)
      (by rfl) (by decide) (by rfl)).2 (by decide) (by rfl),
    (Deserialize_description_errors demoFactory
      ["in\tInput\t3", "avg\tMovingAverage\tin\t2"] emptyStore).2.2 (by
        intro pre line post st1 last1 hsplit _ hpre
        rcases pre with _ | ⟨a, _ | ⟨b, pre⟩⟩
        · simp only [List.nil_append, List.cons.injEq] at hsplit
          obtain ⟨rfl, _⟩ := hsplit
          simp only [FeatureSet.deserializeLoop, Outcome.returned.injEq] at hpre
          obtain ⟨rfl, rfl⟩ := hpre
          exact ⟨by decide, demoCreateInput, _, by rfl, by rfl⟩
        · simp only [List.cons_append, List.nil_append, List.cons.injEq] at hsplit
          obtain ⟨rfl, rfl, _⟩ := hsplit
          have hrun : FeatureSet.deserializeLoop demoFactory ["in\tInput\t3"] emptyStore none
              = .returned (emptyStore.add "in" { id := "in", kind := "Input", input := some 0 })
                  (some 0) := by rfl
          rw [hrun] at hpre
          simp only [Outcome.returned.injEq] at hpre
          obtain ⟨rfl, rfl⟩ := hpre
          exact ⟨by decide, demoCreateAverage, _, by rfl, by rfl⟩
        · simp at hsplit)⟩

/-- C12. Designations after a parse.  If no line of the description is a feature line, that
is every line is blank or a comment, `Deserialize` returns with both designations null and
everything else as it was.  If the description has a feature line and `Deserialize`
returns, then the last feature line was reached without failure, its registered
construction function returned a feature from the line's fields, the id index and the
objects at that point, this feature is the last object created, the designated output is
its address, and the designated input is what `FindInputFeature` returns for it. -/
theorem Deserialize_designations {F : Type} (R : FeatureFactory F) (lines : List String)
    (st : FeatureStore F) :
    ((∀ line ∈ lines, R.isSkipped line = true) →
      FeatureSet.Deserialize R lines st
        = .returned { st with fs := { st.fs with _outputFeature := none, _inputFeature := none } }
            ()) ∧
    (∀ (pre : List String) (line : String) (post : List String) (st2 : FeatureStore F),
      lines = pre ++ line :: post → R.isSkipped line = false →
      (∀ l ∈ post, R.isSkipped l = true) →
      FeatureSet.Deserialize R lines st = .returned st2 () →
      ∃ (st1 : FeatureStore F) (last1 : Option FeaturePtr) (createFunction : CreateFunction F)
        (feature : F),
        FeatureSet.deserializeLoop R pre st none = .returned st1 last1 ∧
        R.createTypeMap (R.kindOf line) = some createFunction ∧
        createFunction (R.fieldsOf line) st1.fs._featureMap st1.objects = .ok feature ∧
        st2.objects = st1.objects ++ [feature] ∧
        st2.fs._outputFeature = some st1.objects.length ∧
        st2.fs._inputFeature = R.FindInputFeature st2.objects st1.objects.length) := by
  constructor
  · intro hall
    unfold FeatureSet.Deserialize
    rw [deserializeLoop_skipped R lines st none hall]
  · intro pre line post st2 hsplit hfeature hpost hret
    unfold FeatureSet.Deserialize at hret
    rw [hsplit, deserializeLoop_append] at hret
    cases hpre : FeatureSet.deserializeLoop R pre st none with
    | failed st1 e => simp [hpre] at hret
    | returned st1 last1 =>
      simp only [hpre, FeatureSet.deserializeLoop] at hret
      rw [deserializeLine_feature R line st1 last1 hfeature] at hret
      by_cases hlen : (R.fieldsOf line).length < 2
      · simp [hlen] at hret
      · cases hkind : R.createTypeMap (R.kindOf line) with
        | none => simp [hlen, hkind] at hret
        | some createFunction =>
          cases hcreate : createFunction (R.fieldsOf line) st1.fs._featureMap st1.objects with
          | error e => simp [hlen, hkind, hcreate] at hret
          | ok feature =>
            simp only [hlen, if_false, hkind, hcreate] at hret
            rw [deserializeLoop_skipped R post _ _ hpost] at hret
            simp only [Outcome.returned.injEq, and_true] at hret
            subst hret
            exact ⟨st1, last1, createFunction, feature, rfl, rfl, hcreate, rfl, rfl, rfl⟩

/-- Witness for C12: a description of comments and blank lines leaves a feature set that had
designations without any; the description of the moving-average graph makes the feature of
its last feature line, at address 1, the output and the feature at address 0 the input. -/
theorem Deserialize_designations_witness :
    FeatureSet.Deserialize demoFactory ["# nothing", "", "  "]
        { fs := demoWorld.fs, objects := [] }
      = .returned { fs := { demoWorld.fs with _outputFeature := none, _inputFeature := none }
                    objects := [] } () ∧
    (∃ (st1 : FeatureStore DemoFeature) (last1 : Option FeaturePtr)
      (createFunction : CreateFunction DemoFeature) (feature : DemoFeature),
      FeatureSet.deserializeLoop demoFactory ["#\tid\tkind", "in\tInput\t3", "  \t "]
        emptyStore none = .returned st1 last1 ∧
      demoFactory.createTypeMap (demoFactory.kindOf "avg\tMovingAverage\tin\t2")
        = some createFunction ∧
      createFunction (demoFactory.fieldsOf "avg\tMovingAverage\tin\t2") st1.fs._featureMap
        st1.objects = .ok feature ∧
      (emptyStore.add "in" { id := "in", kind := "Input", input := some 0 }).objects
          ++ [{ id := "avg", kind := "MovingAverage", input := some 0 }]
        = st1.objects ++ [feature] ∧
      some 1 = some st1.objects.length ∧
      some 0 = demoFactory.FindInputFeature
        ((emptyStore.add "in" { id := "in", kind := "Input", input := some 0 }).objects
          ++ [{ id := "avg", kind := "MovingAverage", input := some 0 }]) st1.objects.length) :=
  ⟨(Deserialize_designations demoFactory ["# nothing", "", "  "]
      { fs := demoWorld.fs, objects := [] }).1 (by decide),
    (Deserialize_designations demoFactory demoLines emptyStore).2
      ["#\tid\tkind", "in\tInput\t3", "  \t "] "avg\tMovingAverage\tin\t2" []
      { fs := { (emptyStore.add "in" { id := "in", kind := "Input", input := some 0 }).fs with
                _features := [0, 1]
                _featureMap := [("avg", 1), ("in", 0)]
                _outputFeature := some 1
                _inputFeature := some 0 }
        objects := (emptyStore.add "in" { id := "in", kind := "Input", input := some 0 }).objects
          ++ [{ id := "avg", kind := "MovingAverage", input := some 0 }] }
      (by rfl) (by decide) (by decide) (by rfl)⟩

end features

namespace features

/-- C26. `Reset` restarts warm-up gating.  In every state, after `Reset` the counter is 0 and
the designations, the owned features and the id index are as before.  With a designated
output feature whose warm-up time is at least 1, `HasOutput()` after `Reset` is false.
Without a designated output `Reset` leaves every feature object as it is.  A second `Reset`
leaves the feature set's own fields as the first left them. -/
theorem Reset_restarts_gating {V G : Type} (ops : FeatureOps V G) (w : World V G)
    (o : FeaturePtr) :
    (FeatureSet.Reset ops w).fs._numItemsProcessed = 0 ∧
    (FeatureSet.Reset ops w).fs._inputFeature = w.fs._inputFeature ∧
    (FeatureSet.Reset ops w).fs._outputFeature = w.fs._outputFeature ∧
    (FeatureSet.Reset ops w).fs._features = w.fs._features ∧
    (FeatureSet.Reset ops w).fs._featureMap = w.fs._featureMap ∧
    (w.fs._outputFeature = some o → 1 ≤ ops.WarmupTime o →
      FeatureSet.HasOutput ops (FeatureSet.Reset ops w) = .ok false) ∧
    (w.fs._outputFeature = none → (FeatureSet.Reset ops w).mem = w.mem) ∧
    (FeatureSet.Reset ops (FeatureSet.Reset ops w)).fs = (FeatureSet.Reset ops w).fs := by
  have hfs := (Reset_fields ops w).1
  refine ⟨by rw [hfs], by rw [hfs], by rw [hfs], by rw [hfs], by rw [hfs], ?_, ?_, ?_⟩
  · intro ho hW
    have hlt : ¬ ops.WarmupTime o ≤ 0 := by omega
    simp [FeatureSet.HasOutput, hfs, ho, hlt]
  · intro hnone
    simp [FeatureSet.Reset, hnone]
  · rw [(Reset_fields ops (FeatureSet.Reset ops w)).1, hfs]

/-- Witness for C26: the two-feature set with warm-up time 2 after three samples, reset; and
a reset of the feature objects with a newly constructed feature set. -/
theorem Reset_restarts_gating_witness :
    FeatureSet.HasOutput (demoOps 2)
        (FeatureSet.Reset (demoOps 2)
          (FeatureSet.ProcessAll (demoOps 2) [[1, 0, 0], [3, 0, 0], [5, 0, 0]] demoWorld).state)
      = .ok false ∧
    (FeatureSet.Reset (demoOps 2) ({ demoWorld with fs := FeatureSet.new } : World Int Unit)).mem
      = ({ demoWorld with fs := FeatureSet.new } : World Int Unit).mem :=
  ⟨(Reset_restarts_gating (demoOps 2)
      (FeatureSet.ProcessAll (demoOps 2) [[1, 0, 0], [3, 0, 0], [5, 0, 0]] demoWorld).state
      2).2.2.2.2.2.1 (by rfl) (by decide),
    (Reset_restarts_gating (demoOps 2) ({ demoWorld with fs := FeatureSet.new } : World Int Unit)
      0).2.2.2.2.2.2.1 (by rfl)⟩

/-- One pass of the loop leaves the designations and the counter as they are; a pass that
stops with a failure leaves the whole state as it is. -/
theorem deserializeLine_frame {F : Type} (R : FeatureFactory F) (line : String)
    (st : FeatureStore F) (lastFeature : Option FeaturePtr) :
    (FeatureSet.deserializeLine R line st lastFeature).state.fs._inputFeature
      = st.fs._inputFeature ∧
    (FeatureSet.deserializeLine R line st lastFeature).state.fs._outputFeature
      = st.fs._outputFeature ∧
    (FeatureSet.deserializeLine R line st lastFeature).state.fs._numItemsProcessed
      = st.fs._numItemsProcessed ∧
    (∀ st1 e, FeatureSet.deserializeLine R line st lastFeature = .failed st1 e → st1 = st) := by
  cases hs : R.isSkipped line with
  | true =>
    rw [deserializeLine_skipped R line st lastFeature hs]
    exact ⟨rfl, rfl, rfl, fun _ _ h => by cases h⟩
  | false =>
    rw [deserializeLine_feature R line st lastFeature hs]
    by_cases hlen : (R.fieldsOf line).length < 2
    · simp only [hlen, if_true]
      exact ⟨rfl, rfl, rfl, fun _ _ h => by cases h; rfl⟩
    · simp only [hlen, if_false]
      cases hkind : R.createTypeMap (R.kindOf line) with
      | none => exact ⟨rfl, rfl, rfl, fun _ _ h => by cases h; rfl⟩
      | some createFunction =>
        cases hcreate : createFunction (R.fieldsOf line) st.fs._featureMap st.objects with
        | error e =>
          simp only [hcreate]
          exact ⟨rfl, rfl, rfl, fun _ _ h => by cases h; rfl⟩
        | ok feature =>
          simp only [hcreate]
          exact ⟨rfl, rfl, rfl, fun _ _ h => by cases h⟩

/-- The loop leaves the designations and the counter as they are, however it ends. -/
theorem deserializeLoop_frame {F : Type} (R : FeatureFactory F) :
    ∀ (lines : List String) (st : FeatureStore F) (lastFeature : Option FeaturePtr),
      (FeatureSet.deserializeLoop R lines st lastFeature).state.fs._inputFeature
        = st.fs._inputFeature ∧
      (FeatureSet.deserializeLoop R lines st lastFeature).state.fs._outputFeature
        = st.fs._outputFeature ∧
      (FeatureSet.deserializeLoop R lines st lastFeature).state.fs._numItemsProcessed
        = st.fs._numItemsProcessed := by
  intro lines
  induction lines with
  | nil => intro st lastFeature; exact ⟨rfl, rfl, rfl⟩
  | cons line rest ih =>
    intro st lastFeature
    have hline := deserializeLine_frame R line st lastFeature
    simp only [FeatureSet.deserializeLoop]
    cases hstep : FeatureSet.deserializeLine R line st lastFeature with
    | failed st1 e =>
      rw [hstep] at hline
      exact ⟨hline.1, hline.2.1, hline.2.2.1⟩
    | returned st1 lastFeature1 =>
      rw [hstep] at hline
      obtain ⟨h1, h2, h3⟩ := ih st1 lastFeature1
      exact ⟨h1.trans hline.1, h2.trans hline.2.1, h3.trans hline.2.2.1⟩

end features

namespace features

/-- A pass of the loop on a line that is not skipped returns only by creating a feature with
the registered construction function of the line's kind. -/
theorem deserializeLine_returned {F : Type} (R : FeatureFactory F) (line : String)
    (st st1 : FeatureStore F) (lastFeature last1 : Option FeaturePtr)
    (hs : R.isSkipped line = false)
    (h : FeatureSet.deserializeLine R line st lastFeature = .returned st1 last1) :
    ¬ (R.fieldsOf line).length < 2 ∧
    ∃ (createFunction : CreateFunction F) (feature : F),
      R.createTypeMap (R.kindOf line) = some createFunction ∧
      createFunction (R.fieldsOf line) st.fs._featureMap st.objects = .ok feature ∧
      st1 = st.add (R.idOf line) feature ∧ last1 = some st.objects.length := by
  rw [deserializeLine_feature R line st lastFeature hs] at h
  by_cases hlen : (R.fieldsOf line).length < 2
  · simp [hlen] at h
  · refine ⟨hlen, ?_⟩
    cases hkind : R.createTypeMap (R.kindOf line) with
    | none => simp [hlen, hkind] at h
    | some createFunction =>
      cases hcreate : createFunction (R.fieldsOf line) st.fs._featureMap st.objects with
      | error e => simp [hlen, hkind, hcreate] at h
      | ok feature =>
        simp only [hlen, if_false, hkind, hcreate, Outcome.returned.injEq] at h
        exact ⟨createFunction, feature, rfl, hcreate, h.1.symm, h.2.symm⟩

/-- What the loop has done when it returns: one object per feature line, appended in line
order and owned under consecutive addresses; the id index resolves the id of a feature line
to the address of the last feature line carrying that id, and every other id as before. -/
theorem deserializeLoop_spec {F : Type} (R : FeatureFactory F) :
    ∀ (lines : List String) (st st1 : FeatureStore F) (lastFeature last1 : Option FeaturePtr),
      FeatureSet.deserializeLoop R lines st lastFeature = .returned st1 last1 →
      st1.objects.length = st.objects.length + (R.featureLines lines).length ∧
      (∃ created : List F, st1.objects = st.objects ++ created) ∧
      st1.fs._features
        = st.fs._features ++ List.range' st.objects.length (R.featureLines lines).length ∧
      (∀ id : String, (∀ l ∈ lines, R.isSkipped l = false → R.idOf l ≠ id) →
        AssocMap.find st1.fs._featureMap id = AssocMap.find st.fs._featureMap id) ∧
      (∀ (a : List String) (l : String) (b : List String), lines = a ++ l :: b →
        R.isSkipped l = false → (∀ x ∈ b, R.isSkipped x = false → R.idOf x ≠ R.idOf l) →
        AssocMap.find st1.fs._featureMap (R.idOf l)
          = some (st.objects.length + (R.featureLines a).length)) := by
  intro lines
  induction lines with
  | nil =>
    intro st st1 lastFeature last1 h
    simp only [FeatureSet.deserializeLoop, Outcome.returned.injEq] at h
    obtain ⟨rfl, _⟩ := h
    refine ⟨by simp [FeatureFactory.featureLines], ⟨[], by simp⟩,
      by simp [FeatureFactory.featureLines], fun _ _ => rfl, ?_⟩
    intro a l b hsplit
    simp at hsplit
  | cons line rest ih =>
    intro st st1 lastFeature last1 h
    simp only [FeatureSet.deserializeLoop] at h
    cases hstep : FeatureSet.deserializeLine R line st lastFeature with
    | failed st2 e => rw [hstep] at h; cases h
    | returned st2 last2 =>
      rw [hstep] at h
      obtain ⟨hlen, ⟨created, hcreated⟩, hfeatures, hother, hlast⟩ := ih st2 st1 last2 last1 h
      cases hs : R.isSkipped line with
      | true =>
        rw [deserializeLine_skipped R line st lastFeature hs] at hstep
        simp only [Outcome.returned.injEq] at hstep
        obtain ⟨rfl, _⟩ := hstep
        have hfl : R.featureLines (line :: rest) = R.featureLines rest := by
          simp [FeatureFactory.featureLines, List.filter, hs]
        refine ⟨by rw [hfl]; exact hlen, ⟨created, hcreated⟩, by rw [hfl]; exact hfeatures, ?_, ?_⟩
        · intro id hid
          exact hother id (fun l hl => hid l (List.mem_cons_of_mem _ hl))
        · intro a l b hsplit hl hb
          rcases a with _ | ⟨a0, a⟩
          · simp only [List.nil_append, List.cons.injEq] at hsplit
            rw [← hsplit.1, hs] at hl
            cases hl
          · simp only [List.cons_append, List.cons.injEq] at hsplit
            obtain ⟨h0, hrest⟩ := hsplit
            have hs0 : R.isSkipped a0 = true := by rw [← h0]; exact hs
            have hfa : R.featureLines (a0 :: a) = R.featureLines a := by
              simp [FeatureFactory.featureLines, List.filter, hs0]
            rw [hfa]
            exact hlast a l b hrest hl hb
      | false =>
        obtain ⟨_, createFunction, feature, _, _, hst2, _⟩ :=
          deserializeLine_returned R line st st2 lastFeature last2 hs hstep
        have hfl : R.featureLines (line :: rest) = line :: R.featureLines rest := by
          simp [FeatureFactory.featureLines, List.filter, hs]
        have hobj : st2.objects = st.objects ++ [feature] := by rw [hst2]; rfl
        have hobjlen : st2.objects.length = st.objects.length + 1 := by simp [hobj]
        have hmap : st2.fs._featureMap
            = AssocMap.assign (R.idOf line) st.objects.length st.fs._featureMap := by
          rw [hst2]; rfl
        have hfeat2 : st2.fs._features = st.fs._features ++ [st.objects.length] := by
          rw [hst2]; rfl
        refine ⟨?_, ⟨feature :: created, ?_⟩, ?_, ?_, ?_⟩
        · rw [hlen, hobjlen, hfl, List.length_cons]; omega
        · rw [hcreated, hobj]; simp
        · rw [hfeatures, hfeat2, hobjlen, hfl, List.length_cons, List.range'_succ]
          simp
        · intro id hid
          rw [hother id (fun l hl => hid l (List.mem_cons_of_mem _ hl)), hmap]
          exact AssocMap.find_assign_ne _ _ _ _
            (fun e => hid line (List.mem_cons_self _ _) hs e.symm)
        · intro a l b hsplit hl hb
          rcases a with _ | ⟨a0, a⟩
          · simp only [List.nil_append, List.cons.injEq] at hsplit
            obtain ⟨rfl, rfl⟩ := hsplit
            rw [hother (R.idOf line) hb, hmap, AssocMap.find_assign_self]
            simp [FeatureFactory.featureLines]
          · simp only [List.cons_append, List.cons.injEq] at hsplit
            obtain ⟨h0, hrest⟩ := hsplit
            have hs0 : R.isSkipped a0 = false := by rw [← h0]; exact hs
            have hfa : R.featureLines (a0 :: a) = a0 :: R.featureLines a := by
              simp [FeatureFactory.featureLines, List.filter, hs0]
            rw [hlast a l b hrest hl hb, hobjlen, hfa, List.length_cons]
            congr 1
            omega

end features

namespace features

/-- When `Deserialize` stops with a failure, its loop stopped with that failure in that
state. -/
theorem Deserialize_failed_iff {F : Type} (R : FeatureFactory F) (lines : List String)
    (st st1 : FeatureStore F) (e : Error) :
    FeatureSet.Deserialize R lines st = .failed st1 e ↔
      FeatureSet.deserializeLoop R lines st none = .failed st1 e := by
  unfold FeatureSet.Deserialize
  cases hloop : FeatureSet.deserializeLoop R lines st none with
  | failed st2 e2 => simp
  | returned st2 lastFeature => cases lastFeature <;> simp

/-- A line that is not skipped and is malformed or of an unregistered kind stops the pass of
the loop that reads it, in the state in which it was reached. -/
theorem deserializeLine_bad {F : Type} (R : FeatureFactory F) (line : String)
    (st : FeatureStore F) (lastFeature : Option FeaturePtr) (hs : R.isSkipped line = false)
    (hbad : (R.fieldsOf line).length < 2 ∨ R.createTypeMap (R.kindOf line) = none) :
    ∃ what, FeatureSet.deserializeLine R line st lastFeature
      = .failed st (.runtimeError what) := by
  rw [deserializeLine_feature R line st lastFeature hs]
  by_cases hlen : (R.fieldsOf line).length < 2
  · exact ⟨"Malformed feature specification for line: " ++ R.TrimString line,
      by simp only [hlen, if_true]⟩
  · rcases hbad with h | hkind
    · exact absurd h hlen
    · exact ⟨"Error deserializing feature description: unknown feature type '"
        ++ R.kindOf line ++ "'", by simp only [hlen, if_false, hkind]⟩

/-- C24. A failed parse designates nothing.  Whenever `Deserialize` stops with a failure, the
designated input and output feature are what they were before the call.  When it stops at a
malformed line or a line of an unregistered kind, the state is the one reached by the lines
before it: the features of the earlier feature lines are owned, under consecutive addresses,
and `GetFeature` finds them by id.  If no output was designated before the call, as in a
newly constructed feature set, then after the failed parse `ProcessInputData` returns `false`
and `Serialize` throws. -/
theorem Deserialize_failure_designates_nothing {F : Type} (R : FeatureFactory F)
    (lines : List String) (st : FeatureStore F) :
    (∀ (st1 : FeatureStore F) (e : Error), FeatureSet.Deserialize R lines st = .failed st1 e →
      st1.fs._inputFeature = st.fs._inputFeature ∧
      st1.fs._outputFeature = st.fs._outputFeature) ∧
    (∀ (pre : List String) (bad : String) (post : List String) (st1 : FeatureStore F)
      (last1 : Option FeaturePtr), lines = pre ++ bad :: post → R.isSkipped bad = false →
      ((R.fieldsOf bad).length < 2 ∨ R.createTypeMap (R.kindOf bad) = none) →
      FeatureSet.deserializeLoop R pre st none = .returned st1 last1 →
      (∃ what, FeatureSet.Deserialize R lines st = .failed st1 (.runtimeError what)) ∧
      st1.objects.length = st.objects.length + (R.featureLines pre).length ∧
      st1.fs._features
        = st.fs._features ++ List.range' st.objects.length (R.featureLines pre).length ∧
      (∀ (a : List String) (l : String) (b : List String), pre = a ++ l :: b →
        R.isSkipped l = false → (∀ x ∈ b, R.isSkipped x = false → R.idOf x ≠ R.idOf l) →
        FeatureSet.GetFeature st1.fs (R.idOf l)
          = some (st.objects.length + (R.featureLines a).length))) ∧
    (st.fs._outputFeature = none →
      ∀ (st1 : FeatureStore F) (e : Error), FeatureSet.Deserialize R lines st = .failed st1 e →
      (∀ (V G : Type) (ops : FeatureOps V G) (inst : List V) (mem : Memory V G),
        FeatureSet.ProcessInputData ops inst { fs := st1.fs, mem := mem }
          = .returned { fs := st1.fs, mem := mem } false) ∧
      (∀ (serialize : FeaturePtr → String) (visit : FeatureSet → List FeaturePtr)
        (outStream : String),
        FeatureSet.Serialize serialize visit st1.fs outStream
          = .failed outStream (.runtimeError "No output feature to serialize"))) := by
  have hkeep : ∀ (st1 : FeatureStore F) (e : Error),
      FeatureSet.Deserialize R lines st = .failed st1 e →
      st1.fs._inputFeature = st.fs._inputFeature ∧
      st1.fs._outputFeature = st.fs._outputFeature := by
    intro st1 e h
    have hloop := (Deserialize_failed_iff R lines st st1 e).mp h
    have hframe := deserializeLoop_frame R lines st none
    rw [hloop] at hframe
    exact ⟨hframe.1, hframe.2.1⟩
  refine ⟨hkeep, ?_, ?_⟩
  · intro pre bad post st1 last1 hsplit hs hbad hpre
    obtain ⟨what, hline⟩ := deserializeLine_bad R bad st1 last1 hs hbad
    obtain ⟨hlen, _, hfeatures, _, hlast⟩ := deserializeLoop_spec R pre st st1 none last1 hpre
    refine ⟨⟨what, ?_⟩, hlen, hfeatures, hlast⟩
    rw [Deserialize_failed_iff, hsplit, deserializeLoop_append, hpre]
    simp only [FeatureSet.deserializeLoop, hline]
  · intro hnone st1 e h
    have hout : st1.fs._outputFeature = none := by rw [(hkeep st1 e h).2, hnone]
    constructor
    · intro V G ops inst mem
      unfold FeatureSet.ProcessInputData
      cases hi : st1.fs._inputFeature <;> simp [hout, hi]
    · intro serialize visit outStream
      simp [FeatureSet.Serialize, hout]

/-- Witness for C24: the parse of the description whose second line has the unregistered
kind `Window`, by a newly constructed feature set, stops with the first feature owned at
address 0 and found under its id `in`, and with no designation; afterwards
`ProcessInputData` returns `false` and `Serialize` throws. -/
theorem Deserialize_failure_designates_nothing_witness :
    ((∃ what, FeatureSet.Deserialize demoFactory ["in\tInput\t3", "w\tWindow\tin"] emptyStore
        = .failed (emptyStore.add "in" { id := "in", kind := "Input", input := some 0 })
            (.runtimeError what)) ∧
      (emptyStore.add "in" { id := "in", kind := "Input", input := some 0 }).objects.length
        = emptyStore.objects.length + (demoFactory.featureLines ["in\tInput\t3"]).length ∧
      (emptyStore.add "in" { id := "in", kind := "Input", input := some 0 }).fs._features
        = emptyStore.fs._features
          ++ List.range' emptyStore.objects.length
              (demoFactory.featureLines ["in\tInput\t3"]).length ∧
      FeatureSet.GetFeature
          (emptyStore.add "in" { id := "in", kind := "Input", input := some 0 }).fs
          (demoFactory.idOf "in\tInput\t3")
        = some (emptyStore.objects.length + (demoFactory.featureLines []).length)) ∧
    FeatureSet.ProcessInputData (demoOps 2) [1, 0, 0]
        { fs := (emptyStore.add "in" { id := "in", kind := "Input", input := some 0 }).fs
          mem := demoWorld.mem }
      = .returned
          { fs := (emptyStore.add "in" { id := "in", kind := "Input", input := some 0 }).fs
            mem := demoWorld.mem } false ∧
    FeatureSet.Serialize (fun f => toString f) demoVisit
        (emptyStore.add "in" { id := "in", kind := "Input", input := some 0 }).fs ""
      = .failed "" (.runtimeError "No output feature to serialize") :=
  have h := Deserialize_failure_designates_nothing demoFactory
    ["in\tInput\t3", "w\tWindow\tin"] emptyStore
  have hparts := h.2.1 ["in\tInput\t3"] "w\tWindow\tin" []
    (emptyStore.add "in" { id := "in", kind := "Input", input := some 0 }) (some 0)
    (by rfl) (by decide) (Or.inr (by rfl)) (by rfl)
  have hfresh := h.2.2 (by rfl)
    (emptyStore.add "in" { id := "in", kind := "Input", input := some 0 })
    (.runtimeError ("Error deserializing feature description: unknown feature type '"
      ++ demoFactory.kindOf "w\tWindow\tin" ++ "'")) (by rfl)
  ⟨⟨hparts.1, hparts.2.1, hparts.2.2.1,
      hparts.2.2.2 [] "in\tInput\t3" [] (by rfl) (by decide) (by decide)⟩,
    hfresh.1 Int Unit (demoOps 2) [1, 0, 0] demoWorld.mem,
    hfresh.2 (fun f => toString f) demoVisit ""⟩

end features

namespace features

/-- When `Deserialize` returns, its loop returned, and the objects, the owned features and
the id index are those the loop left. -/
theorem Deserialize_returned {F : Type} (R : FeatureFactory F) (lines : List String)
    (st st2 : FeatureStore F) (h : FeatureSet.Deserialize R lines st = .returned st2 ()) :
    ∃ (stL : FeatureStore F) (lastL : Option FeaturePtr),
      FeatureSet.deserializeLoop R lines st none = .returned stL lastL ∧
      st2.objects = stL.objects ∧ st2.fs._features = stL.fs._features ∧
      st2.fs._featureMap = stL.fs._featureMap := by
  unfold FeatureSet.Deserialize at h
  cases hloop : FeatureSet.deserializeLoop R lines st none with
  | failed st1 e => simp [hloop] at h
  | returned stL lastL =>
    refine ⟨stL, lastL, rfl, ?_⟩
    cases lastL with
    | none =>
      simp only [hloop, Outcome.returned.injEq, and_true] at h
      subst h
      exact ⟨rfl, rfl, rfl⟩
    | some o =>
      simp only [hloop, Outcome.returned.injEq, and_true] at h
      subst h
      exact ⟨rfl, rfl, rfl⟩

/-- A loop that returns has, at each feature line, created a feature with the registered
construction function of the line's kind, from the line's fields, the id index and the
objects left by the lines before it; that feature is the object at the next address. -/
theorem deserializeLoop_at_line {F : Type} (R : FeatureFactory F)
    (pre : List String) (line : String) (post : List String) (st stL : FeatureStore F)
    (lastFeature lastL : Option FeaturePtr) (hs : R.isSkipped line = false)
    (h : FeatureSet.deserializeLoop R (pre ++ line :: post) st lastFeature
      = .returned stL lastL) :
    ∃ (st1 : FeatureStore F) (last1 : Option FeaturePtr) (createFunction : CreateFunction F)
      (feature : F),
      FeatureSet.deserializeLoop R pre st lastFeature = .returned st1 last1 ∧
      R.createTypeMap (R.kindOf line) = some createFunction ∧
      createFunction (R.fieldsOf line) st1.fs._featureMap st1.objects = .ok feature ∧
      stL.objects.get? st1.objects.length = some feature := by
  rw [deserializeLoop_append] at h
  cases hpre : FeatureSet.deserializeLoop R pre st lastFeature with
  | failed st1 e => simp [hpre] at h
  | returned st1 last1 =>
    simp only [hpre, FeatureSet.deserializeLoop] at h
    cases hstep : FeatureSet.deserializeLine R line st1 last1 with
    | failed st3 e => simp [hstep] at h
    | returned st3 last3 =>
      simp only [hstep] at h
      obtain ⟨_, createFunction, feature, hkind, hcreate, hst3, _⟩ :=
        deserializeLine_returned R line st1 st3 last1 last3 hs hstep
      obtain ⟨_, ⟨created, hcreated⟩, _⟩ := deserializeLoop_spec R post st3 stL last3 lastL h
      refine ⟨st1, last1, createFunction, feature, rfl, hkind, hcreate, ?_⟩
      have hobj : st3.objects = st1.objects ++ [feature] := by rw [hst3]; rfl
      rw [hcreated, hobj, List.append_assoc, List.get?_eq_getElem?,
        List.getElem?_append_right (le_refl _)]
      simp

/-- C21. One feature per feature line, in line order.  When `Deserialize` returns, the
objects are those there before followed by exactly one new object per line that is neither
blank nor a comment, owned under consecutive addresses.  The object of such a line is what
the construction function registered for the line's kind returned on the line's fields, on
the id index and on the objects as the lines before it left them; that index resolves the id
of an earlier feature line to the feature of the last earlier line carrying that id, and any
other id as it was resolved before the call, so that no later line is visible in it. -/
theorem Deserialize_builds_in_line_order {F : Type} (R : FeatureFactory F)
    (lines : List String) (st st2 : FeatureStore F)
    (hret : FeatureSet.Deserialize R lines st = .returned st2 ()) :
    (∃ created : List F, st2.objects = st.objects ++ created ∧
      created.length = (R.featureLines lines).length) ∧
    st2.fs._features
      = st.fs._features ++ List.range' st.objects.length (R.featureLines lines).length ∧
    (∀ (pre : List String) (line : String) (post : List String),
      lines = pre ++ line :: post → R.isSkipped line = false →
      ∃ (st1 : FeatureStore F) (last1 : Option FeaturePtr) (createFunction : CreateFunction F)
        (feature : F),
        FeatureSet.deserializeLoop R pre st none = .returned st1 last1 ∧
        R.createTypeMap (R.kindOf line) = some createFunction ∧
        createFunction (R.fieldsOf line) st1.fs._featureMap st1.objects = .ok feature ∧
        st2.objects.get? (st.objects.length + (R.featureLines pre).length) = some feature ∧
        st1.objects.length = st.objects.length + (R.featureLines pre).length ∧
        (∀ id : String, (∀ l ∈ pre, R.isSkipped l = false → R.idOf l ≠ id) →
          AssocMap.find st1.fs._featureMap id = AssocMap.find st.fs._featureMap id) ∧
        (∀ (a : List String) (l : String) (b : List String), pre = a ++ l :: b →
          R.isSkipped l = false → (∀ x ∈ b, R.isSkipped x = false → R.idOf x ≠ R.idOf l) →
          AssocMap.find st1.fs._featureMap (R.idOf l)
            = some (st.objects.length + (R.featureLines a).length))) := by
  obtain ⟨stL, lastL, hloop, hobjects, hfeatures, _⟩ := Deserialize_returned R lines st st2 hret
  obtain ⟨hlen, ⟨created, hcreated⟩, hfeat, _, _⟩ :=
    deserializeLoop_spec R lines st stL none lastL hloop
  refine ⟨⟨created, by rw [hobjects, hcreated], ?_⟩, by rw [hfeatures, hfeat], ?_⟩
  · have := hlen
    rw [hcreated, List.length_append] at this
    omega
  · intro pre line post hsplit hs
    rw [hsplit] at hloop
    obtain ⟨st1, last1, createFunction, feature, hpre, hkind, hcreate, hget⟩ :=
      deserializeLoop_at_line R pre line post st stL none lastL hs hloop
    obtain ⟨hlen1, _, _, hother, hlast⟩ := deserializeLoop_spec R pre st st1 none last1 hpre
    refine ⟨st1, last1, createFunction, feature, hpre, hkind, hcreate, ?_, hlen1, hother, hlast⟩
    rw [hobjects, ← hlen1]
    exact hget

end features

namespace features

/-- Witness for C21: in the parse of the moving-average description the feature of the last
line was built by the construction function of `MovingAverage` on the index left by the
three lines before it, in which `in` resolves to address 0 and `avg` is not defined. -/
theorem Deserialize_builds_in_line_order_witness :
    (∃ created : List DemoFeature, demoParsed.objects = emptyStore.objects ++ created ∧
      created.length = (demoFactory.featureLines demoLines).length) ∧
    (∃ (st1 : FeatureStore DemoFeature) (last1 : Option FeaturePtr)
      (createFunction : CreateFunction DemoFeature) (feature : DemoFeature),
      FeatureSet.deserializeLoop demoFactory ["#\tid\tkind", "in\tInput\t3", "  \t "]
        emptyStore none = .returned st1 last1 ∧
      demoFactory.createTypeMap (demoFactory.kindOf "avg\tMovingAverage\tin\t2")
        = some createFunction ∧
      createFunction (demoFactory.fieldsOf "avg\tMovingAverage\tin\t2") st1.fs._featureMap
        st1.objects = .ok feature ∧
      demoParsed.objects.get? (emptyStore.objects.length
        + (demoFactory.featureLines ["#\tid\tkind", "in\tInput\t3", "  \t "]).length)
        = some feature ∧
      st1.objects.length = emptyStore.objects.length
        + (demoFactory.featureLines ["#\tid\tkind", "in\tInput\t3", "  \t "]).length ∧
      (∀ id : String,
        (∀ l ∈ ["#\tid\tkind", "in\tInput\t3", "  \t "], demoFactory.isSkipped l = false →
          demoFactory.idOf l ≠ id) →
        AssocMap.find st1.fs._featureMap id = AssocMap.find emptyStore.fs._featureMap id) ∧
      (∀ (a : List String) (l : String) (b : List String),
        ["#\tid\tkind", "in\tInput\t3", "  \t "] = a ++ l :: b →
        demoFactory.isSkipped l = false →
        (∀ x ∈ b, demoFactory.isSkipped x = false → demoFactory.idOf x ≠ demoFactory.idOf l) →
        AssocMap.find st1.fs._featureMap (demoFactory.idOf l)
          = some (emptyStore.objects.length + (demoFactory.featureLines a).length))) :=
  ⟨(Deserialize_builds_in_line_order demoFactory demoLines emptyStore demoParsed (by rfl)).1,
    (Deserialize_builds_in_line_order demoFactory demoLines emptyStore demoParsed (by rfl)).2.2
      ["#\tid\tkind", "in\tInput\t3", "  \t "] "avg\tMovingAverage\tin\t2" [] (by rfl)
      (by decide)⟩

/-- C22. `GetFeature` after a parse.  Let `Deserialize` return on a feature set whose id index
was empty, as that of a newly constructed feature set.  `GetFeature(id)` returns null for
every id that is the trimmed first field of no feature line.  For the id of a feature line
it returns the address of the feature of the last feature line carrying that id, and that
feature was built from that line.  When two feature lines carry the same id the parse is not
stopped: the pass of the loop on a line whose construction function returns appends the
feature whatever the index holds; both features are owned, under different addresses, and
the index resolves the id to the later one. -/
theorem GetFeature_after_Deserialize {F : Type} (R : FeatureFactory F) (lines : List String)
    (st st2 : FeatureStore F) (hfresh : st.fs._featureMap = [])
    (hret : FeatureSet.Deserialize R lines st = .returned st2 ()) :
    (∀ id : String, (∀ l ∈ lines, R.isSkipped l = false → R.idOf l ≠ id) →
      FeatureSet.GetFeature st2.fs id = none) ∧
    (∀ (a : List String) (l : String) (b : List String), lines = a ++ l :: b →
      R.isSkipped l = false → (∀ x ∈ b, R.isSkipped x = false → R.idOf x ≠ R.idOf l) →
      FeatureSet.GetFeature st2.fs (R.idOf l)
        = some (st.objects.length + (R.featureLines a).length) ∧
      ∃ (st1 : FeatureStore F) (last1 : Option FeaturePtr) (createFunction : CreateFunction F)
        (feature : F),
        FeatureSet.deserializeLoop R a st none = .returned st1 last1 ∧
        R.createTypeMap (R.kindOf l) = some createFunction ∧
        createFunction (R.fieldsOf l) st1.fs._featureMap st1.objects = .ok feature ∧
        st2.objects.get? (st.objects.length + (R.featureLines a).length) = some feature) ∧
    (∀ (a : List String) (l1 : String) (b : List String) (l2 : String) (c : List String),
      lines = a ++ l1 :: (b ++ l2 :: c) → R.isSkipped l1 = false → R.isSkipped l2 = false →
      R.idOf l1 = R.idOf l2 → (∀ x ∈ c, R.isSkipped x = false → R.idOf x ≠ R.idOf l2) →
      FeatureSet.GetFeature st2.fs (R.idOf l1)
        = some (st.objects.length + (R.featureLines (a ++ l1 :: b)).length) ∧
      st.objects.length + (R.featureLines a).length ∈ st2.fs._features ∧
      st.objects.length + (R.featureLines (a ++ l1 :: b)).length ∈ st2.fs._features ∧
      st.objects.length + (R.featureLines a).length
        < st.objects.length + (R.featureLines (a ++ l1 :: b)).length) ∧
    (∀ (st0 : FeatureStore F) (last0 : Option FeaturePtr) (line : String)
      (createFunction : CreateFunction F) (feature : F), R.isSkipped line = false →
      ¬ (R.fieldsOf line).length < 2 → R.createTypeMap (R.kindOf line) = some createFunction →
      createFunction (R.fieldsOf line) st0.fs._featureMap st0.objects = .ok feature →
      FeatureSet.deserializeLine R line st0 last0
        = .returned (st0.add (R.idOf line) feature) (some st0.objects.length)) := by
  obtain ⟨stL, lastL, hloop, hobjects, hfeatures, hmap⟩ :=
    Deserialize_returned R lines st st2 hret
  obtain ⟨_, _, hfeat, hother, hlast⟩ := deserializeLoop_spec R lines st stL none lastL hloop
  have hsplitlen : ∀ (a : List String) (l : String) (b : List String),
      R.isSkipped l = false →
      (R.featureLines (a ++ l :: b)).length
        = (R.featureLines a).length + 1 + (R.featureLines b).length := by
    intro a l b hl
    simp [FeatureFactory.featureLines, List.filter_append, List.filter, hl]
    omega
  refine ⟨?_, ?_, ?_, ?_⟩
  · intro id hid
    unfold FeatureSet.GetFeature
    rw [hmap, hother id hid, hfresh]
    rfl
  · intro a l b hsplit hl hb
    refine ⟨?_, ?_⟩
    · unfold FeatureSet.GetFeature
      rw [hmap]
      exact hlast a l b hsplit hl hb
    · have hloop2 := hloop
      rw [hsplit] at hloop2
      obtain ⟨st1, last1, createFunction, feature, hpre, hkind, hcreate, hget⟩ :=
        deserializeLoop_at_line R a l b st stL none lastL hl hloop2
      obtain ⟨hlen1, _⟩ := deserializeLoop_spec R a st st1 none last1 hpre
      refine ⟨st1, last1, createFunction, feature, hpre, hkind, hcreate, ?_⟩
      rw [hobjects, ← hlen1]
      exact hget
  · intro a l1 b l2 c hsplit hl1 hl2 hid hc
    have hsplit2 : lines = (a ++ l1 :: b) ++ l2 :: c := by simp [hsplit]
    have hlenAll := hsplitlen (a ++ l1 :: b) l2 c hl2
    have hlenPre := hsplitlen a l1 b hl1
    rw [← hsplit2] at hlenAll
    refine ⟨?_, ?_, ?_, by omega⟩
    · unfold FeatureSet.GetFeature
      rw [hmap, hid]
      exact hlast (a ++ l1 :: b) l2 c hsplit2 hl2 hc
    · rw [hfeatures, hfeat]
      apply List.mem_append_right
      rw [List.mem_range']
      exact ⟨(R.featureLines a).length, by omega, by omega⟩
    · rw [hfeatures, hfeat]
      apply List.mem_append_right
      rw [List.mem_range']
      exact ⟨(R.featureLines (a ++ l1 :: b)).length, by omega, by omega⟩
  · intro st0 last0 line createFunction feature hs hlen hkind hcreate
    rw [deserializeLine_feature R line st0 last0 hs]
    simp only [hlen, if_false, hkind, hcreate]

/-- Witness for C22: after the parse of the moving-average description `GetFeature` finds no
feature `out`; after the parse of the description that defines `a` twice both features are
owned, at addresses 0 and 1, and `GetFeature` resolves `a` to the second. -/
theorem GetFeature_after_Deserialize_witness :
    FeatureSet.GetFeature demoParsed.fs "out" = none ∧
    (FeatureSet.GetFeature duplicateParsed.fs (demoFactory.idOf "a\tInput\t3")
        = some (emptyStore.objects.length
            + (demoFactory.featureLines ([] ++ "a\tInput\t3" :: [])).length) ∧
      emptyStore.objects.length + (demoFactory.featureLines []).length
        ∈ duplicateParsed.fs._features ∧
      emptyStore.objects.length
          + (demoFactory.featureLines ([] ++ "a\tInput\t3" :: [])).length
        ∈ duplicateParsed.fs._features ∧
      emptyStore.objects.length + (demoFactory.featureLines []).length
        < emptyStore.objects.length
          + (demoFactory.featureLines ([] ++ "a\tInput\t3" :: [])).length) :=
  ⟨(GetFeature_after_Deserialize demoFactory demoLines emptyStore demoParsed (by rfl)
      (by rfl)).1 "out" (by decide),
    (GetFeature_after_Deserialize demoFactory duplicateLines emptyStore duplicateParsed (by rfl)
      (by rfl)).2.2.1 [] "a\tInput\t3" [] "a\tInput\t5" [] (by rfl) (by decide) (by decide)
      (by decide) (by decide)⟩

end features

namespace AssocMap

/-- The keys after `m.emplace(k, v)` are `k` and the keys before. -/
theorem isSome_find_emplace {κ ν : Type} [DecidableEq κ] (k q : κ) (v : ν) (m : List (κ × ν)) :
    (find (emplace k v m) q).isSome = true ↔ q = k ∨ (find m q).isSome = true := by
  by_cases h : q = k
  · subst h
    simp [find_emplace_self]
  · simp [find_emplace_ne k q v m h, h]

/-- An entry that is there is not changed by `m.emplace(k, v)`. -/
theorem find_emplace_of_find {κ ν : Type} [DecidableEq κ] (k q : κ) (v c : ν)
    (m : List (κ × ν)) (h : find m q = some c) : find (emplace k v m) q = some c := by
  by_cases hq : q = k
  · subst hq
    simp [find_emplace_self, h]
  · rw [find_emplace_ne k q v m hq, h]

end AssocMap

namespace features

/-- In a dependency-ordered traversal, the features a feature reads were visited earlier. -/
theorem upstream_visited_earlier (upstream : FeaturePtr → List FeaturePtr) :
    ∀ (pre visited : List FeaturePtr) (f : FeaturePtr) (post : List FeaturePtr),
      visitsFeaturesInOrder upstream visited (pre ++ f :: post) = true →
      ∀ u ∈ upstream f, u ∈ visited ++ pre := by
  intro pre
  induction pre with
  | nil =>
    intro visited f post h u hu
    simp only [List.nil_append, visitsFeaturesInOrder, Bool.and_eq_true, List.all_eq_true,
      decide_eq_true_eq] at h
    simpa using h.1 u hu
  | cons x pre ih =>
    intro visited f post h u hu
    simp only [List.cons_append, visitsFeaturesInOrder, Bool.and_eq_true] at h
    have := ih (visited ++ [x]) f post h.2 u hu
    simpa using this

/-- A call of the lambda that returns has emplaced the coordinates it computed. -/
theorem modelAdder_table {M K : Type} (L : Lowering M K) (fs : FeatureSet) (ic : List K)
    (s s1 : AdderState M K) (f : FeaturePtr)
    (h : FeatureSet.modelAdder L fs ic s f = .ok s1) :
    ∃ (c : List K) (m : M), FeatureSet.coordinatesFor L fs ic s f = .ok (c, m) ∧
      s1.featureOutputs = AssocMap.emplace f c s.featureOutputs := by
  unfold FeatureSet.modelAdder at h
  cases hc : FeatureSet.coordinatesFor L fs ic s f with
  | error e => simp [hc] at h
  | ok r =>
    obtain ⟨c, m⟩ := r
    simp only [hc, Except.ok.injEq] at h
    subst h
    exact ⟨c, m, rfl, rfl⟩

/-- Through a traversal the table keeps the entries it has, and its keys afterwards are the
keys before and the features visited. -/
theorem visitAdder_table {M K : Type} (L : Lowering M K) (fs : FeatureSet) (ic : List K) :
    ∀ (features : List FeaturePtr) (s s1 : AdderState M K),
      FeatureSet.visitAdder L fs ic features s = .ok s1 →
      (∀ (g : FeaturePtr) (c : List K), AssocMap.find s.featureOutputs g = some c →
        AssocMap.find s1.featureOutputs g = some c) ∧
      (∀ g : FeaturePtr, (AssocMap.find s1.featureOutputs g).isSome = true ↔
        ((AssocMap.find s.featureOutputs g).isSome = true ∨ g ∈ features)) := by
  intro features
  induction features with
  | nil =>
    intro s s1 h
    simp only [FeatureSet.visitAdder, Except.ok.injEq] at h
    subst h
    exact ⟨fun _ _ h => h, fun g => by simp⟩
  | cons f rest ih =>
    intro s s1 h
    simp only [FeatureSet.visitAdder] at h
    cases hstep : FeatureSet.modelAdder L fs ic s f with
    | error e => rw [hstep] at h; cases h
    | ok s2 =>
      rw [hstep] at h
      obtain ⟨c, m, _, htable⟩ := modelAdder_table L fs ic s s2 f hstep
      obtain ⟨hkeep, hkeys⟩ := ih s2 s1 h
      constructor
      · intro g cg hg
        apply hkeep
        rw [htable]
        exact AssocMap.find_emplace_of_find f g c cg s.featureOutputs hg
      · intro g
        rw [hkeys g, htable, AssocMap.isSome_find_emplace, List.mem_cons]
        tauto

end features

namespace features

/-- C23. The table handed to a feature.  Let the traversal of `AddToModel` reach the feature
`f` after the features `pre`.  The traversal gets that far when the lowering of the features
of `pre` other than the designated input returns.  If `f` is not the designated input, its
coordinates are those its own `AddToModel` returns on the model and the table of that
moment.  That table has an entry for exactly the features of `pre`; when the traversal
visits no feature twice, each of them is mapped to the coordinates the lambda computed for
it at its visit, the designated input feature to `inputCoordinates`; and when the traversal
is in dependency order the table has an entry for every feature `f` reads. -/
theorem AddToModel_table_at_visit {M K : Type} (L : Lowering M K)
    (visit : FeatureSet → List FeaturePtr) (fs : FeatureSet) (i : FeaturePtr) (model : M)
    (inputCoordinates : List K) (upstream : FeaturePtr → List FeaturePtr)
    (pre : List FeaturePtr) (f : FeaturePtr) (post : List FeaturePtr)
    (hi : fs._inputFeature = some i) (hsplit : visit fs = pre ++ f :: post) :
    ((∀ g ∈ pre, some g ≠ fs._inputFeature →
        ∀ (m : M) (outs : FeatureOutputs K), ∃ r, Feature.AddToModel L g m outs = .ok r) →
      ∃ s1, FeatureSet.visitAdder L fs inputCoordinates pre
        { model := model, featureOutputs := [], outputCoordinates := [] } = .ok s1) ∧
    (∀ s1 : AdderState M K,
      FeatureSet.visitAdder L fs inputCoordinates pre
        { model := model, featureOutputs := [], outputCoordinates := [] } = .ok s1 →
      (f ≠ i → FeatureSet.coordinatesFor L fs inputCoordinates s1 f
        = Feature.AddToModel L f s1.model s1.featureOutputs) ∧
      (∀ g : FeaturePtr, (AssocMap.find s1.featureOutputs g).isSome = true ↔ g ∈ pre) ∧
      ((visit fs).Nodup → ∀ (a : List FeaturePtr) (g : FeaturePtr) (b : List FeaturePtr),
        pre = a ++ g :: b →
        ∃ (sg : AdderState M K) (c : List K) (m : M),
          FeatureSet.visitAdder L fs inputCoordinates a
            { model := model, featureOutputs := [], outputCoordinates := [] } = .ok sg ∧
          FeatureSet.coordinatesFor L fs inputCoordinates sg g = .ok (c, m) ∧
          AssocMap.find s1.featureOutputs g = some c) ∧
      (i ∈ pre → AssocMap.find s1.featureOutputs i = some inputCoordinates) ∧
      (visitsFeaturesInOrder upstream [] (visit fs) = true →
        ∀ u ∈ upstream f, (AssocMap.find s1.featureOutputs u).isSome = true)) := by
  refine ⟨fun htotal => visitAdder_total L fs inputCoordinates pre htotal _, ?_⟩
  intro s1 hrun
  have hkeys : ∀ g : FeaturePtr, (AssocMap.find s1.featureOutputs g).isSome = true ↔ g ∈ pre := by
    intro g
    rw [(visitAdder_table L fs inputCoordinates pre _ s1 hrun).2 g]
    simp [AssocMap.find]
  refine ⟨?_, hkeys, ?_, ?_, ?_⟩
  · intro hfi
    have hne : ¬ some f = fs._inputFeature := by
      rw [hi]
      exact fun e => hfi (Option.some.inj e)
    simp only [FeatureSet.coordinatesFor, hne, if_false]
  · intro hnodup a g b hpre
    rw [hpre, visitAdder_append] at hrun
    cases ha : FeatureSet.visitAdder L fs inputCoordinates a
        { model := model, featureOutputs := [], outputCoordinates := [] } with
    | error e => simp [ha] at hrun
    | ok sg =>
      simp only [ha, FeatureSet.visitAdder] at hrun
      cases hstep : FeatureSet.modelAdder L fs inputCoordinates sg g with
      | error e => simp [hstep] at hrun
      | ok sg2 =>
        simp only [hstep] at hrun
        obtain ⟨c, m, hc, htable⟩ := modelAdder_table L fs inputCoordinates sg sg2 g hstep
        refine ⟨sg, c, m, rfl, hc, ?_⟩
        have hga : g ∉ a := by
          rw [hsplit, hpre] at hnodup
          have h1 : (a ++ g :: b).Nodup := (List.nodup_append.mp hnodup).1
          have h2 := (List.nodup_append.mp h1).2.2
          intro hmem
          exact h2 hmem (List.mem_cons_self _ _)
        have hnone : AssocMap.find sg.featureOutputs g = none := by
          have hk := (visitAdder_table L fs inputCoordinates a _ sg ha).2 g
          cases hfind : AssocMap.find sg.featureOutputs g with
          | none => rfl
          | some c0 =>
            rw [hfind] at hk
            have := hk.mp rfl
            simp [AssocMap.find, hga] at this
        apply (visitAdder_table L fs inputCoordinates b sg2 s1 hrun).1
        rw [htable, AssocMap.find_emplace_self, hnone]
        rfl
  · intro himem
    exact (visitAdder_input_entry L fs inputCoordinates i hi pre _ s1 hrun
      (by intro c hc; cases hc)).2 (Or.inr himem)
  · intro horder u hu
    rw [hkeys u]
    rw [hsplit] at horder
    simpa using upstream_visited_earlier upstream pre [] f post horder u hu

/-- Witness for C23: in the two-feature graph the table handed to the output feature, at
address 2, has an entry for the input feature, at address 1, and for nothing else, and maps
it to the input coordinates. -/
theorem AddToModel_table_at_visit_witness :
    (∃ s1, FeatureSet.visitAdder demoLowering demoWorld.fs [(0, 0), (0, 1), (0, 2)] [1]
      { model := [7], featureOutputs := [], outputCoordinates := [] } = .ok s1) ∧
    FeatureSet.coordinatesFor demoLowering demoWorld.fs [(0, 0), (0, 1), (0, 2)]
        { model := [7], featureOutputs := [(1, [(0, 0), (0, 1), (0, 2)])]
          outputCoordinates := [] } 2
      = Feature.AddToModel demoLowering 2 [7] [(1, [(0, 0), (0, 1), (0, 2)])] ∧
    (∀ g : FeaturePtr,
      (AssocMap.find [(1, [(0, 0), (0, 1), (0, 2)])] g).isSome = true ↔ g ∈ [1]) ∧
    AssocMap.find [(1, [(0, 0), (0, 1), (0, 2)])] 1 = some [(0, 0), (0, 1), (0, 2)] ∧
    (∀ u ∈ demoUpstream 2,
      (AssocMap.find [(1, [(0, 0), (0, 1), (0, 2)])] u).isSome = true) ∧
    (∃ (sg : AdderState (List FeaturePtr) (Nat × Nat)) (c : List (Nat × Nat))
      (m : List FeaturePtr),
      FeatureSet.visitAdder demoLowering demoWorld.fs [(0, 0), (0, 1), (0, 2)] []
        { model := [7], featureOutputs := [], outputCoordinates := [] } = .ok sg ∧
      FeatureSet.coordinatesFor demoLowering demoWorld.fs [(0, 0), (0, 1), (0, 2)] sg 1
        = .ok (c, m) ∧
      AssocMap.find [(1, [(0, 0), (0, 1), (0, 2)])] 1 = some c) :=
  have h := AddToModel_table_at_visit demoLowering demoVisit demoWorld.fs 1 [7]
    [(0, 0), (0, 1), (0, 2)] demoUpstream [1] 2 [] (by rfl) (by rfl)
  have hs := h.2 { model := [7], featureOutputs := [(1, [(0, 0), (0, 1), (0, 2)])]
                   outputCoordinates := [] } (by rfl)
  ⟨h.1 (fun g hg hne m outs => absurd (by
      simp only [List.mem_singleton] at hg
      rw [hg]
      rfl) hne),
    hs.1 (by decide), hs.2.1, hs.2.2.2.1 (by decide), hs.2.2.2.2 (by decide),
    hs.2.2.1 (by decide) [] 1 [] (by rfl)⟩

end features

namespace features

/-- The character of a decimal digit has the digit as its value. -/
theorem digitChar_value (d : Nat) (h : d < 10) : (Nat.digitChar d).toNat - 48 = d := by
  interval_cases d <;> rfl

/-- Reading the digits that `Nat.toDigitsCore` writes in front of `ds`, and then `ds`, is
reading `ds` starting from the number written. -/
theorem foldl_toDigitsCore :
    ∀ (fuel n : Nat) (ds : List Char), n < fuel →
      (Nat.toDigitsCore 10 fuel n ds).foldl (fun acc c => 10 * acc + (c.toNat - 48)) 0
        = ds.foldl (fun acc c => 10 * acc + (c.toNat - 48)) n := by
  intro fuel
  induction fuel with
  | zero => intro n ds h; omega
  | succ fuel ih =>
    intro n ds h
    simp only [Nat.toDigitsCore]
    have hd := digitChar_value (n % 10) (Nat.mod_lt n (by decide))
    by_cases h0 : n / 10 = 0
    · simp only [h0, if_true, List.foldl_cons, hd]
      congr 1
      omega
    · simp only [h0, if_false]
      rw [ih (n / 10) _ (by omega)]
      simp only [List.foldl_cons, hd]
      congr 1
      omega

/-- Reading the decimal numeral of a number gives the number. -/
theorem ParseInt_toString (n : Nat) : ParseInt (toString n) = n := by
  have h := foldl_toDigitsCore (n + 1) n [] (by omega)
  simpa [ParseInt, toString, Nat.repr, Nat.toDigits, List.asString] using h

end features

namespace features

/-- C25. Description round trip of the input feature.  `AddToDescription` of an input feature
of dimensionality `n` appends one field, the decimal numeral of `n`, and nothing else.  For
`n` below `2 ^ 64`, `InputFeature::Deserialize` on the fields `[id, "Input", numeral of n]`,
and so on the description `AddToDescription` completes from `[id, "Input"]`, returns an
input feature whose declared dimensionality is `n`.  `Deserialize` returns on three fields
and fails its assertion on any other number of fields. -/
theorem InputFeature_description_round_trip {V : Type} (initiallyDirty : Bool)
    (f : InputFeature V) (n : Nat) (id : String) (description params : List String)
    (previousFeatures : FeatureMap) (hn : n < uint64Modulus) (hf : f._outputDimension = n) :
    f.AddToDescription description = description ++ [toString n] ∧
    (InputFeature.Deserialize initiallyDirty [id, "Input", toString n] previousFeatures
        : Except Error (InputFeature V))
      = .ok (InputFeature.Create initiallyDirty n) ∧
    (InputFeature.Create initiallyDirty n : InputFeature V)._outputDimension = n ∧
    (InputFeature.Deserialize initiallyDirty (f.AddToDescription [id, "Input"]) previousFeatures
        : Except Error (InputFeature V))
      = .ok (InputFeature.Create initiallyDirty n) ∧
    (params.length = 3 →
      ∃ g : InputFeature V,
        InputFeature.Deserialize initiallyDirty params previousFeatures = .ok g) ∧
    (params.length ≠ 3 →
      (InputFeature.Deserialize initiallyDirty params previousFeatures
        : Except Error (InputFeature V)) = .error .assertionFailure) := by
  have hround : (InputFeature.Deserialize initiallyDirty [id, "Input", toString n]
      previousFeatures : Except Error (InputFeature V))
      = .ok (InputFeature.Create initiallyDirty n) := by
    have hparse : ParseInt (([id, "Input", toString n] : List String).getD 2 "") = n :=
      ParseInt_toString n
    simp only [InputFeature.Deserialize, List.length_cons, List.length_nil, if_true, hparse,
      Nat.mod_eq_of_lt hn]
  refine ⟨by simp [InputFeature.AddToDescription, hf], hround, rfl, ?_, ?_, ?_⟩
  · have hdesc : f.AddToDescription [id, "Input"] = [id, "Input", toString n] := by
      simp [InputFeature.AddToDescription, hf]
    rw [hdesc]
    exact hround
  · intro h3
    exact ⟨InputFeature.Create initiallyDirty (ParseInt (params.getD 2 "") % uint64Modulus),
      by simp only [InputFeature.Deserialize, h3, if_true]⟩
  · intro h3
    simp only [InputFeature.Deserialize, h3, if_false]

/-- Witness for C25: the input feature of dimensionality 3 is described by the field `3`,
and the fields `in`, `Input`, `3` give back an input feature of dimensionality 3; two
fields fail the assertion. -/
theorem InputFeature_description_round_trip_witness :
    (demoWorld.mem.input.AddToDescription ["in", "Input"] = ["in", "Input"] ++ [toString 3] ∧
      (InputFeature.Deserialize true ["in", "Input", toString 3] []
          : Except Error (InputFeature Int))
        = .ok (InputFeature.Create true 3)) ∧
    (∃ g : InputFeature Int, InputFeature.Deserialize true ["in", "Input", "3"] [] = .ok g) ∧
    (InputFeature.Deserialize true ["in", "Input"] [] : Except Error (InputFeature Int))
      = .error .assertionFailure :=
  ⟨⟨(InputFeature_description_round_trip true demoWorld.mem.input 3 "in" ["in", "Input"]
        ["in", "Input", "3"] [] (by decide) (by rfl)).1,
      (InputFeature_description_round_trip true demoWorld.mem.input 3 "in" ["in", "Input"]
        ["in", "Input", "3"] [] (by decide) (by rfl)).2.1⟩,
    (InputFeature_description_round_trip true demoWorld.mem.input 3 "in" ["in", "Input"]
      ["in", "Input", "3"] [] (by decide) (by rfl)).2.2.2.2.1 (by decide),
    (InputFeature_description_round_trip true demoWorld.mem.input 3 "in" ["in", "Input"]
      ["in", "Input"] [] (by decide) (by rfl)).2.2.2.2.2 (by decide)⟩

end features
